import Mathlib

/-!
# ZincIDE: document registry, project files and the external run pipeline

A shallow embedding of the parts of `ZincIDE/mainwindow.cpp`,
`ZincIDE/project.cpp` and `MiniZincIDE/mainwindow.cpp` that the specification
talks about, followed by the theorems that settle its claims.

Conventions of the embedding:

* a `QString` is a Lean `String`, except in the project-file model, where the
  UTF-16 code units matter and a string is the list of its code units;
* a `QMap<QString, T>` is an association list used only through `QMap.find`,
  `QMap.insert`, `QMap.remove` and `QMap.modify`;
* pointers (`Doc*`, `CodeEditor*`, `MznProcess*`) are natural numbers and
  `NULL` is `none`;
* everything the code asks its environment (the file system, the button the
  user clicks in a dialog, whether a process exits in time) is an explicit
  argument of the embedded function.
-/

namespace ZincIDE

/-! ## Strings and maps -/

/-- `QString::endsWith`, on the character sequences. -/
def endsWith (s suffix : String) : Bool :=
  suffix.data.isSuffixOf s.data

/-- `QMap<QString, T>` as an association list. -/
abbrev QMap (α : Type) := List (String × α)

/-- `QMap::find` / `QMap::value`: the value stored under `k`, if any. -/
def QMap.find {α : Type} : QMap α → String → Option α
  | [], _ => none
  | (k', v) :: rest, k => if k' = k then some v else QMap.find rest k

/-- `QMap::remove`: drop every entry stored under `k`. -/
def QMap.remove {α : Type} : QMap α → String → QMap α
  | [], _ => []
  | (k', v) :: rest, k =>
    if k' = k then QMap.remove rest k else (k', v) :: QMap.remove rest k

/-- `QMap::insert`: store `v` under `k`, replacing what was there. -/
def QMap.insert {α : Type} (m : QMap α) (k : String) (v : α) : QMap α :=
  (k, v) :: QMap.remove m k

/-- Mutation of the value stored under `k` through an iterator or pointer
(`it.value()->... = ...`): the entry stays where it is. -/
def QMap.modify {α : Type} : QMap α → String → (α → α) → QMap α
  | [], _, _ => []
  | (k', v) :: rest, k, f =>
    if k' = k then (k', f v) :: QMap.modify rest k f else (k', v) :: QMap.modify rest k f

/-- `QMap::contains`. -/
def QMap.contains {α : Type} (m : QMap α) (k : String) : Bool :=
  (QMap.find m k).isSome

/-! ## The document registry (`IDE::documents`, `IDE::fsWatch`) -/

/-- The part of a `QTextDocument` the registry code touches. -/
structure TextDocument where
  text : String
  modified : Bool
deriving DecidableEq, Repr

/-- `struct IDE::Doc`.  `addr` is the address of the heap object, which is
also what `&d->td` identifies; `editors` is the `QSet<CodeEditor*>`. -/
structure Doc where
  addr : Nat
  td : TextDocument
  editors : List Nat
  large : Bool
deriving DecidableEq, Repr

/-- What the file system holds at a path: nothing, a file that cannot be
opened for reading, or a file with its size in bytes and its text. -/
inductive FileEntry where
  | missing
  | unreadable
  | readable (size : Nat) (content : String)
deriving DecidableEq, Repr

/-- The file system, as the code observes it. -/
abbrev FileSystem := String → FileEntry

/-- The registry fields of `class IDE`.  `nextAddr` is the allocator behind
`new Doc`. -/
structure IDE where
  documents : QMap Doc
  fsWatch : List String
  nextAddr : Nat
deriving DecidableEq, Repr

/-- `QFileSystemWatcher::addPath`: the watcher holds a set of paths. -/
def addPath (w : List String) (p : String) : List String :=
  if p ∈ w then w else w ++ [p]

/-- `QFileSystemWatcher::removePath`. -/
def removePath (w : List String) (p : String) : List String :=
  w.filter (fun q => decide (q ≠ p))

/-- The threshold of `IDE::loadFile`: `5*1024*1024` bytes. -/
def largeFileLimit : Nat := 5 * 1024 * 1024

/-- The registry before any document is loaded. -/
def IDE.empty : IDE := { documents := [], fsWatch := [], nextAddr := 0 }

/-- `IDE::hasFile`. -/
def IDE.hasFile (ide : IDE) (path : String) : Bool :=
  QMap.contains ide.documents path

/-- `IDE::loadFile`.  Returns the new registry and the `QPair` of the text
buffer (`none` for `NULL`) and the large flag. -/
def IDE.loadFile (ide : IDE) (fs : FileSystem) (path : String) :
    IDE × Option Nat × Bool :=
  match QMap.find ide.documents path with
  | none =>
    match fs path with
    | FileEntry.readable size content =>
      let large := (endsWith path ".dzn" || endsWith path ".fzn") && decide (size > largeFileLimit)
      let d : Doc :=
        { addr := ide.nextAddr
          td := { text := if large then "" else content, modified := false }
          editors := []
          large := large }
      ({ documents := QMap.insert ide.documents path d
         fsWatch := if large then ide.fsWatch else addPath ide.fsWatch path
         nextAddr := ide.nextAddr + 1 },
       some d.addr, d.large)
    | _ => (ide, none, false)
  | some d => (ide, some d.addr, d.large)

/-- `IDE::registerEditor`. -/
def IDE.registerEditor (ide : IDE) (path : String) (ce : Nat) : IDE :=
  { ide with
    documents := QMap.modify ide.documents path (fun d =>
      { d with editors := if ce ∈ d.editors then d.editors else d.editors ++ [ce] }) }

/-- `QSet::remove` on the editor set. -/
def removeFromSet (editors : List Nat) (ce : Nat) : List Nat :=
  editors.filter (fun e => decide (e ≠ ce))

/-- `IDE::removeEditor`. -/
def IDE.removeEditor (ide : IDE) (path : String) (ce : Nat) : IDE :=
  match QMap.find ide.documents path with
  | none => ide
  | some d =>
    if (removeFromSet d.editors ce).isEmpty then
      { ide with
        documents := QMap.remove ide.documents path
        fsWatch := removePath ide.fsWatch path }
    else
      { ide with
        documents := QMap.modify ide.documents path
          (fun d => { d with editors := removeFromSet d.editors ce }) }

/-- The two buttons of the dialog in `IDE::fileModified`. -/
inductive ReloadChoice where
  | cancel
  | reload
deriving DecidableEq, Repr

/-- `QTextDocument::setModified` on a registered document. -/
def Doc.setModified (d : Doc) (b : Bool) : Doc :=
  { d with td := { d.td with modified := b } }

/-- `QTextDocument::setPlainText` on a registered document. -/
def Doc.setPlainText (d : Doc) (t : String) : Doc :=
  { d with td := { d.td with text := t } }

/-- `IDE::fileModified`.  `clicked` is the button the user chooses when the
dialog is shown. -/
def IDE.fileModified (ide : IDE) (fs : FileSystem) (clicked : ReloadChoice)
    (f : String) : IDE :=
  match QMap.find ide.documents f with
  | none => ide
  | some _ =>
    match fs f with
    | FileEntry.missing => ide
    | entry =>
      match clicked with
      | ReloadChoice.cancel =>
        { ide with documents := QMap.modify ide.documents f (fun d => d.setModified true) }
      | ReloadChoice.reload =>
        match entry with
        | FileEntry.readable _ content =>
          let reloaded := fun (d : Doc) => (d.setPlainText content).setModified false
          { ide with documents := QMap.modify ide.documents f reloaded }
        | _ =>
          { ide with documents := QMap.modify ide.documents f (fun d => d.setModified true) }

/-! ## Project files (`MainWindow::saveProject`, `MainWindow::loadProject`)

The project file is a `QDataStream`: a sequence of bytes.  Integers are
written big-endian in four bytes, a `bool` in one byte, a `QString` as its
length in bytes followed by its UTF-16 code units (high byte first), and a
`QStringList` as the number of its items followed by the items. -/

/-- A `QString` as the list of its UTF-16 code units. -/
abbrev QStr := List Nat

/-- The code units of a Lean string of basic-plane characters. -/
def qstr (s : String) : QStr := s.data.map Char.toNat

/-- The types of the values that go through the stream operators. -/
inductive FieldType where
  | u32
  | i32
  | bool
  | string
  | stringList
deriving DecidableEq, Repr

/-- A value written with `out << value`. -/
inductive Field where
  | u32 (n : Nat)
  | i32 (i : Int)
  | bool (b : Bool)
  | string (s : QStr)
  | stringList (l : List QStr)
deriving DecidableEq, Repr

/-- The type of a written value. -/
def Field.type : Field → FieldType
  | Field.u32 _ => FieldType.u32
  | Field.i32 _ => FieldType.i32
  | Field.bool _ => FieldType.bool
  | Field.string _ => FieldType.string
  | Field.stringList _ => FieldType.stringList

/-- `out << (quint32)n`: four bytes, most significant first. -/
def putU32 (n : Nat) : List Nat :=
  [n / 2 ^ 24 % 256, n / 2 ^ 16 % 256, n / 2 ^ 8 % 256, n % 256]

/-- `out << (qint32)i`: the two-complement word of `i`. -/
def putI32 (i : Int) : List Nat :=
  putU32 (i % 2 ^ 32).toNat

/-- `out << b` for a `bool`. -/
def putBool (b : Bool) : List Nat :=
  [if b then 1 else 0]

/-- `out << s` for a `QString`. -/
def putString (s : QStr) : List Nat :=
  putU32 (2 * s.length) ++ s.flatMap (fun c => [c / 256 % 256, c % 256])

/-- `out << l` for a `QStringList`. -/
def putStringList (l : List QStr) : List Nat :=
  putU32 l.length ++ l.flatMap putString

/-- The bytes of one written value. -/
def Field.encode : Field → List Nat
  | Field.u32 n => putU32 n
  | Field.i32 i => putI32 i
  | Field.bool b => putBool b
  | Field.string s => putString s
  | Field.stringList l => putStringList l

/-- `in >> n` for a `quint32`.  A short read yields 0 and exhausts the
stream. -/
def getU32 : List Nat → Nat × List Nat
  | a :: b :: c :: d :: rest => (((a * 256 + b) * 256 + c) * 256 + d, rest)
  | _ => (0, [])

/-- `in >> i` for a `qint32`. -/
def getI32 (s : List Nat) : Int × List Nat :=
  let r := getU32 s
  (if r.1 < 2 ^ 31 then (r.1 : Int) else (r.1 : Int) - 2 ^ 32, r.2)

/-- `in >> b` for a `bool`: one byte, true when it is not zero. -/
def getBool : List Nat → Bool × List Nat
  | b :: rest => (b != 0, rest)
  | [] => (false, [])

/-- The code units held in a run of bytes. -/
def codeUnits : List Nat → QStr
  | hi :: lo :: rest => (hi * 256 + lo) :: codeUnits rest
  | _ => []

/-- `in >> s` for a `QString`.  The null marker, a zero length and an odd
length give the empty string; a length beyond the end of the stream gives the
empty string and exhausts the stream. -/
def getString (s : List Nat) : QStr × List Nat :=
  let r := getU32 s
  if r.1 = 0xFFFFFFFF then ([], r.2)
  else if r.1 = 0 then ([], r.2)
  else if r.1 % 2 = 1 then ([], r.2)
  else if r.2.length < r.1 then ([], [])
  else (codeUnits (r.2.take r.1), r.2.drop r.1)

/-- The item loop of `in >> l` for a `QStringList`: up to `c` items, stopping
when the stream is at its end. -/
def getStrings : Nat → List Nat → List QStr × List Nat
  | 0, s => ([], s)
  | c + 1, s =>
    let r := getString s
    if r.2.isEmpty then ([r.1], r.2)
    else
      let rs := getStrings c r.2
      (r.1 :: rs.1, rs.2)

/-- `in >> l` for a `QStringList`. -/
def getStringList (s : List Nat) : List QStr × List Nat :=
  let r := getU32 s
  getStrings r.1 r.2

/-- The magic number of a project file. -/
def projectMagic : Nat := 0xD539EA12

/-- What `saveProject` takes from the window and the project: the open files
(relative to the project directory), the configuration read through the
`Project` getters, the current tab and the project file list. -/
structure ProjectData where
  openFiles : List QStr
  currentDataFileIndex : Int
  haveZincArgs : Bool
  zincArgs : QStr
  n_solutions : Int
  printAll : Bool
  printStats : Bool
  haveSolverFlags : Bool
  solverFlags : QStr
  solverVerbose : Bool
  currentIndex : Int
  projectFiles : List QStr
deriving DecidableEq, Repr

/-- The values `saveProject` writes, in the order of its `out <<` statements. -/
def saveProjectFields (p : ProjectData) : List Field :=
  [ Field.u32 projectMagic,
    Field.u32 103,
    Field.stringList p.openFiles,
    Field.string [],
    Field.i32 p.currentDataFileIndex,
    Field.bool p.haveZincArgs,
    Field.string p.zincArgs,
    Field.i32 p.n_solutions,
    Field.bool p.printAll,
    Field.bool p.printStats,
    Field.bool p.haveSolverFlags,
    Field.string p.solverFlags,
    Field.bool p.solverVerbose,
    Field.i32 p.currentIndex,
    Field.stringList p.projectFiles ]

/-- `MainWindow::saveProject`: the content of the file it writes. -/
def saveProject (p : ProjectData) : List Nat :=
  (saveProjectFields p).flatMap Field.encode

/-- The types `loadProject` reads, in the order of its `in >>` statements:
the two header words, then the body. -/
def loadProjectReads : List FieldType :=
  [ FieldType.u32, FieldType.u32,
    FieldType.stringList,   -- openFiles
    FieldType.string,       -- p_s, the former include path
    FieldType.i32,          -- dataFileIndex
    FieldType.bool,         -- haveZincArgs
    FieldType.string,       -- zincArgs
    FieldType.bool,         -- printAll
    FieldType.bool,         -- printStats
    FieldType.bool,         -- haveSolverFlags
    FieldType.string,       -- solverFlags
    FieldType.bool,         -- solverVerbose
    FieldType.i32,          -- tab index
    FieldType.stringList ]  -- projectFilesRelPath

/-- What `loadProject` hands on from the body of the file: to the `Project`
setters, to `setCurrentIndex`, to `openFile` and to `addFile`. -/
structure LoadedProject where
  openFiles : List QStr
  dataFileIndex : Int
  haveZincArgs : Bool
  zincArgs : QStr
  printAll : Bool
  printStats : Bool
  haveSolverFlags : Bool
  solverFlags : QStr
  solverVerbose : Bool
  currentIndex : Int
  projectFilesRelPath : List QStr
deriving DecidableEq, Repr

/-- The body of `MainWindow::loadProject`, from `in >> openFiles` on; `s` is
the stream after the two header words. -/
def loadProjectBody (s : List Nat) : LoadedProject :=
  let openFiles := getStringList s
  let includePath := getString openFiles.2
  let dataFileIndex := getI32 includePath.2
  let haveZincArgs := getBool dataFileIndex.2
  let zincArgs := getString haveZincArgs.2
  let printAll := getBool zincArgs.2
  let printStats := getBool printAll.2
  let haveSolverFlags := getBool printStats.2
  let solverFlags := getString haveSolverFlags.2
  let solverVerbose := getBool solverFlags.2
  let tabIndex := getI32 solverVerbose.2
  let projectFilesRelPath := getStringList tabIndex.2
  { openFiles := openFiles.1
    dataFileIndex := dataFileIndex.1
    haveZincArgs := haveZincArgs.1
    zincArgs := zincArgs.1
    printAll := printAll.1
    printStats := printStats.1
    haveSolverFlags := haveSolverFlags.1
    solverFlags := solverFlags.1
    solverVerbose := solverVerbose.1
    currentIndex := tabIndex.1
    projectFilesRelPath := projectFilesRelPath.1 }

/-- The fields of the window and of the application that `loadProject`
registers a project in: `projectPath`, `Project::projectRoot`,
`IDE::recentProjects` and `IDE::projects` (path to window). -/
structure ProjectWindow where
  projectPath : String
  projectRoot : String
  recentProjects : List String
  projects : QMap Nat
deriving DecidableEq, Repr

/-- The list update of `MainWindow::updateRecentProjects`. -/
def updateRecentProjects (recent : List String) (p : String) : List String :=
  if p = "" then recent
  else (p :: recent.filter (fun q => decide (q ≠ p))).take 7

/-- What `close()` does to these fields through `MainWindow::closeEvent`:
when the close is accepted the window leaves `IDE::projects` and forgets its
path; when the user cancels nothing changes. -/
def closeEvent (w : ProjectWindow) (accepted : Bool) : ProjectWindow :=
  if accepted then
    { w with
      projects := if w.projectPath = "" then w.projects else QMap.remove w.projects w.projectPath
      projectPath := "" }
  else w

/-- `MainWindow::loadProject` for the window `self`, on the file `filepath`
with content `bytes` (empty when the file cannot be opened).  Returns the
registration fields and, when the body was read, the values read. -/
def loadProject (w : ProjectWindow) (self : Nat) (filepath : String) (bytes : List Nat)
    (closeAccepted : Bool) : ProjectWindow × Option LoadedProject :=
  let magic := getU32 bytes
  if magic.1 ≠ projectMagic then (closeEvent w closeAccepted, none)
  else
    let version := getU32 magic.2
    if version.1 ≠ 101 ∧ version.1 ≠ 102 ∧ version.1 ≠ 103 then
      (closeEvent w closeAccepted, none)
    else
      ({ projectPath := filepath
         recentProjects := updateRecentProjects w.recentProjects filepath
         projectRoot := filepath
         projects := QMap.insert w.projects filepath self },
       some (loadProjectBody version.2))

/-- What a faithful reload of `p` would hand on. -/
def ProjectData.expected (p : ProjectData) : LoadedProject :=
  { openFiles := p.openFiles
    dataFileIndex := p.currentDataFileIndex
    haveZincArgs := p.haveZincArgs
    zincArgs := p.zincArgs
    printAll := p.printAll
    printStats := p.printStats
    haveSolverFlags := p.haveSolverFlags
    solverFlags := p.solverFlags
    solverVerbose := p.solverVerbose
    currentIndex := p.currentIndex
    projectFilesRelPath := p.projectFiles }

/-- A string the stream can carry: 16-bit code units and a byte length that
fits the 32-bit length word. -/
def QStr.Valid (s : QStr) : Prop :=
  (∀ c ∈ s, c < 65536) ∧ 2 * s.length < 2 ^ 32

/-- A string list the stream can carry. -/
def validStrings (l : List QStr) : Prop :=
  (∀ s ∈ l, QStr.Valid s) ∧ l.length < 2 ^ 32

/-- A project state the stream can carry: valid strings and 32-bit integers. -/
structure ProjectData.Valid (p : ProjectData) : Prop where
  openFiles : validStrings p.openFiles
  dataFileIndex : -2 ^ 31 ≤ p.currentDataFileIndex ∧ p.currentDataFileIndex < 2 ^ 31
  zincArgs : QStr.Valid p.zincArgs
  n_solutions : -2 ^ 31 ≤ p.n_solutions ∧ p.n_solutions < 2 ^ 31
  solverFlags : QStr.Valid p.solverFlags
  currentIndex : -2 ^ 31 ≤ p.currentIndex ∧ p.currentIndex < 2 ^ 31
  projectFiles : validStrings p.projectFiles

/-- A project with one model open, default solution count, and the
"print all", "statistics" and "verbose" boxes ticked. -/
def sampleProject : ProjectData :=
  { openFiles := [qstr "m.zinc"]
    currentDataFileIndex := 0
    haveZincArgs := false
    zincArgs := []
    n_solutions := 1
    printAll := true
    printStats := true
    haveSolverFlags := false
    solverFlags := []
    solverVerbose := true
    currentIndex := 1
    projectFiles := [qstr "m.zinc"] }

/-! ## The main window and its external process

The state below holds the fields of `MainWindow` that the run pipeline reads
and writes.  `log` is not a field of the class: it records, in order, what the
handlers do to operating-system processes. -/

/-- The part of a `CodeEditor` the pipeline looks at: its file path and the
modified flag of its document. -/
structure CodeEditor where
  filepath : String
  modified : Bool
deriving DecidableEq, Repr

/-- A page of the tab widget: the configuration page or an editor. -/
inductive Tab where
  | configuration
  | editor (ce : CodeEditor)
deriving DecidableEq, Repr

/-- Which slots a process is connected to: those of `startCompileZinc`
(`compileZincFinished`) or those of `startRunZinc` (`runZincFinished`). -/
inductive ProcKind where
  | compileZinc
  | runZinc
deriving DecidableEq, Repr

/-- A `MznProcess` object: its identity and its connections. -/
structure Proc where
  pid : Nat
  kind : ProcKind
deriving DecidableEq, Repr

/-- What a handler does to a process: `process->start(...)`,
`::kill(pid, SIGINT)`, `process->waitForFinished(msecs)` (`none` for the call
without an argument), `process->kill()` and `delete process`. -/
inductive Effect where
  | start (pid : Nat) (kind : ProcKind)
  | interrupt (pid : Nat)
  | waitForFinished (pid : Nat) (msecs : Option Nat)
  | kill (pid : Nat)
  | delete (pid : Nat)
deriving DecidableEq, Repr

/-- The buttons of the "save before running" dialog. -/
inductive SaveChoice where
  | save
  | cancel
  | alwaysSave
deriving DecidableEq, Repr

/-- The window state.  `curEditor` is the tab index of the current editor
(`none` for `NULL`); `actionRun`, `actionCompile`, `actionStop` and
`configurationEnabled` are the enabled flags of the widgets; `tmpDir` and
`outputBuffer` say whether the pointer is set; `nextPid` is the allocator
behind `new MznProcess`. -/
structure MainWindow where
  tabs : List Tab
  curEditor : Option Nat
  process : Option Proc
  outputProcess : Option Nat
  tmpDir : Bool
  outputBuffer : Bool
  processWasStopped : Bool
  compileOnly : Bool
  saveBeforeRunning : Bool
  actionRun : Bool
  actionCompile : Bool
  actionStop : Bool
  configurationEnabled : Bool
  timerActive : Bool
  nextPid : Nat
  log : List Effect
deriving DecidableEq, Repr

/-- `QFileInfo(path).fileName()`: what follows the last slash. -/
def fileName (path : String) : List Char :=
  (path.data.reverse.takeWhile (fun c => c != '/')).reverse

/-- `QFileInfo(path).completeSuffix()`: what follows the first dot of the file
name. -/
def completeSuffix (path : String) : List Char :=
  ((fileName path).dropWhile (fun c => c != '.')).drop 1

/-- The test `QFileInfo(curEditor->filepath).completeSuffix()=="zinc"` of
`tabChange`. -/
def isZinc (path : String) : Bool :=
  decide (completeSuffix path = ['z', 'i', 'n', 'c'])

/-- The editor `curEditor` points to. -/
def MainWindow.editor (w : MainWindow) : Option CodeEditor :=
  match w.curEditor with
  | none => none
  | some i =>
    match w.tabs[i]? with
    | some (Tab.editor ce) => some ce
    | _ => none

/-- `curEditor->document()->setModified(b)`. -/
def MainWindow.setModified (w : MainWindow) (b : Bool) : MainWindow :=
  match w.curEditor with
  | none => w
  | some i =>
    match w.tabs[i]? with
    | some (Tab.editor ce) => { w with tabs := w.tabs.set i (Tab.editor { ce with modified := b }) }
    | _ => w

/-- A window as the constructor and `init` leave it, with the given pages:
no process, Stop disabled, and `tabChange(0)` done on the configuration page. -/
def MainWindow.initial (tabs : List Tab) : MainWindow :=
  { tabs := tabs
    curEditor := none
    process := none
    outputProcess := none
    tmpDir := false
    outputBuffer := false
    processWasStopped := false
    compileOnly := false
    saveBeforeRunning := false
    actionRun := false
    actionCompile := false
    actionStop := false
    configurationEnabled := true
    timerActive := false
    nextPid := 0
    log := [] }

/-- `MainWindow::tabChange(tab)`; `none` is the index -1, and an index is that
of a page of the tab widget, as the widget reports it.  For an editor page,
Run and Compile are enabled exactly when the file is a `.zinc` file. -/
def MainWindow.tabChange (w : MainWindow) (tab : Option Nat) : MainWindow :=
  match tab with
  | none => { w with curEditor := none }
  | some i =>
    match w.tabs[i]? with
    | some (Tab.editor ce) =>
      { w with
        curEditor := some i
        actionRun := isZinc ce.filepath
        actionCompile := isZinc ce.filepath }
    | _ =>
      { w with
        curEditor := none
        actionRun := false
        actionCompile := false }

/-- `MainWindow::startCompileZinc`. -/
def MainWindow.startCompileZinc (w : MainWindow) : MainWindow :=
  { w with
    actionRun := false
    actionCompile := false
    actionStop := true
    configurationEnabled := false
    process := some { pid := w.nextPid, kind := ProcKind.compileZinc }
    processWasStopped := false
    nextPid := w.nextPid + 1
    log := w.log ++ [Effect.start w.nextPid ProcKind.compileZinc] }

/-- `MainWindow::startRunZinc`. -/
def MainWindow.startRunZinc (w : MainWindow) : MainWindow :=
  { w with
    actionRun := false
    actionCompile := false
    actionStop := true
    configurationEnabled := false
    process := some { pid := w.nextPid, kind := ProcKind.runZinc }
    processWasStopped := false
    nextPid := w.nextPid + 1
    log := w.log ++ [Effect.start w.nextPid ProcKind.runZinc] }

/-- `MainWindow::procFinished`.  Its `readOutput()` call and its messages go
to the console, which this state does not hold. -/
def MainWindow.procFinished (w : MainWindow) (_exitcode : Int) : MainWindow :=
  { w with
    actionRun := true
    actionCompile := true
    actionStop := false
    configurationEnabled := true
    timerActive := false
    process := none
    outputProcess := none
    tmpDir := false
    outputBuffer := false }

/-- `MainWindow::on_actionSave_triggered` for an editor with a file path:
`saveFile(curEditor, curEditor->filepath)`.  When the file can be written the
document becomes unmodified and `tabChange` runs on the editor page; when it
cannot, a warning is shown and nothing changes. -/
def MainWindow.on_actionSave_triggered (w : MainWindow) (writable : Bool) : MainWindow :=
  match w.editor with
  | none => w
  | some _ =>
    if writable then (w.setModified false).tabChange w.curEditor
    else w

/-- The window in which `on_actionRun_triggered` calls `on_actionSave_triggered`
when the document is modified and the user does not decline: the "Always save"
button has set `saveBeforeRunning`. -/
def MainWindow.beforeSave (w : MainWindow) (clicked : SaveChoice) : MainWindow :=
  if w.saveBeforeRunning = false ∧ clicked = SaveChoice.alwaysSave
  then { w with saveBeforeRunning := true } else w

/-- `MainWindow::on_actionRun_triggered`.  `clicked` is the button chosen if
the save dialog is shown, `writable` whether the file can be written if a save
is attempted, `upToDate` the result of `targetIsUpToDate()`. -/
def MainWindow.on_actionRun_triggered (w : MainWindow) (clicked : SaveChoice)
    (writable upToDate : Bool) : MainWindow :=
  match w.editor with
  | none => w
  | some ce =>
    if ce.filepath = "" then w
    else
      let afterSave : Option MainWindow :=
        if ce.modified then
          if !w.saveBeforeRunning then
            let w1 := if clicked = SaveChoice.alwaysSave
              then { w with saveBeforeRunning := true } else w
            if clicked ≠ SaveChoice.save ∧ clicked ≠ SaveChoice.alwaysSave then none
            else some (w1.on_actionSave_triggered writable)
          else some (w.on_actionSave_triggered writable)
        else some w
      match afterSave with
      | none => w
      | some w2 =>
        match w2.editor with
        | none => w2
        | some ce2 =>
          if ce2.modified then w2
          else if !upToDate then
            ({ w2 with compileOnly := false }).startCompileZinc
          else w2.startRunZinc

/-- `MainWindow::on_actionCompile_triggered`. -/
def MainWindow.on_actionCompile_triggered (w : MainWindow) (clicked : SaveChoice)
    (writable : Bool) : MainWindow :=
  match w.editor with
  | none => w
  | some ce =>
    if ce.filepath = "" then w
    else
      let afterSave : Option MainWindow :=
        if ce.modified then
          if !w.saveBeforeRunning then
            let w1 := if clicked = SaveChoice.alwaysSave
              then { w with saveBeforeRunning := true } else w
            if clicked ≠ SaveChoice.save ∧ clicked ≠ SaveChoice.alwaysSave then none
            else some (w1.on_actionSave_triggered writable)
          else some (w.on_actionSave_triggered writable)
        else some w
      match afterSave with
      | none => w
      | some w2 =>
        match w2.editor with
        | none => w2
        | some ce2 =>
          if ce2.modified then w2
          else
            ({ w2 with
               actionRun := false
               actionCompile := false
               actionStop := true
               configurationEnabled := false
               compileOnly := true }).startCompileZinc

/-- `MainWindow::compileZincFinished`. -/
def MainWindow.compileZincFinished (w : MainWindow) (exitcode : Int) : MainWindow :=
  if w.processWasStopped then w
  else
    let w1 := w.procFinished exitcode
    if exitcode = 0 ∧ w1.compileOnly = false then w1.startRunZinc else w1

/-- `MainWindow::runZincFinished`. -/
def MainWindow.runZincFinished (w : MainWindow) (exitcode : Int) : MainWindow :=
  if w.processWasStopped then w else w.procFinished exitcode

/-- `MainWindow::on_actionStop_triggered`.  `finishedInTime` is the result of
`process->waitForFinished(100)`. -/
def MainWindow.on_actionStop_triggered (w : MainWindow) (finishedInTime : Bool) : MainWindow :=
  match w.process with
  | none => w
  | some p =>
    let w1 := { w with
      processWasStopped := true
      log := w.log ++ [Effect.interrupt p.pid, Effect.waitForFinished p.pid (some 100)] }
    let w2 := if !finishedInTime then
        { w1 with log := w1.log ++ [Effect.kill p.pid, Effect.waitForFinished p.pid none] }
      else w1
    let w3 := { w2 with log := w2.log ++ [Effect.delete p.pid], process := none }
    w3.procFinished 0

/-- The events of a window: the user triggers Run, Compile or Stop, the tab
widget reports a page change, or the process in `process` reports that it has
finished. -/
inductive Event where
  | run (clicked : SaveChoice) (writable upToDate : Bool)
  | compile (clicked : SaveChoice) (writable : Bool)
  | stop (finishedInTime : Bool)
  | tabChange (tab : Option Nat)
  | processFinished (exitcode : Int)
deriving DecidableEq, Repr

/-- One event.  Run and Compile reach their handlers only while their actions
are enabled; a finished process calls the slot it was connected to. -/
def MainWindow.step (w : MainWindow) : Event → MainWindow
  | Event.run clicked writable upToDate =>
    if w.actionRun then w.on_actionRun_triggered clicked writable upToDate else w
  | Event.compile clicked writable =>
    if w.actionCompile then w.on_actionCompile_triggered clicked writable else w
  | Event.stop finishedInTime => w.on_actionStop_triggered finishedInTime
  | Event.tabChange tab => w.tabChange tab
  | Event.processFinished exitcode =>
    match w.process with
    | none => w
    | some p =>
      match p.kind with
      | ProcKind.compileZinc => w.compileZincFinished exitcode
      | ProcKind.runZinc => w.runZincFinished exitcode

/-- A sequence of events, in order. -/
def MainWindow.run (w : MainWindow) : List Event → MainWindow
  | [] => w
  | e :: rest => MainWindow.run (w.step e) rest

/-- A window opened on the saved models `/home/u/m.zinc` and `/home/u/k.zinc`:
the configuration page and two editor pages. -/
def sampleWindow : MainWindow :=
  MainWindow.initial
    [Tab.configuration,
     Tab.editor { filepath := "/home/u/m.zinc", modified := false },
     Tab.editor { filepath := "/home/u/k.zinc", modified := false }]

/-- A window whose current page is an editor on `/home/u/m.zinc` with unsaved
changes. -/
def modifiedWindow : MainWindow :=
  (MainWindow.initial
    [Tab.configuration, Tab.editor { filepath := "/home/u/m.zinc", modified := true }]).tabChange
    (some 1)

/-- The sample window while its first compile process runs. -/
def compilingWindow : MainWindow :=
  sampleWindow.run [Event.tabChange (some 1), Event.run SaveChoice.save true false]

/-! ### Sample registry data -/

/-- A small model document opened in two editors. -/
def sampleDoc : Doc :=
  { addr := 7, td := { text := "int: n;", modified := false }, editors := [1, 2], large := false }

/-- A registry holding `sampleDoc` under `/home/u/m.zinc`. -/
def sampleIDE : IDE :=
  { documents := [("/home/u/m.zinc", sampleDoc)], fsWatch := ["/home/u/m.zinc"], nextAddr := 8 }

/-- A file system with a small model, a data file above the large-file
threshold and a file that cannot be opened. -/
def sampleFS : FileSystem := fun p =>
  if p = "/home/u/m.zinc" then FileEntry.readable 8 "int: m;"
  else if p = "/home/u/big.dzn" then FileEntry.readable 6000000 "n = 3;"
  else if p = "/home/u/locked.zinc" then FileEntry.unreadable
  else FileEntry.missing

/-- The file system after `/home/u/m.zinc` lost its read permission. -/
def lockedFS : FileSystem := fun p =>
  if p = "/home/u/m.zinc" then FileEntry.unreadable else FileEntry.missing

/-! ## More of the document registry -/

/-- `IDE::loadLargeFile`.  Returns the new registry and the editors whose
`loadedLargeFile()` is called.  The source looks the path up and uses the
result without a test, so the path is registered whenever it is called; on an
unregistered path the model changes nothing. -/
def IDE.loadLargeFile (ide : IDE) (fs : FileSystem) (path : String) : IDE × List Nat :=
  match QMap.find ide.documents path with
  | none => (ide, [])
  | some d =>
    if d.large then
      match fs path with
      | FileEntry.readable _ content =>
        let loaded := fun (d : Doc) =>
          ({ d.setPlainText content with large := false } : Doc).setModified false
        ({ ide with
           documents := QMap.modify ide.documents path loaded
           fsWatch := addPath ide.fsWatch path },
         d.editors)
      | _ => (ide, [])
    else (ide, [])

/-- `IDE::renameFile`. -/
def IDE.renameFile (ide : IDE) (oldPath newPath : String) : IDE :=
  match QMap.find ide.documents oldPath with
  | none => ide
  | some doc =>
    { ide with
      documents := QMap.insert (QMap.remove ide.documents oldPath) newPath doc
      fsWatch := addPath (removePath ide.fsWatch oldPath) newPath }

/-- A large, still unloaded data file, open in two editors. -/
def largeDoc : Doc :=
  { addr := 3, td := { text := "", modified := false }, editors := [4, 5], large := true }

/-- A registry holding `largeDoc`, not watched. -/
def largeIDE : IDE :=
  { documents := [("/home/u/big.dzn", largeDoc)], fsWatch := [], nextAddr := 4 }

/-! ## Process errors -/

/-- `QProcess::ProcessError`. -/
inductive ProcessError where
  | failedToStart
  | crashed
  | timedout
  | readError
  | writeError
  | unknownError
deriving DecidableEq, Repr

/-- The two texts of the message box in `MainWindow::procError`. -/
inductive ErrorMessage where
  | failedToStart
  | unknownError
deriving DecidableEq, Repr

/-- `MainWindow::procError`: a message box, then `procFinished(0)`.  Returns
the window and the message shown. -/
def MainWindow.procError (w : MainWindow) (e : ProcessError) : MainWindow × ErrorMessage :=
  (w.procFinished 0,
   if e = ProcessError.failedToStart then ErrorMessage.failedToStart
   else ErrorMessage.unknownError)

/-! ## Usage statistics (`IDEStatistics`) -/

/-- The `QVariant` values the statistics code creates and reads: the invalid
variant, an `int`, a `QStringList`, and a `QVariantMap`. -/
inductive QVariant where
  | invalid
  | int (i : Int)
  | stringList (l : List String)
  | map (entries : List (String × QVariant))

/-- `QVariant::isValid`. -/
def QVariant.isValid : QVariant → Bool
  | QVariant.invalid => false
  | _ => true

/-- `QVariant::toInt`: the number held, 0 for a variant that holds none. -/
def QVariant.toInt : QVariant → Int
  | QVariant.int i => i
  | _ => 0

/-- `QVariant::toStringList`: the list held, empty for a variant that holds
none. -/
def QVariant.toStringList : QVariant → List String
  | QVariant.stringList l => l
  | _ => []

/-- `QVariant::toMap`: the map held, empty for a variant that holds none. -/
def QVariant.toMap : QVariant → QMap QVariant
  | QVariant.map entries => entries
  | _ => []

/-- `QMap::operator[]` for reading: the value under `k`, or a
default-constructed (invalid) variant. -/
def QVariant.value (m : QMap QVariant) (k : String) : QVariant :=
  (QMap.find m k).getD QVariant.invalid

/-- `class IDEStatistics`. -/
structure IDEStatistics where
  errorsShown : Int
  errorsClicked : Int
  modelsRun : Int
  solvers : List String
deriving DecidableEq, Repr

/-- `IDEStatistics::init`. -/
def IDEStatistics.init (s : IDEStatistics) (v : QVariant) : IDEStatistics :=
  if v.isValid then
    let m := v.toMap
    { errorsShown := (QVariant.value m "errorsShown").toInt
      errorsClicked := (QVariant.value m "errorsClicked").toInt
      modelsRun := (QVariant.value m "modelsRun").toInt
      solvers := (QVariant.value m "solvers").toStringList }
  else s

/-- `IDEStatistics::toVariantMap`. -/
def IDEStatistics.toVariantMap (s : IDEStatistics) : QMap QVariant :=
  let m : QMap QVariant := []
  let m := QMap.insert m "errorsShown" (QVariant.int s.errorsShown)
  let m := QMap.insert m "errorsClicked" (QVariant.int s.errorsClicked)
  let m := QMap.insert m "modelsRun" (QVariant.int s.modelsRun)
  let m := QMap.insert m "solvers" (QVariant.stringList s.solvers)
  m

/-! ## Argument lists (`MainWindow::parseRunConf`, MiniZincIDE `parseConf`) -/

/-- `QString::SplitBehavior`. -/
inductive SplitBehavior where
  | KeepEmptyParts
  | SkipEmptyParts
deriving DecidableEq, Repr

/-- The piece collected so far, as `QString::split` appends it: always under
`KeepEmptyParts`, only when it is not empty under `SkipEmptyParts`.  `piece`
holds the characters in reverse. -/
def emitPiece (behavior : SplitBehavior) (piece : List Char) : List String :=
  if behavior = SplitBehavior.KeepEmptyParts ∨ piece ≠ [] then [String.mk piece.reverse] else []

/-- The scan of `QString::split(" ", behavior)`: walk the text, close a piece
at every space and one more at the end. -/
def splitScan (behavior : SplitBehavior) : List Char → List Char → List String
  | piece, [] => emitPiece behavior piece
  | piece, c :: rest =>
    if c = ' ' then emitPiece behavior piece ++ splitScan behavior [] rest
    else splitScan behavior (c :: piece) rest

/-- `s.split(" ", behavior)`. -/
def splitOnSpace (s : String) (behavior : SplitBehavior) : List String :=
  splitScan behavior [] s.data

/-- What `parseRunConf` reads through the `Project` getters.  The getter
`Project::currentDataFile2` is declared in `project.h`; its value, the text
selected in the second data-file box, is taken as given. -/
structure RunConfiguration where
  currentDataFile : String
  currentDataFile2 : String
  n_solutions : Int
  printStats : Bool
  solverVerbose : Bool
  haveSolverFlags : Bool
  solverFlags : String
deriving DecidableEq, Repr

/-- `MainWindow::parseRunConf`: `ret` grows statement by statement.
`QString::number` of an `int` is its decimal text. -/
def parseRunConf (project : RunConfiguration) : List String :=
  let ret : List String := []
  let ret := if project.currentDataFile ≠ "None" then ret ++ [project.currentDataFile] else ret
  let ret := if project.currentDataFile2 ≠ "None" then ret ++ [project.currentDataFile2] else ret
  let ret := if project.n_solutions ≠ 1
    then ret ++ ["-s", toString project.n_solutions] else ret
  let ret := if project.printStats then ret ++ ["-S"] else ret
  let ret := if project.solverVerbose then ret ++ ["-v"] else ret
  let ret := if project.haveSolverFlags
    then ret ++ splitOnSpace project.solverFlags SplitBehavior.SkipEmptyParts else ret
  ret

/-- The run arguments in the words of the specification: the first data file
unless "None", the second data file unless "None", "-s" and the decimal number
of solutions unless it is 1, "-S" for statistics, "-v" for verbose and, when
solver flags are enabled, the flags text split on single spaces with the empty
pieces dropped. -/
def runArguments (project : RunConfiguration) : List String :=
  (if project.currentDataFile ≠ "None" then [project.currentDataFile] else []) ++
  (if project.currentDataFile2 ≠ "None" then [project.currentDataFile2] else []) ++
  (if project.n_solutions ≠ 1 then ["-s", toString project.n_solutions] else []) ++
  (if project.printStats then ["-S"] else []) ++
  (if project.solverVerbose then ["-v"] else []) ++
  (if project.haveSolverFlags
    then (splitOnSpace project.solverFlags SplitBehavior.KeepEmptyParts).filter
      (fun piece => decide (piece ≠ ""))
    else [])

/-- A run configuration with one data file, three solutions, statistics and
solver flags with doubled and trailing spaces. -/
def sampleRunConfiguration : RunConfiguration :=
  { currentDataFile := "/home/u/d.dzn"
    currentDataFile2 := "None"
    n_solutions := 3
    printStats := true
    solverVerbose := false
    haveSolverFlags := true
    solverFlags := "--fast  -x 2 " }

/-- The `Solver` record of MiniZincIDE: name, executable, library flag,
backend. -/
structure MiniZincIDE.Solver where
  name : String
  executable : String
  mznlib : String
  backend : String
deriving DecidableEq, Repr

/-- The widgets MiniZincIDE `parseConf` reads: check boxes, text fields, spin
boxes, the solver list and the index stored in the selected solver item. -/
structure MiniZincIDE.Configuration where
  conf_optimize : Bool
  conf_verbose : Bool
  conf_have_cmd_params : Bool
  conf_cmd_params : String
  conf_data_file : String
  conf_printall : Bool
  conf_stats : Bool
  conf_nthreads : Int
  conf_have_seed : Bool
  conf_seed : String
  conf_nsol : Int
  solvers : List MiniZincIDE.Solver
  conf_solver : Nat
deriving DecidableEq, Repr

/-- MiniZincIDE `MainWindow::parseConf`.  The solver is `solvers[index]`; the
result is `none` when the index is not one of the list. -/
def MiniZincIDE.parseConf (ui : MiniZincIDE.Configuration) (compileOnly : Bool) :
    Option (List String) :=
  let ret : List String := []
  let ret := if !ui.conf_optimize then ret ++ ["--no-optimize"] else ret
  let ret := if ui.conf_verbose then ret ++ ["-v"] else ret
  let ret := if ui.conf_have_cmd_params then ret ++ ["-D" ++ ui.conf_cmd_params] else ret
  let ret := if ui.conf_data_file ≠ "None" then ret ++ ["-d" ++ ui.conf_data_file] else ret
  let ret := if !compileOnly && ui.conf_printall then ret ++ ["-a"] else ret
  let ret := if !compileOnly && ui.conf_stats then ret ++ ["-s"] else ret
  let ret := if !compileOnly && decide (ui.conf_nthreads ≠ 1)
    then ret ++ ["-p" ++ toString ui.conf_nthreads] else ret
  let ret := if !compileOnly && ui.conf_have_seed then ret ++ ["-r" ++ ui.conf_seed] else ret
  let ret := if !compileOnly && decide (ui.conf_nsol ≠ 1)
    then ret ++ ["-n" ++ toString ui.conf_nsol] else ret
  match ui.solvers[ui.conf_solver]? with
  | none => none
  | some s =>
    let ret := if !compileOnly then
        let ret := ret ++ ["-f", s.executable]
        if s.backend ≠ "" then ret ++ ["-b", s.backend] else ret
      else ret
    let ret := if s.mznlib ≠ "" then ret ++ [s.mznlib] else ret
    some ret

/-- The options both argument lists of MiniZincIDE start with. -/
def MiniZincIDE.commonOptions (ui : MiniZincIDE.Configuration) : List String :=
  (if !ui.conf_optimize then ["--no-optimize"] else []) ++
  (if ui.conf_verbose then ["-v"] else []) ++
  (if ui.conf_have_cmd_params then ["-D" ++ ui.conf_cmd_params] else []) ++
  (if ui.conf_data_file ≠ "None" then ["-d" ++ ui.conf_data_file] else [])

/-- The run-only options in the words of the specification: "-a", "-s",
"-p" with the threads, "-r" with the seed, "-n" with the solutions, "-f" with
the solver executable, "-b" with the backend. -/
def MiniZincIDE.runOnlyOptions (ui : MiniZincIDE.Configuration) (s : MiniZincIDE.Solver) :
    List String :=
  (if ui.conf_printall then ["-a"] else []) ++
  (if ui.conf_stats then ["-s"] else []) ++
  (if ui.conf_nthreads ≠ 1 then ["-p" ++ toString ui.conf_nthreads] else []) ++
  (if ui.conf_have_seed then ["-r" ++ ui.conf_seed] else []) ++
  (if ui.conf_nsol ≠ 1 then ["-n" ++ toString ui.conf_nsol] else []) ++
  ["-f", s.executable] ++
  (if s.backend ≠ "" then ["-b", s.backend] else [])

/-- The library flag of a solver, as a list: empty when the solver has none. -/
def MiniZincIDE.libraryFlag (s : MiniZincIDE.Solver) : List String :=
  if s.mznlib ≠ "" then [s.mznlib] else []

/-- The four solvers the MiniZincIDE constructor registers. -/
def MiniZincIDE.builtinSolvers : List MiniZincIDE.Solver :=
  [ { name := "G12 fd", executable := "flatzinc", mznlib := "-Gg12_fd", backend := "" },
    { name := "G12 lazyfd", executable := "flatzinc", mznlib := "-Gg12_fd", backend := "lazy" },
    { name := "G12 CPX", executable := "fzn_cpx", mznlib := "-Gg12_cpx", backend := "" },
    { name := "G12 MIP", executable := "flatzinc", mznlib := "-Glinear", backend := "mip" } ]

/-- A MiniZincIDE configuration: the lazy solver, four threads, all solutions
printed. -/
def MiniZincIDE.sampleConfiguration : MiniZincIDE.Configuration :=
  { conf_optimize := true
    conf_verbose := true
    conf_have_cmd_params := false
    conf_cmd_params := ""
    conf_data_file := "/home/u/d.dzn"
    conf_printall := true
    conf_stats := false
    conf_nthreads := 4
    conf_have_seed := false
    conf_seed := ""
    conf_nsol := 1
    solvers := MiniZincIDE.builtinSolvers
    conf_solver := 1 }

/-! ## Process output on the console -/

/-- What is put on the output console: `insertHtml(s)` or
`insertPlainText(s)`. -/
inductive ConsoleOp where
  | insertHtml (s : String)
  | insertPlainText (s : String)
deriving DecidableEq, Repr

/-- MiniZincIDE `MainWindow::readOutput`: the loop over the lines that
`canReadLine()` grants, each as `readLine()` returns it (with its newline). -/
def MiniZincIDE.readOutput (console : List ConsoleOp) : List String → List ConsoleOp
  | [] => console
  | l :: rest =>
    if l = "----------\n" then
      MiniZincIDE.readOutput (console ++ [ConsoleOp.insertHtml "<br>"]) rest
    else if l = "==========\n" then
      MiniZincIDE.readOutput
        (console ++
          [ConsoleOp.insertHtml "<div style=\x27color:red;\x27>Search complete.</div><br>"])
        rest
    else
      MiniZincIDE.readOutput (console ++ [ConsoleOp.insertPlainText l]) rest

/-- The three rendering rules in the words of the specification: the solution
boundary becomes a line break, the search-completion line becomes the notice
"Search complete.", any other line is plain text as it is. -/
def MiniZincIDE.renderLine (l : String) : ConsoleOp :=
  if l = "----------\n" then ConsoleOp.insertHtml "<br>"
  else if l = "==========\n" then
    ConsoleOp.insertHtml "<div style=\x27color:red;\x27>Search complete.</div><br>"
  else ConsoleOp.insertPlainText l

/-- The fields of the MiniZincIDE `MainWindow` around its process, with the
console and the log of what is done to processes.  `openCompiledFznConnected`
says whether `finished(int)` of the process is connected to `openCompiledFzn`
as well, as `on_actionCompile_triggered` does; `tmpDir` says whether the
pointer is set; `openFileCalls` counts the calls `openFile(currentFznTarget,
true)`. -/
structure MiniZincIDE.MainWindow where
  process : Option Nat
  openCompiledFznConnected : Bool
  tmpDir : Bool
  actionRun : Bool
  actionCompile : Bool
  actionStop : Bool
  timerActive : Bool
  statusLabel : String
  openFileCalls : Nat
  console : List ConsoleOp
  log : List Effect
deriving DecidableEq, Repr

/-- MiniZincIDE `MainWindow::procFinished`, the slot of `finished(int)`. -/
def MiniZincIDE.MainWindow.procFinished (w : MiniZincIDE.MainWindow) : MiniZincIDE.MainWindow :=
  { w with
    actionRun := true
    actionCompile := true
    actionStop := false
    timerActive := false
    statusLabel := "Ready"
    process := none }

/-- MiniZincIDE `MainWindow::openCompiledFzn`, the second slot of
`finished(int)` of a compile process. -/
def MiniZincIDE.MainWindow.openCompiledFzn (w : MiniZincIDE.MainWindow) (exitcode : Int) :
    MiniZincIDE.MainWindow :=
  let w1 := if exitcode = 0 then { w with openFileCalls := w.openFileCalls + 1 } else w
  { w1 with tmpDir := false }

/-- What runs inside `process->waitForFinished()`.  The complete lines that
arrive during the wait, `output`, go through `readOutput`, the slot of
`readyRead()`.  When the process finishes within the wait, `exit` is its exit
code and the slots of `finished(int)` run in the order of their connection:
`procFinished`, then `openCompiledFzn` when it is connected.  `exit` is `none`
when the wait ends without the process having finished (it was never started,
or the wait timed out). -/
def MiniZincIDE.MainWindow.waitForFinished (w : MiniZincIDE.MainWindow)
    (output : List String) (exit : Option Int) : MiniZincIDE.MainWindow :=
  let w1 := { w with console := MiniZincIDE.readOutput w.console output }
  match exit with
  | some exitcode =>
    let w2 := w1.procFinished
    if w2.openCompiledFznConnected then w2.openCompiledFzn exitcode else w2
  | none => w1

/-- MiniZincIDE `MainWindow::on_actionStop_triggered`; `output` and `exit` are
what happens during `process->waitForFinished()`.  The slot `procError` is
disconnected first.  `delete process` deletes the object `process` points to
at that moment: nothing when the slot `procFinished` has set it to `NULL`. -/
def MiniZincIDE.MainWindow.on_actionStop_triggered (w : MiniZincIDE.MainWindow)
    (output : List String) (exit : Option Int) : MiniZincIDE.MainWindow :=
  match w.process with
  | none => w
  | some p =>
    let w1 := { w with log := w.log ++ [Effect.kill p, Effect.waitForFinished p none] }
    let w2 := w1.waitForFinished output exit
    let w3 :=
      match w2.process with
      | some q => { w2 with log := w2.log ++ [Effect.delete q] }
      | none => w2
    { w3 with
      process := none
      console := w3.console ++
        [ConsoleOp.insertHtml "<div style=\x27color:red;\x27>Stopped.</div><br>"] }

/-- A MiniZincIDE window while its solver, process 0, runs. -/
def MiniZincIDE.runningWindow : MiniZincIDE.MainWindow :=
  { process := some 0
    openCompiledFznConnected := false
    tmpDir := false
    actionRun := false
    actionCompile := false
    actionStop := true
    timerActive := true
    statusLabel := "Running."
    openFileCalls := 0
    console := [ConsoleOp.insertHtml "<div style=\x27color:red;\x27>Starting m.mzn</div><br>"]
    log := [] }

/-- A MiniZincIDE window while its compiler, process 1, runs. -/
def MiniZincIDE.compilingWindow : MiniZincIDE.MainWindow :=
  { MiniZincIDE.runningWindow with
    process := some 1
    openCompiledFznConnected := true
    tmpDir := true
    console := [ConsoleOp.insertHtml "<div style=\x27color:red;\x27>Compiling m.mzn</div><br>"] }

/-! ## The output of the solver in ZincIDE (`MainWindow::readOutput`) -/

/-- `QChar::isSpace`: the control characters tab to carriage return, the
space, U+0085, U+00A0 and the Unicode separators. -/
def isSpace (c : Char) : Bool :=
  let n := c.toNat
  (9 ≤ n && n ≤ 13) || n = 0x20 || n = 0x85 || n = 0xA0 || n = 0x1680 ||
    (0x2000 ≤ n && n ≤ 0x200A) || n = 0x2028 || n = 0x2029 || n = 0x202F ||
    n = 0x205F || n = 0x3000

/-- `QString::trimmed`: the text without the white space at its two ends. -/
def trimmed (s : String) : String :=
  String.mk ((s.data.dropWhile isSpace).reverse.dropWhile isSpace).reverse

/-- `QString::startsWith`, on the character sequences. -/
def startsWith (s start : String) : Bool :=
  start.data.isPrefixOf s.data

/-- The text after `start` when `s` starts with it. -/
def afterStart (start s : String) : Option String :=
  if startsWith s start then some (String.mk (s.data.drop start.data.length)) else none

/-- `exactMatch` of the pattern `^(?:%%%(top|bottom))?%%%mzn-json:(.*)`: the
captures 1 (the area, empty when the optional group is absent) and 2 (the
rest of the line), or `none` when the text does not match. -/
def matchJSONHeader (t : String) : Option (String × String) :=
  match afterStart "%%%top%%%mzn-json:" t with
  | some rest => some ("top", rest)
  | none =>
    match afterStart "%%%bottom%%%mzn-json:" t with
    | some rest => some ("bottom", rest)
    | none =>
      match afterStart "%%%mzn-json:" t with
      | some rest => some ("", rest)
      | none => none

/-- `Qt::DockWidgetArea`, as far as the viewer uses it. -/
inductive DockArea where
  | top
  | bottom
deriving DecidableEq, Repr

/-- What `readOutput` asks of the HTML viewer: `new HTMLWindow(specs)`,
`addSolution(i, text)` and `finish(elapsed)`. -/
inductive ViewerOp where
  | openWindow (specs : List (String × DockArea))
  | addSolution (i : Nat) (text : String)
  | finish (elapsed : Nat)
deriving DecidableEq, Repr

/-- The fields of `MainWindow` that `readOutput` keeps between lines, with
the console, the output buffer (`none` for `NULL`, else what was written to
it) and the log of calls on the viewer. -/
structure OutputState where
  inJSONHandler : Bool
  curJSONHandler : Nat
  JSONOutput : List (List String)
  hadNonJSONOutput : Bool
  curHtmlWindow : Bool
  outputBuffer : Option (List String)
  console : List ConsoleOp
  viewer : List ViewerOp
deriving DecidableEq, Repr

/-- `JSONOutput[i]` changed in place by `f`; an index outside the list, which
the source does not guard against, changes nothing here. -/
def modifyBlock : List (List String) → Nat → (List String → List String) → List (List String)
  | [], _, _ => []
  | b :: rest, 0, f => f b :: rest
  | b :: rest, i + 1, f => b :: modifyBlock rest i f

/-- `addOutput(s, false)`. -/
def OutputState.addOutput (st : OutputState) (s : String) : OutputState :=
  { st with console := st.console ++ [ConsoleOp.insertPlainText s] }

/-- The window specification `openJSONViewer` builds from a block: its first
element without newlines, tabs and carriage returns, and the area its second
element names (top unless it is "bottom"). -/
def visWindowSpec (block : List String) : String × DockArea :=
  (String.mk ((block.headD "").data.filter
      (fun c => !(c == '\n' || c == '\t' || c == '\r'))),
   if block.getD 1 "" = "bottom" then DockArea.bottom else DockArea.top)

/-- The second loop of `openJSONViewer` on the blocks already popped:
`addSolution(i, JSONOutput[i].join(' '))` for each index from `i` on. -/
def addSolutions : Nat → List (List String) → List ViewerOp
  | _, [] => []
  | i, b :: rest => ViewerOp.addSolution i (" ".intercalate b) :: addSolutions (i + 1) rest

/-- `MainWindow::openJSONViewer`. -/
def OutputState.openJSONViewer (st : OutputState) : OutputState :=
  let st1 :=
    if st.curHtmlWindow then st
    else
      { st with
        curHtmlWindow := true
        viewer := st.viewer ++ [ViewerOp.openWindow (st.JSONOutput.map visWindowSpec)] }
  let popped := st1.JSONOutput.map (fun b => b.drop 2)
  { st1 with JSONOutput := popped, viewer := st1.viewer ++ addSolutions 0 popped }

/-- `MainWindow::finishJSONViewer`. -/
def OutputState.finishJSONViewer (st : OutputState) (elapsed : Nat) : OutputState :=
  if st.curHtmlWindow then { st with viewer := st.viewer ++ [ViewerOp.finish elapsed] } else st

/-- The body of the standard-output loop of `MainWindow::readOutput` for one
line `l`, as `readLine()` returns it; `elapsed` is `elapsedTime.elapsed()` at
that moment. -/
def OutputState.readOutputLine (st : OutputState) (elapsed : Nat) (l : String) : OutputState :=
  if st.inJSONHandler then
    let l := trimmed l
    if startsWith l "%%%mzn-json-time" then
      { st with
        JSONOutput := modifyBlock st.JSONOutput st.curJSONHandler
          (fun b => (b.take 2 ++ ["["] ++ b.drop 2) ++ ["," ++ toString elapsed ++ "]\n"]) }
    else if startsWith l "%%%mzn-json-end" then
      { st with curJSONHandler := st.curJSONHandler + 1, inJSONHandler := false }
    else
      { st with JSONOutput := modifyBlock st.JSONOutput st.curJSONHandler (fun b => b ++ [l]) }
  else
    match matchJSONHeader (trimmed l) with
    | some (area, url) =>
      { st with
        inJSONHandler := true
        JSONOutput := st.JSONOutput ++ [[url, if area = "" then "top" else area]] }
    | none =>
      if 0 < st.curJSONHandler ∧ trimmed l = "----------" then
        let st1 := st.openJSONViewer
        let st2 := { st1 with JSONOutput := [], curJSONHandler := 0 }
        if st2.hadNonJSONOutput then st2.addOutput l else st2
      else if st.curHtmlWindow = true ∧ trimmed l = "==========" then
        let st1 := st.finishJSONViewer elapsed
        if st1.hadNonJSONOutput then st1.addOutput l else st1
      else
        let st1 := { st with outputBuffer := st.outputBuffer.map (fun buffer => buffer ++ [l]) }
        { st1.addOutput l with hadNonJSONOutput := true }

/-- The standard-output loop of `MainWindow::readOutput` over the lines that
`canReadLine()` grants, each with the elapsed time at its moment. -/
def OutputState.readOutput (st : OutputState) : List (Nat × String) → OutputState
  | [] => st
  | (elapsed, l) :: rest => OutputState.readOutput (st.readOutputLine elapsed l) rest

/-- The output state of a window that has shown nothing yet. -/
def OutputState.initial : OutputState :=
  { inJSONHandler := false
    curJSONHandler := 0
    JSONOutput := []
    hadNonJSONOutput := false
    curHtmlWindow := false
    outputBuffer := none
    console := []
    viewer := [] }

/-- The output state after one complete JSON block and one line of ordinary
output. -/
def OutputState.sample : OutputState :=
  OutputState.initial.readOutput
    [(10, "x = 1;\n"), (20, "%%%mzn-json:graph.html\n"), (21, "  [1,\n"), (22, "2]\n"),
     (23, "%%%mzn-json-end\n")]

/-! ## The elapsed time and the recent lists -/

/-- The conversion of a 64-bit value to `int`: its low 32 bits, read as a
two-complement number. -/
def toInt32 (x : Int) : Int :=
  (x + 2 ^ 31) % 2 ^ 32 - 2 ^ 31

/-- The four numbers `MainWindow::setElapsedTime` computes from
`elapsed_t`: `hours`, `minutes`, `seconds` and `msec`.  The division and the
remainder of C++ round towards zero. -/
def elapsedParts (elapsed_t : Int) : Int × Int × Int × Int :=
  (toInt32 (Int.tdiv elapsed_t 3600000),
   toInt32 (Int.tdiv (Int.tmod elapsed_t 3600000) 60000),
   toInt32 (Int.tdiv (Int.tmod elapsed_t 60000) 1000),
   toInt32 (Int.tmod elapsed_t 1000))

/-- `MainWindow::setElapsedTime`: the text it returns (and shows in the status
label) when `elapsedTime.elapsed()` is `elapsed_t`.  `elapsed` grows statement
by statement. -/
def setElapsedTime (elapsed_t : Int) : String :=
  let hours := (elapsedParts elapsed_t).1
  let minutes := (elapsedParts elapsed_t).2.1
  let seconds := (elapsedParts elapsed_t).2.2.1
  let msec := (elapsedParts elapsed_t).2.2.2
  let elapsed := ""
  let elapsed := if hours > 0 then elapsed ++ (toString hours ++ "h ") else elapsed
  let elapsed := if hours > 0 ∨ minutes > 0
    then elapsed ++ (toString minutes ++ "m ") else elapsed
  let elapsed := if hours > 0 ∨ minutes > 0 ∨ seconds > 0
    then elapsed ++ (toString seconds ++ "s") else elapsed
  let elapsed := if hours = 0 ∧ minutes = 0
    then elapsed ++ (" " ++ toString msec ++ "msec") else elapsed
  elapsed

/-- The loop `while (list.size() > 7) list.pop_back();`, with a bound on the
number of rounds. -/
def popBackLoop : Nat → List String → List String
  | 0, l => l
  | rounds + 1, l => if l.length > 7 then popBackLoop rounds l.dropLast else l

/-- The list update of `MainWindow::updateRecentFiles`: `removeAll(p)`,
`insert(0, p)`, then the loop, which needs no more rounds than the list has
entries. -/
def updateRecentFiles (recentFiles : List String) (p : String) : List String :=
  if p ≠ "" then
    let removed := recentFiles.filter (fun q => decide (q ≠ p))
    let inserted := p :: removed
    popBackLoop inserted.length inserted
  else recentFiles

/-! ## Editing the lines of a document

A document is the list of the texts of its blocks (lines).  A cursor position
enters as the number of the block `findBlock` returns for it. -/

/-- The blocks a loop `do ... block = block.next(); while (block.isValid() &&
block != endblock)` visits from `block` on, in a document of `n` blocks;
`rounds` bounds the number of rounds. -/
def visitBlocks (n endblock : Nat) : Nat → Nat → List Nat
  | 0, _ => []
  | rounds + 1, block =>
    block :: (if block + 1 < n ∧ block + 1 ≠ endblock
      then visitBlocks n endblock rounds (block + 1) else [])

/-- The text of one block changed by `f`. -/
def modifyLine : List String → Nat → (String → String) → List String
  | [], _, _ => []
  | t :: rest, 0, f => f t :: rest
  | t :: rest, i + 1, f => t :: modifyLine rest i f

/-- The blocks in `blocks` changed by `f`, one after the other. -/
def editBlocks (f : String → String) : List Nat → List String → List String
  | [], lines => lines
  | block :: rest, lines => editBlocks f rest (modifyLine lines block f)

/-- `QRegExp("\\s").indexIn(s)`: the place of the first white-space character,
-1 when there is none. -/
def indexInWhite : List Char → Int
  | [] => -1
  | c :: rest =>
    if isSpace c then 0
    else if indexInWhite rest = -1 then -1 else indexInWhite rest + 1

/-- What `on_actionShift_left_triggered` does to one block: when the block is
longer than 2 (its length counts the separator at its end) the first two
characters are selected, and removed when the selection has white space at
index 0. -/
def shiftLeftLine (t : String) : String :=
  if t.data.length + 1 > 2 then
    if indexInWhite (t.data.take 2) = 0 then String.mk (t.data.drop 2) else t
  else t

/-- `MainWindow::on_actionShift_left_triggered` on the lines of the document;
`anchor` and `position` are the blocks of the two ends of the selection. -/
def on_actionShift_left_triggered (lines : List String) (anchor position : Nat) :
    List String :=
  editBlocks shiftLeftLine
    (visitBlocks lines.length (position + 1) lines.length anchor) lines

/-- The text of a line from its first character that is not white space. -/
def fromFirstNonSpace (t : String) : List Char :=
  t.data.dropWhile isSpace

/-- The parts of a `QUrl` the diagnostics code sets. -/
structure QUrl where
  scheme : String
  path : String
  query : String
deriving DecidableEq, Repr

/-- `QUrl::fromLocalFile`. -/
def QUrl.fromLocalFile (localFile : String) : QUrl :=
  { scheme := "file", path := localFile, query := "" }

/-- `QUrl::setQuery`. -/
def QUrl.setQuery (url : QUrl) (query : String) : QUrl :=
  { url with query := query }

/-- `QUrl::setScheme`. -/
def QUrl.setScheme (url : QUrl) (scheme : String) : QUrl :=
  { url with scheme := scheme }

/-- A run `[0-9]+` followed by a colon at the start of the text: the digits
and what follows the colon. -/
def digitsThenColon (s : List Char) : Option (List Char × List Char) :=
  match s.dropWhile Char.isDigit with
  | ':' :: rest => if s.takeWhile Char.isDigit = [] then none else some (s.takeWhile Char.isDigit, rest)
  | _ => none

/-- The part `:([0-9]+):([0-9]+):(.*)$` of the pattern at the start of the
text: the captures 2, 3 and 4. -/
def errexpTail (s : List Char) : Option (List Char × List Char × List Char) :=
  match s with
  | ':' :: afterColon =>
    match digitsThenColon afterColon with
    | some (line, afterLine) =>
      match digitsThenColon afterLine with
      | some (column, message) => some (line, column, message)
      | none => none
    | none => none
  | _ => none

/-- `QRegExp("^(.*):([0-9]+):([0-9]+):(.*)$").indexIn(l)`: the four captures
when the text matches, `none` for -1.  The first group is greedy: the longest
start of the text after which the rest of the pattern matches.  A dot of
`QRegExp` matches every character, the newline too. -/
def errexp : List Char → Option (List Char × List Char × List Char × List Char)
  | [] => none
  | c :: rest =>
    match errexp rest with
    | some (file, line, column, message) => some (c :: file, line, column, message)
    | none =>
      match errexpTail (c :: rest) with
      | some (line, column, message) => some ([], line, column, message)
      | none => none

/-- The fields `compileZincOutput` writes: `compileErrors`, the statistics of
the application and the console. -/
structure CompileOutput where
  compileErrors : String
  stats : IDEStatistics
  console : List ConsoleOp
deriving DecidableEq, Repr

/-- `MainWindow::compileZincOutput` when `process->readAll()` returns `l`.
`toString` is `QUrl::toString`. -/
def compileZincOutput (toString : QUrl → String) (w : CompileOutput) (l : String) :
    CompileOutput :=
  let w := { w with compileErrors := w.compileErrors ++ l }
  match errexp l.data with
  | some (cap1, cap2, _, cap4) =>
    let errFile := trimmed (String.mk cap1)
    let url := QUrl.fromLocalFile errFile
    let url := url.setQuery ("line=" ++ String.mk cap2)
    let url := url.setScheme "err"
    { w with
      stats := { w.stats with errorsShown := w.stats.errorsShown + 1 }
      console := w.console ++
        [ConsoleOp.insertHtml
          ("<a style=\x27color:red\x27 href=\x27" ++ toString url ++ "\x27>" ++ String.mk cap1 ++ ":"
            ++ String.mk cap2 ++ ":</a>" ++ String.mk cap4 ++ "<br>")] }
  | none => { w with console := w.console ++ [ConsoleOp.insertPlainText l] }

/-- A text form of a URL for the sample runs: scheme, path and query. -/
def sampleUrlText (url : QUrl) : String :=
  url.scheme ++ "://" ++ url.path ++ "?" ++ url.query

/-- The compile state at the start of `startCompileZinc`, with three errors
shown before. -/
def sampleCompileOutput : CompileOutput :=
  { compileErrors := ""
    stats := { errorsShown := 3, errorsClicked := 0, modelsRun := 1, solvers := [] }
    console := [] }

/-! ## Invariants of the JSON blocks and of the file watcher -/

/-- The numbering of the JSON blocks: the list holds as many blocks as the
counter says, and one more while a block is open; every block has at least
its two leading elements, the URL and the area. -/
def OutputState.Indexed (st : OutputState) : Prop :=
  st.JSONOutput.length = st.curJSONHandler + (if st.inJSONHandler then 1 else 0) ∧
  ∀ b ∈ st.JSONOutput, 2 ≤ b.length

/-- `IDE::addDocument`: a new document with the text of `doc`, the editor `ce`
attached, not large, stored under `path`, and `path` watched.  Returns the
registry and the address of the new text buffer. -/
def IDE.addDocument (ide : IDE) (path : String) (doc : TextDocument) (ce : Nat) : IDE × Nat :=
  let d : Doc :=
    { addr := ide.nextAddr
      td := { text := doc.text, modified := false }
      editors := [ce]
      large := false }
  ({ documents := QMap.insert ide.documents path d
     fsWatch := addPath ide.fsWatch path
     nextAddr := ide.nextAddr + 1 },
   d.addr)

/-- A call on the registry: one of the seven functions of `IDE` that read or
write `documents`, with what the environment holds at that moment. -/
inductive RegistryCall where
  | loadFile (fs : FileSystem) (path : String)
  | loadLargeFile (fs : FileSystem) (path : String)
  | addDocument (path : String) (doc : TextDocument) (ce : Nat)
  | registerEditor (path : String) (ce : Nat)
  | removeEditor (path : String) (ce : Nat)
  | renameFile (oldPath newPath : String)
  | fileModified (fs : FileSystem) (clicked : ReloadChoice) (f : String)

/-- The registry after one call. -/
def IDE.call (ide : IDE) : RegistryCall → IDE
  | RegistryCall.loadFile fs path => (ide.loadFile fs path).1
  | RegistryCall.loadLargeFile fs path => (ide.loadLargeFile fs path).1
  | RegistryCall.addDocument path doc ce => (ide.addDocument path doc ce).1
  | RegistryCall.registerEditor path ce => ide.registerEditor path ce
  | RegistryCall.removeEditor path ce => ide.removeEditor path ce
  | RegistryCall.renameFile oldPath newPath => ide.renameFile oldPath newPath
  | RegistryCall.fileModified fs clicked f => ide.fileModified fs clicked f

/-- The registry after a run of calls, in order. -/
def IDE.calls (ide : IDE) : List RegistryCall → IDE
  | [] => ide
  | c :: rest => IDE.calls (ide.call c) rest

/-- Whether a call, made on the registry `ide`, removes the document
registered under `path`: `removeEditor` takes its last editor away,
`renameFile` moves it to another path or moves another document onto its
path in its place, `addDocument` stores a new document under its path in its
place.  The other four functions remove nothing. -/
def RegistryCall.removes (ide : IDE) (path : String) : RegistryCall → Bool
  | RegistryCall.removeEditor q ce =>
    decide (q = path) &&
      (match QMap.find ide.documents q with
       | some d => (removeFromSet d.editors ce).isEmpty
       | none => false)
  | RegistryCall.renameFile oldPath newPath =>
    (QMap.find ide.documents oldPath).isSome && decide (oldPath ≠ newPath) &&
      (decide (oldPath = path) || decide (newPath = path))
  | RegistryCall.addDocument q _ _ => decide (q = path)
  | _ => false

/-- No call of the run removes the document registered under `path`, each
call taken on the registry it is made on. -/
def IDE.noRemoval (ide : IDE) (path : String) : List RegistryCall → Bool
  | [] => true
  | c :: rest => !(c.removes ide path) && IDE.noRemoval (ide.call c) path rest

/-- The watcher invariant: the watched paths are the registered paths whose
document is not flagged large. -/
def IDE.WatchesLoaded (ide : IDE) : Prop :=
  ∀ p : String, p ∈ ide.fsWatch ↔ ∃ d, QMap.find ide.documents p = some d ∧ d.large = false

/-! ## The project (`class Project`)

The tree of the project view is held as the list of its items below the three
category items, each item named by the texts on the way from its category item
down to it, in the order `appendRow` created them. -/

/-- The three top-level items the files are listed under: `zinc`, `dzn` and
`other`. -/
inductive Category where
  | zinc
  | dzn
  | other
deriving DecidableEq, Repr

/-- An item of the tree: the category item it lies under and the texts from
there down to it (none for the category item itself). -/
structure Item where
  category : Category
  path : List String
deriving DecidableEq, Repr

/-- The widgets of the configuration page the `Project` getters read. -/
structure Ui where
  conf_data_file : Int
  conf_have_zinc_params : Bool
  conf_zinc_params : String
  conf_nsol : Int
  conf_printall : Bool
  conf_stats : Bool
  conf_have_solverFlags : Bool
  conf_solverFlags : String
  conf_solver_verbose : Bool
deriving DecidableEq, Repr

/-- The fields of `class Project`, with the tree as `items` and the widgets
it reads as `ui`.  `_files` maps a file name to its item, and
`_courseraProject` says whether the pointer is set. -/
structure Project where
  ui : Ui
  projectRoot : String
  _isModified : Bool
  _filesModified : Bool
  _files : QMap Item
  items : List Item
  _courseraProject : Bool
  _currentDatafileIndex : Int
  _haveZincArgs : Bool
  _zincArgs : String
  _n_solutions : Int
  _printAll : Bool
  _printStats : Bool
  _haveSolverFlags : Bool
  _solverFlags : String
  _solverVerbose : Bool
deriving DecidableEq, Repr

/-- `Project::isModified`. -/
def Project.isModified (p : Project) : Bool := p._isModified

/-- `Project::files`: the keys of `_files`. -/
def Project.files (p : Project) : List String := p._files.map Prod.fst

/-- `Project::setModified(flag, files)`.  When the flag is cleared, each
setter is called with the value of its getter and `init = true`, which stores
the value the widget shows. -/
def Project.setModified (p : Project) (flag files : Bool) : Project :=
  if p.projectRoot ≠ "" then
    if p._isModified ≠ flag then
      let p := { p with _isModified := flag }
      let p := if files then { p with _filesModified := p._isModified } else p
      if !p._isModified then
        { p with
          _currentDatafileIndex := p.ui.conf_data_file
          _haveZincArgs := p.ui.conf_have_zinc_params
          _zincArgs := p.ui.conf_zinc_params
          _n_solutions := p.ui.conf_nsol
          _printAll := p.ui.conf_printall
          _printStats := p.ui.conf_stats
          _haveSolverFlags := p.ui.conf_have_solverFlags
          _solverFlags := p.ui.conf_solverFlags
          _solverVerbose := p.ui.conf_solver_verbose }
      else p
    else p
  else p

/-- `Project::checkModified`. -/
def Project.checkModified (p : Project) : Project :=
  if p.projectRoot = "" ∨ p._filesModified = true then p
  else if p.ui.conf_data_file ≠ p._currentDatafileIndex then p.setModified true false
  else if p.ui.conf_have_zinc_params ≠ p._haveZincArgs then p.setModified true false
  else if p.ui.conf_zinc_params ≠ p._zincArgs then p.setModified true false
  else if p.ui.conf_nsol ≠ p._n_solutions then p.setModified true false
  else if p.ui.conf_printall ≠ p._printAll then p.setModified true false
  else if p.ui.conf_stats ≠ p._printStats then p.setModified true false
  else if p.ui.conf_have_solverFlags ≠ p._haveSolverFlags then p.setModified true false
  else if p.ui.conf_solverFlags ≠ p._solverFlags then p.setModified true false
  else if p.ui.conf_solver_verbose ≠ p._solverVerbose then p.setModified true false
  else p.setModified false false

/-- A configuration-change notification: a widget of the configuration page
has changed, the page now shows `ui`, and the slot the widget is connected to
runs with `init = false`, that is `checkModified()`. -/
def Project.configurationChanged (p : Project) (ui : Ui) : Project :=
  ({ p with ui := ui }).checkModified

/-- A sequence of configuration-change notifications, in order. -/
def Project.configurationChanges (p : Project) : List Ui → Project
  | [] => p
  | ui :: rest => Project.configurationChanges (p.configurationChanged ui) rest

/-- The scan of `QString::split(QDir::separator())` where the separator is
the slash: a piece is closed at every slash and at the end, empty pieces
kept.  `piece` holds the characters in reverse. -/
def splitPathScan : List Char → List Char → List String
  | piece, [] => [String.mk piece.reverse]
  | piece, c :: rest =>
    if c = '/' then String.mk piece.reverse :: splitPathScan [] rest
    else splitPathScan (c :: piece) rest

/-- `relFileName.split(QDir::separator())`. -/
def splitPath (s : String) : List String :=
  splitPathScan [] s.data

/-- The loop `while (path.first().isEmpty()) path.pop_front();`.  `first()`
of an empty list is undefined: `none`. -/
def dropEmptyFirst : List String → Option (List String)
  | [] => none
  | first :: rest => if first = "" then dropEmptyFirst rest else some (first :: rest)

/-- `QFileInfo(path).suffix()`: what follows the last dot of the file name. -/
def suffix (path : String) : List Char :=
  if '.' ∈ fileName path then ((fileName path).reverse.takeWhile (fun c => c != '.')).reverse
  else []

/-- `QFileInfo(path).completeBaseName()`: the file name up to its last dot. -/
def completeBaseName (path : String) : List Char :=
  if '.' ∈ fileName path
  then (((fileName path).reverse.dropWhile (fun c => c != '.')).drop 1).reverse
  else fileName path

/-- `item->hasChildren()`, also what `item->child(0) != NULL` tests. -/
def hasChildren (items : List Item) (item : Item) : Bool :=
  items.any (fun child =>
    decide (child.category = item.category ∧ child.path ≠ [] ∧ child.path.dropLast = item.path))

/-- The loop `while (curItem != NULL)` of `Project::addFile`, from the item
`prev` of the category with `path` left: a child whose text is `path.first()`
is entered and the text popped; when no child has it the loop ends.  Returns
the texts of `prevItem` and the path left.  With children left to compare and
an empty path, `path.first()` is undefined: `none`. -/
def findInsertionPoint (items : List Item) (category : Category) :
    List String → List String → Option (List String × List String)
  | prev, [] => if hasChildren items ⟨category, prev⟩ then none else some (prev, [])
  | prev, first :: rest =>
    if (⟨category, prev ++ [first]⟩ : Item) ∈ items
    then findInsertionPoint items category (prev ++ [first]) rest
    else some (prev, first :: rest)

/-- The items the last loop of `Project::addFile` appends: one for each text
left in `path`, each below the one before. -/
def newItems (category : Category) : List String → List String → List Item
  | _, [] => []
  | prev, text :: rest => ⟨category, prev ++ [text]⟩ :: newItems category (prev ++ [text]) rest

/-- What reading the Coursera options file gives `Project::addFile`: the file
cannot be opened, the reading stops at `coursera_done` without a project, or
a `CourseraProject` is built. -/
inductive CourseraFile where
  | unreadable
  | malformed
  | parsed
deriving DecidableEq, Repr

/-- `Project::addFile` for an absolute file name, which is its own
`absoluteFilePath()`.  `relativeFilePath` is the function of that name of the
directory of the project root, `metadata` what reading the file gives when it
is a Coursera options file.  The result is `none` where the source evaluates
`path.first()` on an empty list. -/
def Project.addFile (p : Project) (relativeFilePath : String → String)
    (metadata : CourseraFile) (name : String) : Option Project :=
  if QMap.contains p._files name then some p
  else
    let absFileName := name
    let relFileName := if p.projectRoot ≠ "" then relativeFilePath absFileName else absFileName
    match dropEmptyFirst (splitPath relFileName) with
    | none => none
    | some path =>
      if suffix name = "fzn".data then some p
      else
        let category :=
          if suffix name = "zinc".data then Category.zinc
          else if suffix name = "dzn".data then Category.dzn
          else Category.other
        let isCoursera := decide (category = Category.other ∧
          completeBaseName name = "_coursera".data)
        let afterCoursera : Option Project :=
          if isCoursera then
            if p._courseraProject then none
            else
              match metadata with
              | CourseraFile.unreadable => none
              | CourseraFile.malformed => some p
              | CourseraFile.parsed => some { p with _courseraProject := true }
          else some p
        match afterCoursera with
        | none => some p
        | some p1 =>
          let p2 := p1.setModified true true
          match findInsertionPoint p2.items category [] path with
          | none => none
          | some (prev, left) =>
            some { p2 with
              items := p2.items ++ newItems category prev left
              _files :=
                if left = [] then p2._files
                else QMap.insert p2._files absFileName ⟨category, prev ++ left⟩ }

/-- The loop of `Project::removeFile` from the item with the texts `up` (in
reverse): an item other than a category item that has no children is removed
from its parent, and the loop goes on with the parent. -/
def removeItems (category : Category) : List Item → List String → List Item
  | items, [] => items
  | items, text :: up =>
    if hasChildren items ⟨category, (text :: up).reverse⟩ then items
    else removeItems category (items.erase ⟨category, (text :: up).reverse⟩) up

/-- `Project::removeFile`.  The index kept in `_files` is taken to designate
the item created for the file. -/
def Project.removeFile (p : Project) (name : String) : Project :=
  if name = "" then p
  else
    match QMap.find p._files name with
    | none => p
    | some index =>
      let p1 := p.setModified true true
      let p2 := { p1 with
        _files := QMap.remove p1._files name
        items := removeItems index.category p1.items index.path.reverse }
      if fileName name = "_coursera".data then { p2 with _courseraProject := false } else p2

/-! ### Sample projects -/

/-- A configuration page: no data file chosen, one solution, nothing ticked. -/
def sampleUi : Ui :=
  { conf_data_file := 0
    conf_have_zinc_params := false
    conf_zinc_params := ""
    conf_nsol := 1
    conf_printall := false
    conf_stats := false
    conf_have_solverFlags := false
    conf_solverFlags := ""
    conf_solver_verbose := false }

/-- A project as the constructor leaves it: no root, no files, not modified.
The constructor gives no value to `_filesModified` and to the stored
configuration; they are set here to what differs from the page. -/
def untitledProject : Project :=
  { ui := sampleUi
    projectRoot := ""
    _isModified := false
    _filesModified := true
    _files := []
    items := []
    _courseraProject := false
    _currentDatafileIndex := 5
    _haveZincArgs := true
    _zincArgs := "?"
    _n_solutions := 9
    _printAll := true
    _printStats := true
    _haveSolverFlags := true
    _solverFlags := "?"
    _solverVerbose := true }

/-- The project with the model `/home/u/m.zinc`, as `setRoot` leaves it when
it is first saved to `/home/u/p.mzp`: it has its root and counts as modified. -/
def rootedProject : Project :=
  { untitledProject with
    projectRoot := "/home/u/p.mzp"
    _isModified := true
    _files := [("/home/u/m.zinc", ⟨Category.zinc, ["m.zinc"]⟩)]
    items := [⟨Category.zinc, ["m.zinc"]⟩] }

/-- The project once saved: `saveProject` ends with `setModified(false, true)`. -/
def savedProject : Project :=
  rootedProject.setModified false true

/-- `relativeFilePath` of the directory `/home/u`, for the files below it. -/
def sampleRelativeFilePath (absFileName : String) : String :=
  (afterStart "/home/u/" absFileName).getD absFileName

/-- The saved project after the user ticks "print all" and then adds the
model `/home/u/k.zinc`. -/
def projectAfterAdd : Project :=
  ((savedProject.configurationChanged { sampleUi with conf_printall := true }).addFile
    sampleRelativeFilePath CourseraFile.unreadable "/home/u/k.zinc").getD savedProject

/-- The untitled project after `/home/u/notes/todo.txt` is added. -/
def notesProject : Project :=
  (untitledProject.addFile sampleRelativeFilePath CourseraFile.unreadable
    "/home/u/notes/todo.txt").getD untitledProject

/-! ## Saving a file (`MainWindow::saveFile`) -/

/-- A `CodeEditor` as `saveFile` sees it: its address (the pointer the
registry keeps in the editor sets), its file path and name, and the address
of the text buffer `document()` returns. -/
structure EditorView where
  addr : Nat
  filepath : String
  filename : String
  document : Nat
deriving DecidableEq, Repr

/-- What `saveFile` does to the widgets and settings this state does not
hold: `setCurrentIndex` on the tab widget, `setLastPath`, a warning box,
`setupDznMenu`, `setTabText` and `tabChange`. -/
inductive UiCall where
  | setCurrentIndex
  | setLastPath (path : String)
  | warning (text : String)
  | setupDznMenu
  | setTabText (text : String)
  | tabChange
deriving DecidableEq, Repr

/-- What `saveFile(ce, f)` reads and writes: the files on disk, the registry,
the text buffers that belong to one editor alone (by address), the recent
files, the project, the editor `ce`, the pointer `curEditor` and, in order,
the calls on the widgets. -/
structure Workspace where
  disk : FileSystem
  ide : IDE
  buffers : List (Nat × TextDocument)
  recentFiles : List String
  project : Project
  ce : EditorView
  curEditor : Option Nat
  calls : List UiCall

/-- The buffer `ce->document()` points to: that of a registered document, or
one of an editor alone. -/
def Workspace.document (s : Workspace) : Option TextDocument :=
  match s.ide.documents.find? (fun e => decide (e.2.addr = s.ce.document)) with
  | some e => some e.2.td
  | none => (s.buffers.find? (fun b => decide (b.1 = s.ce.document))).map Prod.snd

/-- `ce->document()->setModified(b)`. -/
def Workspace.setDocumentModified (s : Workspace) (b : Bool) : Workspace :=
  { s with
    ide := { s.ide with
      documents := s.ide.documents.map (fun e =>
        if e.2.addr = s.ce.document then (e.1, e.2.setModified b) else e) }
    buffers := s.buffers.map (fun x =>
      if x.1 = s.ce.document then (x.1, { x.2 with modified := b }) else x) }

/-- The disk after `text` is written to `path` in UTF-8. -/
def writeFile (disk : FileSystem) (path text : String) : FileSystem :=
  fun p => if p = path then FileEntry.readable text.utf8ByteSize text else disk p

/-- `QFileInfo(path).absolutePath()` for an absolute path: the path without
its file name. -/
def absolutePath (path : String) : String :=
  if ((path.data.reverse.dropWhile (fun c => c != '/')).drop 1).reverse = [] then "/"
  else String.mk ((path.data.reverse.dropWhile (fun c => c != '/')).drop 1).reverse

/-- `MainWindow::saveFile(ce, f)`.  `chosen` is what the file dialog returns
if it is shown (`none` for the null string of a cancelled dialog), `writable`
whether the file can be opened for writing; `relativeFilePath` and `metadata`
go to `Project::addFile`.  `fileDialogSuffix` is "/".  The result is `none`
where `Project::addFile` has none. -/
def Workspace.saveFile (s : Workspace) (f : String) (chosen : Option String)
    (writable : Bool) (relativeFilePath : String → String) (metadata : CourseraFile) :
    Option Workspace :=
  let shown : Workspace :=
    if f = "" then
      let s1 := if some s.ce.addr ≠ s.curEditor
        then { s with curEditor := some s.ce.addr, calls := s.calls ++ [UiCall.setCurrentIndex] }
        else s
      match chosen with
      | some path => { s1 with calls := s1.calls ++ [UiCall.setLastPath (absolutePath path ++ "/")] }
      | none => s1
    else s
  let filepath := if f = "" then chosen.getD "" else f
  if filepath ≠ "" then
    if filepath ≠ shown.ce.filepath ∧ shown.ide.hasFile filepath = true then
      some { shown with calls := shown.calls ++ [UiCall.warning "Cannot overwrite open file."] }
    else
      let unwatched := { shown with
        ide := { shown.ide with fsWatch := removePath shown.ide.fsWatch filepath } }
      let saved : Option Workspace :=
        if writable then
          let text := (unwatched.document.map (fun td => td.text)).getD ""
          let written := { unwatched with disk := writeFile unwatched.disk filepath text }
          let moved : Option Workspace :=
            if filepath ≠ written.ce.filepath then
              let oldPath := written.ce.filepath
              let newdoc := written.ide.addDocument filepath
                (written.document.getD { text := "", modified := false }) written.ce.addr
              let s2 := { written with ide := newdoc.1, ce := { written.ce with document := newdoc.2 } }
              let s3 := if oldPath ≠ ""
                then { s2 with ide := s2.ide.removeEditor oldPath s2.ce.addr } else s2
              match (s3.project.removeFile oldPath).addFile relativeFilePath metadata filepath with
              | none => none
              | some project =>
                some { s3 with
                  project := project
                  ce := { s3.ce with filepath := filepath }
                  calls := s3.calls ++ [UiCall.setupDznMenu] }
            else some written
          match moved with
          | none => none
          | some s4 =>
            let s5 := s4.setDocumentModified false
            let s6 := { s5 with
              ce := { s5.ce with filename := String.mk (fileName filepath) }
              calls := s5.calls ++ [UiCall.setTabText (String.mk (fileName filepath))]
              recentFiles := updateRecentFiles s5.recentFiles filepath }
            some (if some s6.ce.addr = s6.curEditor
              then { s6 with calls := s6.calls ++ [UiCall.tabChange] } else s6)
        else some { unwatched with calls := unwatched.calls ++ [UiCall.warning "Could not save file"] }
      match saved with
      | none => none
      | some s7 => some { s7 with ide := { s7.ide with fsWatch := addPath s7.ide.fsWatch filepath } }
  else some shown

/-- A second model, open in the editor 3. -/
def secondDoc : Doc :=
  { addr := 9, td := { text := "int: k;", modified := true }, editors := [3], large := false }

/-- The window state around the editor 3 on `/home/u/k.zinc`, with unsaved
changes, while `/home/u/m.zinc` is open in other editors. -/
def sampleWorkspace : Workspace :=
  { disk := sampleFS
    ide :=
      { documents := [("/home/u/m.zinc", sampleDoc), ("/home/u/k.zinc", secondDoc)]
        fsWatch := ["/home/u/m.zinc", "/home/u/k.zinc"]
        nextAddr := 10 }
    buffers := []
    recentFiles := ["/home/u/k.zinc", "/home/u/m.zinc"]
    project := savedProject
    ce := { addr := 3, filepath := "/home/u/k.zinc", filename := "k.zinc", document := 9 }
    curEditor := some 3
    calls := [] }

/-! ## Lemmas on maps and watchers -/

theorem QMap.find_remove_self {α : Type} (m : QMap α) (k : String) :
    QMap.find (QMap.remove m k) k = none := by
  induction m with
  | nil => rfl
  | cons e rest ih =>
    obtain ⟨k', v⟩ := e
    by_cases h : k' = k
    · simp only [QMap.remove, h, if_true]; exact ih
    · simp only [QMap.remove, QMap.find, h, if_false]; exact ih

theorem QMap.find_remove_of_ne {α : Type} (m : QMap α) (k q : String) (hq : q ≠ k) :
    QMap.find (QMap.remove m k) q = QMap.find m q := by
  induction m with
  | nil => rfl
  | cons e rest ih =>
    obtain ⟨k', v⟩ := e
    by_cases h : k' = k
    · have hne : ¬ k' = q := fun h' => hq (h'.symm.trans h)
      simp only [QMap.remove, QMap.find, h, if_true]
      rw [if_neg (h ▸ hne)]; exact ih
    · by_cases h2 : k' = q
      · subst h2
        simp only [QMap.remove, QMap.find, if_neg hq, if_true]
      · simp only [QMap.remove, QMap.find, h, h2, if_false]; exact ih

theorem QMap.find_insert_self {α : Type} (m : QMap α) (k : String) (v : α) :
    QMap.find (QMap.insert m k v) k = some v := by
  simp only [QMap.insert, QMap.find, if_true]

theorem QMap.find_insert_of_ne {α : Type} (m : QMap α) (k q : String) (v : α)
    (hq : q ≠ k) : QMap.find (QMap.insert m k v) q = QMap.find m q := by
  have hne : ¬ k = q := fun h => hq h.symm
  simp only [QMap.insert, QMap.find, hne, if_false]
  exact QMap.find_remove_of_ne m k q hq

theorem QMap.find_modify_self {α : Type} (m : QMap α) (k : String) (f : α → α) :
    QMap.find (QMap.modify m k f) k = (QMap.find m k).map f := by
  induction m with
  | nil => rfl
  | cons e rest ih =>
    obtain ⟨k', v⟩ := e
    by_cases h : k' = k
    · simp only [QMap.modify, QMap.find, h, if_true, Option.map]
    · simp only [QMap.modify, QMap.find, h, if_false]; exact ih

theorem QMap.find_modify_of_ne {α : Type} (m : QMap α) (k q : String) (f : α → α)
    (hq : q ≠ k) : QMap.find (QMap.modify m k f) q = QMap.find m q := by
  induction m with
  | nil => rfl
  | cons e rest ih =>
    obtain ⟨k', v⟩ := e
    by_cases h : k' = k
    · have hne : ¬ k = q := fun h' => hq h'.symm
      simp only [QMap.modify, QMap.find, h, if_true, hne, if_false]; exact ih
    · by_cases h2 : k' = q
      · subst h2
        simp only [QMap.modify, QMap.find, if_neg hq, if_true]
      · simp only [QMap.modify, QMap.find, h, h2, if_false]; exact ih

theorem mem_addPath (w : List String) (p q : String) :
    q ∈ addPath w p ↔ q ∈ w ∨ q = p := by
  unfold addPath
  split
  · constructor
    · intro h; exact Or.inl h
    · rintro (h | h)
      · exact h
      · subst h; assumption
  · simp

theorem mem_removePath (w : List String) (p q : String) :
    q ∈ removePath w p ↔ q ∈ w ∧ q ≠ p := by
  simp [removePath]

theorem mem_removeFromSet (editors : List Nat) (ce e : Nat) :
    e ∈ removeFromSet editors ce ↔ e ∈ editors ∧ e ≠ ce := by
  simp [removeFromSet]

/-! ## Theorems: the document registry -/

theorem IDE.loadFile_of_registered (ide : IDE) (fs : FileSystem) (path : String) (d : Doc)
    (h : QMap.find ide.documents path = some d) :
    ide.loadFile fs path = (ide, some d.addr, d.large) := by
  simp only [IDE.loadFile, h]

theorem IDE.loadFile_registers (ide : IDE) (fs : FileSystem) (path : String) (buf : Nat)
    (h : (ide.loadFile fs path).2.1 = some buf) :
    ∃ d, QMap.find (ide.loadFile fs path).1.documents path = some d ∧
      d.addr = buf ∧ d.large = (ide.loadFile fs path).2.2 := by
  cases hf : QMap.find ide.documents path with
  | some d =>
    rw [IDE.loadFile_of_registered ide fs path d hf] at h ⊢
    exact ⟨d, hf, Option.some.inj h, rfl⟩
  | none =>
    cases hfs : fs path with
    | missing => simp [IDE.loadFile, hf, hfs] at h
    | unreadable => simp [IDE.loadFile, hf, hfs] at h
    | readable size content =>
      simp only [IDE.loadFile, hf, hfs] at h ⊢
      exact ⟨_, QMap.find_insert_self _ _ _, Option.some.inj h, rfl⟩

theorem IDE.loadFile_keeps_registered (ide : IDE) (fs : FileSystem) (q path : String)
    (d : Doc) (h : QMap.find ide.documents path = some d) :
    QMap.find (ide.loadFile fs q).1.documents path = some d := by
  by_cases hq : q = path
  · subst hq
    rw [IDE.loadFile_of_registered ide fs q d h]; exact h
  · cases hf : QMap.find ide.documents q with
    | some e => rw [IDE.loadFile_of_registered ide fs q e hf]; exact h
    | none =>
      cases hfs : fs q with
      | missing => simpa [IDE.loadFile, hf, hfs] using h
      | unreadable => simpa [IDE.loadFile, hf, hfs] using h
      | readable size content =>
        simp only [IDE.loadFile, hf, hfs]
        rw [QMap.find_insert_of_ne _ _ _ _ (fun h' => hq h'.symm)]; exact h

theorem IDE.fileModified_of_cancel (ide : IDE) (fs : FileSystem) (f : String) (d : Doc)
    (hd : QMap.find ide.documents f = some d) (hex : fs f ≠ FileEntry.missing) :
    ide.fileModified fs ReloadChoice.cancel f =
      { ide with documents := QMap.modify ide.documents f (fun d => d.setModified true) } := by
  cases hfs : fs f with
  | missing => exact absurd hfs hex
  | unreadable => simp only [IDE.fileModified, hd, hfs]
  | readable size content => simp only [IDE.fileModified, hd, hfs]

theorem IDE.fileModified_of_reload (ide : IDE) (fs : FileSystem) (f : String) (d : Doc)
    (size : Nat) (content : String)
    (hd : QMap.find ide.documents f = some d) (hfs : fs f = FileEntry.readable size content) :
    ide.fileModified fs ReloadChoice.reload f =
      { ide with
        documents :=
          QMap.modify ide.documents f (fun d => (d.setPlainText content).setModified false) } := by
  simp only [IDE.fileModified, hd, hfs]

theorem IDE.fileModified_of_reload_failed (ide : IDE) (fs : FileSystem) (f : String) (d : Doc)
    (hd : QMap.find ide.documents f = some d) (hfs : fs f = FileEntry.unreadable) :
    ide.fileModified fs ReloadChoice.reload f =
      { ide with documents := QMap.modify ide.documents f (fun d => d.setModified true) } := by
  simp only [IDE.fileModified, hd, hfs]

/-- Mutation through the map keeps the buffer and the large flag of every
entry when the mutation itself keeps them. -/
theorem QMap.find_modify_keeps (m : QMap Doc) (k path : String) (f : Doc → Doc)
    (hf : ∀ d, (f d).addr = d.addr ∧ (f d).large = d.large) (a : Nat) (l : Bool)
    (h : ∃ d, QMap.find m path = some d ∧ d.addr = a ∧ d.large = l) :
    ∃ d, QMap.find (QMap.modify m k f) path = some d ∧ d.addr = a ∧ d.large = l := by
  obtain ⟨d, hd, ha, hl⟩ := h
  by_cases hk : path = k
  · subst hk
    refine ⟨f d, ?_, (hf d).1.trans ha, (hf d).2.trans hl⟩
    rw [QMap.find_modify_self, hd]; rfl
  · exact ⟨d, (QMap.find_modify_of_ne m k path f hk).trans hd, ha, hl⟩

/-- Mutation through the map keeps the buffer of every entry, and sets no
large flag, when the mutation itself does so. -/
theorem QMap.find_modify_keeps_buffer (m : QMap Doc) (k path : String) (f : Doc → Doc)
    (hf : ∀ d, (f d).addr = d.addr ∧ ((f d).large = true → d.large = true)) (a : Nat) (l : Bool)
    (h : ∃ d, QMap.find m path = some d ∧ d.addr = a ∧ (d.large = true → l = true)) :
    ∃ d, QMap.find (QMap.modify m k f) path = some d ∧ d.addr = a ∧
      (d.large = true → l = true) := by
  obtain ⟨d, hd, ha, hl⟩ := h
  by_cases hk : path = k
  · subst hk
    refine ⟨f d, ?_, (hf d).1.trans ha, fun h' => hl ((hf d).2 h')⟩
    rw [QMap.find_modify_self, hd]; rfl
  · exact ⟨d, (QMap.find_modify_of_ne m k path f hk).trans hd, ha, hl⟩

/-- A call that does not remove the document registered under `path` keeps
its buffer; its large flag stays or is cleared. -/
theorem IDE.call_keeps_buffer (ide : IDE) (c : RegistryCall) (path : String) (a : Nat)
    (l : Bool) (hno : c.removes ide path = false)
    (h : ∃ d, QMap.find ide.documents path = some d ∧ d.addr = a ∧ (d.large = true → l = true)) :
    ∃ d, QMap.find (ide.call c).documents path = some d ∧ d.addr = a ∧
      (d.large = true → l = true) := by
  cases c with
  | loadFile fs q =>
    obtain ⟨d, hd, ha, hl⟩ := h
    exact ⟨d, IDE.loadFile_keeps_registered ide fs q path d hd, ha, hl⟩
  | loadLargeFile fs q =>
    show ∃ d, QMap.find (ide.loadLargeFile fs q).1.documents path = some d ∧ _
    unfold IDE.loadLargeFile
    cases hq : QMap.find ide.documents q with
    | none => exact h
    | some e =>
      dsimp only
      split
      · cases hfs : fs q with
        | missing => exact h
        | unreadable => exact h
        | readable size content =>
          exact QMap.find_modify_keeps_buffer ide.documents q path
            (fun (d : Doc) => ({ d.setPlainText content with large := false } : Doc).setModified false)
            (fun d => ⟨rfl, fun h' => Bool.noConfusion h'⟩) a l h
      · exact h
  | addDocument q doc ce =>
    obtain ⟨d, hd, ha, hl⟩ := h
    have hq : path ≠ q := by
      intro hq
      simp [RegistryCall.removes, hq] at hno
    refine ⟨d, ?_, ha, hl⟩
    show QMap.find (ide.addDocument q doc ce).1.documents path = some d
    simp only [IDE.addDocument]
    rw [QMap.find_insert_of_ne _ _ _ _ hq]; exact hd
  | registerEditor q ce =>
    exact QMap.find_modify_keeps_buffer ide.documents q path
      (fun d => { d with editors := if ce ∈ d.editors then d.editors else d.editors ++ [ce] })
      (fun d => ⟨rfl, fun h' => h'⟩) a l h
  | removeEditor q ce =>
    show ∃ d, QMap.find (ide.removeEditor q ce).documents path = some d ∧ _
    unfold IDE.removeEditor
    cases hq : QMap.find ide.documents q with
    | none => exact h
    | some e =>
      dsimp only
      split
      · rename_i hempty
        have hne : path ≠ q := by
          intro hpq
          simp [RegistryCall.removes, hpq, hq, hempty] at hno
        obtain ⟨d, hd, ha, hl⟩ := h
        exact ⟨d, (QMap.find_remove_of_ne _ _ _ hne).trans hd, ha, hl⟩
      · exact QMap.find_modify_keeps_buffer ide.documents q path
          (fun d => { d with editors := removeFromSet d.editors ce })
          (fun d => ⟨rfl, fun h' => h'⟩) a l h
  | renameFile oldPath newPath =>
    show ∃ d, QMap.find (ide.renameFile oldPath newPath).documents path = some d ∧ _
    unfold IDE.renameFile
    cases hq : QMap.find ide.documents oldPath with
    | none => exact h
    | some e =>
      dsimp only
      obtain ⟨d, hd, ha, hl⟩ := h
      by_cases hsame : oldPath = newPath
      · subst hsame
        by_cases hp : path = oldPath
        · subst hp
          rw [hq] at hd
          exact ⟨e, QMap.find_insert_self _ _ _, by rw [Option.some.inj hd]; exact ha,
            by rw [Option.some.inj hd]; exact hl⟩
        · refine ⟨d, ?_, ha, hl⟩
          rw [QMap.find_insert_of_ne _ _ _ _ hp, QMap.find_remove_of_ne _ _ _ hp]; exact hd
      · have hboth : path ≠ oldPath ∧ path ≠ newPath := by
          constructor
          · intro hp
            simp [RegistryCall.removes, hq, hsame, hp] at hno
          · intro hp
            simp [RegistryCall.removes, hq, hsame, hp] at hno
        refine ⟨d, ?_, ha, hl⟩
        rw [QMap.find_insert_of_ne _ _ _ _ hboth.2, QMap.find_remove_of_ne _ _ _ hboth.1]
        exact hd
  | fileModified fs clicked f =>
    show ∃ d, QMap.find (ide.fileModified fs clicked f).documents path = some d ∧ _
    cases hf : QMap.find ide.documents f with
    | none => simpa only [IDE.fileModified, hf] using h
    | some e =>
      cases hfs : fs f with
      | missing => simpa only [IDE.fileModified, hf, hfs] using h
      | unreadable =>
        cases clicked with
        | cancel =>
          rw [IDE.fileModified_of_cancel ide fs f e hf (by rw [hfs]; exact fun h' => nomatch h')]
          exact QMap.find_modify_keeps_buffer ide.documents f path (fun d => d.setModified true)
            (fun d => ⟨rfl, fun h' => h'⟩) a l h
        | reload =>
          rw [IDE.fileModified_of_reload_failed ide fs f e hf hfs]
          exact QMap.find_modify_keeps_buffer ide.documents f path (fun d => d.setModified true)
            (fun d => ⟨rfl, fun h' => h'⟩) a l h
      | readable size content =>
        cases clicked with
        | cancel =>
          rw [IDE.fileModified_of_cancel ide fs f e hf (by rw [hfs]; exact fun h' => nomatch h')]
          exact QMap.find_modify_keeps_buffer ide.documents f path (fun d => d.setModified true)
            (fun d => ⟨rfl, fun h' => h'⟩) a l h
        | reload =>
          rw [IDE.fileModified_of_reload ide fs f e size content hf hfs]
          exact QMap.find_modify_keeps_buffer ide.documents f path
            (fun d => (d.setPlainText content).setModified false)
            (fun d => ⟨rfl, fun h' => h'⟩) a l h

/-- The calls counted as removals do remove the document of the path: after
`removeEditor` of its last editor, or `renameFile` to another path, the path
is not registered; after `renameFile` of another registered path onto it the
path holds the moved document, and after `addDocument` under it a new
document at the next address. -/
theorem RegistryCall.removes_spec (ide : IDE) (path : String) :
    (∀ ce d, QMap.find ide.documents path = some d →
      (removeFromSet d.editors ce).isEmpty = true →
      (RegistryCall.removeEditor path ce).removes ide path = true ∧
      (ide.call (RegistryCall.removeEditor path ce)).hasFile path = false) ∧
    (∀ newPath d, QMap.find ide.documents path = some d → path ≠ newPath →
      (RegistryCall.renameFile path newPath).removes ide path = true ∧
      (ide.call (RegistryCall.renameFile path newPath)).hasFile path = false) ∧
    (∀ oldPath e, QMap.find ide.documents oldPath = some e → oldPath ≠ path →
      (RegistryCall.renameFile oldPath path).removes ide path = true ∧
      QMap.find (ide.call (RegistryCall.renameFile oldPath path)).documents path = some e) ∧
    (∀ doc ce,
      (RegistryCall.addDocument path doc ce).removes ide path = true ∧
      ∃ d, QMap.find (ide.call (RegistryCall.addDocument path doc ce)).documents path = some d ∧
        d.addr = ide.nextAddr) := by
  refine ⟨?_, ?_, ?_, ?_⟩
  · intro ce d hd hempty
    constructor
    · simp [RegistryCall.removes, hd, hempty]
    · show (ide.removeEditor path ce).hasFile path = false
      simp only [IDE.removeEditor, hd, hempty, if_true, IDE.hasFile, QMap.contains,
        QMap.find_remove_self]
      rfl
  · intro newPath d hd hne
    constructor
    · simp [RegistryCall.removes, hd, hne]
    · show (ide.renameFile path newPath).hasFile path = false
      simp only [IDE.renameFile, hd, IDE.hasFile, QMap.contains]
      rw [QMap.find_insert_of_ne _ _ _ _ hne, QMap.find_remove_self]
      rfl
  · intro oldPath e he hne
    constructor
    · simp [RegistryCall.removes, he, hne]
    · show QMap.find (ide.renameFile oldPath path).documents path = some e
      simp only [IDE.renameFile, he]
      exact QMap.find_insert_self _ _ _
  · intro doc ce
    constructor
    · simp [RegistryCall.removes]
    · exact ⟨_, QMap.find_insert_self _ _ _, rfl⟩

theorem IDE.calls_keeps_buffer (cs : List RegistryCall) (ide : IDE) (path : String) (a : Nat)
    (l : Bool) (hno : ide.noRemoval path cs = true)
    (h : ∃ d, QMap.find ide.documents path = some d ∧ d.addr = a ∧ (d.large = true → l = true)) :
    ∃ d, QMap.find (ide.calls cs).documents path = some d ∧ d.addr = a ∧
      (d.large = true → l = true) := by
  induction cs generalizing ide with
  | nil => exact h
  | cons c rest ih =>
    simp only [IDE.noRemoval, Bool.and_eq_true, Bool.not_eq_true'] at hno
    exact ih _ hno.2 (IDE.call_keeps_buffer ide c path a l hno.1 h)

/-- C5. `IDE::loadFile` on a registered path returns the registered buffer and
its large flag and leaves the whole registry (documents, watcher, allocator)
as it was, whatever the file system holds, so the file is not read; and once a
`loadFile` call has returned a buffer for a path, a later `loadFile` for that
path returns that same buffer, with any run of calls of the seven registry
functions in between of which none removes the document of the path.  The
large flag the later call returns is the one of the first call, unless
`loadLargeFile` has cleared it in between. -/
theorem loadFile_shares_registered_document (ide : IDE) (path : String) :
    (∀ d, QMap.find ide.documents path = some d →
      ∀ fs, ide.loadFile fs path = (ide, some d.addr, d.large)) ∧
    (∀ fs buf, (ide.loadFile fs path).2.1 = some buf →
      ∀ between fs', (ide.loadFile fs path).1.noRemoval path between = true →
        (((ide.loadFile fs path).1.calls between).loadFile fs' path).2.1 = some buf ∧
        ((((ide.loadFile fs path).1.calls between).loadFile fs' path).2.2 = true →
          (ide.loadFile fs path).2.2 = true)) := by
  refine ⟨fun d h fs => IDE.loadFile_of_registered ide fs path d h, ?_⟩
  intro fs buf h between fs' hno
  obtain ⟨d, hd, haddr, hlarge⟩ := IDE.loadFile_registers ide fs path buf h
  obtain ⟨d', hd', haddr', hlarge'⟩ :=
    IDE.calls_keeps_buffer between _ path buf (ide.loadFile fs path).2.2 hno
      ⟨d, hd, haddr, fun h' => hlarge ▸ h'⟩
  rw [IDE.loadFile_of_registered _ fs' path d' hd']
  exact ⟨by rw [haddr'], hlarge'⟩

theorem loadFile_shares_registered_document_witness :
    QMap.find sampleIDE.documents "/home/u/m.zinc" = some sampleDoc ∧
    sampleIDE.loadFile lockedFS "/home/u/m.zinc" = (sampleIDE, some sampleDoc.addr, sampleDoc.large) ∧
    ((IDE.empty.loadFile sampleFS "/home/u/m.zinc").2.1 = some 0 ∧
      (IDE.empty.loadFile sampleFS "/home/u/m.zinc").1.noRemoval "/home/u/m.zinc"
        [RegistryCall.loadFile sampleFS "/home/u/big.dzn",
         RegistryCall.registerEditor "/home/u/m.zinc" 1,
         RegistryCall.registerEditor "/home/u/m.zinc" 2,
         RegistryCall.registerEditor "/home/u/big.dzn" 3,
         RegistryCall.removeEditor "/home/u/m.zinc" 1,
         RegistryCall.loadLargeFile sampleFS "/home/u/big.dzn",
         RegistryCall.addDocument "/home/u/n.zinc" { text := "", modified := false } 4,
         RegistryCall.renameFile "/home/u/n.zinc" "/home/u/k.zinc",
         RegistryCall.removeEditor "/home/u/big.dzn" 3,
         RegistryCall.fileModified sampleFS ReloadChoice.cancel "/home/u/m.zinc"] = true) ∧
    ((((IDE.empty.loadFile sampleFS "/home/u/m.zinc").1.calls
        [RegistryCall.loadFile sampleFS "/home/u/big.dzn",
         RegistryCall.registerEditor "/home/u/m.zinc" 1,
         RegistryCall.registerEditor "/home/u/m.zinc" 2,
         RegistryCall.registerEditor "/home/u/big.dzn" 3,
         RegistryCall.removeEditor "/home/u/m.zinc" 1,
         RegistryCall.loadLargeFile sampleFS "/home/u/big.dzn",
         RegistryCall.addDocument "/home/u/n.zinc" { text := "", modified := false } 4,
         RegistryCall.renameFile "/home/u/n.zinc" "/home/u/k.zinc",
         RegistryCall.removeEditor "/home/u/big.dzn" 3,
         RegistryCall.fileModified sampleFS ReloadChoice.cancel "/home/u/m.zinc"]).loadFile
          lockedFS "/home/u/m.zinc").2.1
      = some 0) :=
  ⟨by decide,
   (loadFile_shares_registered_document sampleIDE "/home/u/m.zinc").1 sampleDoc (by decide) lockedFS,
   ⟨by decide, by decide⟩,
   ((loadFile_shares_registered_document IDE.empty "/home/u/m.zinc").2 sampleFS 0 (by decide)
     [RegistryCall.loadFile sampleFS "/home/u/big.dzn",
      RegistryCall.registerEditor "/home/u/m.zinc" 1,
      RegistryCall.registerEditor "/home/u/m.zinc" 2,
      RegistryCall.registerEditor "/home/u/big.dzn" 3,
      RegistryCall.removeEditor "/home/u/m.zinc" 1,
      RegistryCall.loadLargeFile sampleFS "/home/u/big.dzn",
      RegistryCall.addDocument "/home/u/n.zinc" { text := "", modified := false } 4,
      RegistryCall.renameFile "/home/u/n.zinc" "/home/u/k.zinc",
      RegistryCall.removeEditor "/home/u/big.dzn" 3,
      RegistryCall.fileModified sampleFS ReloadChoice.cancel "/home/u/m.zinc"] lockedFS
     (by decide)).1⟩

theorem IDE.loadFile_of_new (ide : IDE) (fs : FileSystem) (path : String)
    (size : Nat) (content : String)
    (hreg : QMap.find ide.documents path = none)
    (hfs : fs path = FileEntry.readable size content) (large : Bool)
    (hl : ((endsWith path ".dzn" || endsWith path ".fzn") &&
      decide (size > largeFileLimit)) = large) :
    ide.loadFile fs path =
      ({ documents := QMap.insert ide.documents path
           { addr := ide.nextAddr
             td := { text := if large then "" else content, modified := false }
             editors := []
             large := large }
         fsWatch := if large then ide.fsWatch else addPath ide.fsWatch path
         nextAddr := ide.nextAddr + 1 },
       some ide.nextAddr, large) := by
  subst hl
  simp only [IDE.loadFile, hreg, hfs]

/-- C6. `IDE::loadFile` on an unregistered, readable path: the document is
flagged large exactly when the path ends with ".dzn" or ".fzn" and the size
exceeds 5*1024*1024 bytes; a large document has empty text and the watcher is
unchanged, a non-large one has the file content and its path is watched; the
document is unmodified either way, and the returned buffer is the registered
one. -/
theorem loadFile_unregistered_readable (ide : IDE) (fs : FileSystem) (path : String)
    (size : Nat) (content : String)
    (hreg : QMap.find ide.documents path = none)
    (hfs : fs path = FileEntry.readable size content) :
    ((ide.loadFile fs path).2.2 = true ↔
      (endsWith path ".dzn" = true ∨ endsWith path ".fzn" = true) ∧ 5 * 1024 * 1024 < size) ∧
    ∃ d, QMap.find (ide.loadFile fs path).1.documents path = some d ∧
      (ide.loadFile fs path).2.1 = some d.addr ∧
      d.large = (ide.loadFile fs path).2.2 ∧
      d.td.modified = false ∧
      (d.large = true → d.td.text = "" ∧ (ide.loadFile fs path).1.fsWatch = ide.fsWatch) ∧
      (d.large = false → d.td.text = content ∧ path ∈ (ide.loadFile fs path).1.fsWatch ∧
        ∀ q, q ∈ (ide.loadFile fs path).1.fsWatch ↔ q ∈ ide.fsWatch ∨ q = path) := by
  cases hl : ((endsWith path ".dzn" || endsWith path ".fzn") && decide (size > largeFileLimit)) with
  | true =>
    rw [IDE.loadFile_of_new ide fs path size content hreg hfs true hl]
    refine ⟨?_, _, QMap.find_insert_self _ _ _, rfl, rfl, rfl, fun _ => ⟨rfl, rfl⟩, ?_⟩
    · simpa [largeFileLimit] using hl
    · intro h; exact Bool.noConfusion h
  | false =>
    rw [IDE.loadFile_of_new ide fs path size content hreg hfs false hl]
    refine ⟨?_, _, QMap.find_insert_self _ _ _, rfl, rfl, rfl, ?_, fun _ => ⟨rfl, ?_, ?_⟩⟩
    · have hl' := hl
      simp only [largeFileLimit, Bool.and_eq_false_iff, Bool.or_eq_false_iff,
        decide_eq_false_iff_not] at hl'
      constructor
      · intro h; exact Bool.noConfusion h
      · rintro ⟨h1, h2⟩
        rcases hl' with h | h
        · rcases h1 with h1 | h1
          · rw [h.1] at h1; exact absurd h1 (by decide)
          · rw [h.2] at h1; exact absurd h1 (by decide)
        · exact absurd h2 h
    · intro h; exact Bool.noConfusion h
    · exact (mem_addPath _ _ _).2 (Or.inr rfl)
    · intro q; exact mem_addPath _ _ _

theorem loadFile_unregistered_readable_witness :
    (QMap.find sampleIDE.documents "/home/u/big.dzn" = none ∧
     sampleFS "/home/u/big.dzn" = FileEntry.readable 6000000 "n = 3;") ∧
    ((sampleIDE.loadFile sampleFS "/home/u/big.dzn").2.2 = true ↔
      (endsWith "/home/u/big.dzn" ".dzn" = true ∨ endsWith "/home/u/big.dzn" ".fzn" = true) ∧
        5 * 1024 * 1024 < 6000000) ∧
    ∃ d, QMap.find (sampleIDE.loadFile sampleFS "/home/u/big.dzn").1.documents
        "/home/u/big.dzn" = some d ∧
      (sampleIDE.loadFile sampleFS "/home/u/big.dzn").2.1 = some d.addr ∧
      d.large = (sampleIDE.loadFile sampleFS "/home/u/big.dzn").2.2 ∧
      d.td.modified = false ∧
      (d.large = true → d.td.text = "" ∧
        (sampleIDE.loadFile sampleFS "/home/u/big.dzn").1.fsWatch = sampleIDE.fsWatch) ∧
      (d.large = false → d.td.text = "n = 3;" ∧
        "/home/u/big.dzn" ∈ (sampleIDE.loadFile sampleFS "/home/u/big.dzn").1.fsWatch ∧
        ∀ q, q ∈ (sampleIDE.loadFile sampleFS "/home/u/big.dzn").1.fsWatch ↔
          q ∈ sampleIDE.fsWatch ∨ q = "/home/u/big.dzn") :=
  ⟨⟨by decide, by decide⟩,
   loadFile_unregistered_readable sampleIDE sampleFS "/home/u/big.dzn" 6000000 "n = 3;"
     (by decide) (by decide)⟩

theorem IDE.removeEditor_of_last (ide : IDE) (path : String) (ce : Nat) (d : Doc)
    (hd : QMap.find ide.documents path = some d)
    (he : (removeFromSet d.editors ce).isEmpty = true) :
    ide.removeEditor path ce =
      { ide with
        documents := QMap.remove ide.documents path
        fsWatch := removePath ide.fsWatch path } := by
  simp only [IDE.removeEditor, hd, he, if_true]

theorem IDE.removeEditor_of_more (ide : IDE) (path : String) (ce : Nat) (d : Doc)
    (hd : QMap.find ide.documents path = some d)
    (he : (removeFromSet d.editors ce).isEmpty = false) :
    ide.removeEditor path ce =
      { ide with
        documents := QMap.modify ide.documents path
          (fun d => { d with editors := removeFromSet d.editors ce }) } := by
  simp only [IDE.removeEditor, hd, he, Bool.false_eq_true, if_false]

theorem removeFromSet_isEmpty (editors : List Nat) (ce : Nat) :
    (removeFromSet editors ce).isEmpty = true ↔ ∀ e ∈ editors, e = ce := by
  rw [List.isEmpty_iff]
  constructor
  · intro h e he
    by_contra hne
    have : e ∈ removeFromSet editors ce := (mem_removeFromSet _ _ _).2 ⟨he, hne⟩
    rw [h] at this
    exact absurd this (List.not_mem_nil e)
  · intro h
    apply List.eq_nil_iff_forall_not_mem.2
    intro e he
    have := (mem_removeFromSet _ _ _).1 he
    exact this.2 (h e this.1)

/-- C7. `IDE::removeEditor(path, ce)` on a registered path takes `ce` out of
the editor set; the document is dropped from the registry exactly when no
other editor remains, and then the path leaves the watcher (no other watched
path does); otherwise the document keeps its buffer, text and large flag and
the watcher is unchanged. Entries of all other paths are unchanged, and on an
unregistered path nothing changes. -/
theorem removeEditor_spec (ide : IDE) (path : String) (ce : Nat) :
    (∀ d, QMap.find ide.documents path = some d →
      ((QMap.find (ide.removeEditor path ce).documents path = none ↔
          ∀ e ∈ d.editors, e = ce) ∧
       ((∀ e ∈ d.editors, e = ce) →
          path ∉ (ide.removeEditor path ce).fsWatch ∧
          ∀ q, q ≠ path → (q ∈ (ide.removeEditor path ce).fsWatch ↔ q ∈ ide.fsWatch)) ∧
       ((¬ ∀ e ∈ d.editors, e = ce) →
          (∃ d', QMap.find (ide.removeEditor path ce).documents path = some d' ∧
            d'.addr = d.addr ∧ d'.td = d.td ∧ d'.large = d.large ∧
            ∀ e, e ∈ d'.editors ↔ e ∈ d.editors ∧ e ≠ ce) ∧
          (ide.removeEditor path ce).fsWatch = ide.fsWatch) ∧
       ∀ q, q ≠ path →
         QMap.find (ide.removeEditor path ce).documents q = QMap.find ide.documents q)) ∧
    (QMap.find ide.documents path = none → ide.removeEditor path ce = ide) := by
  constructor
  · intro d hd
    by_cases hall : ∀ e ∈ d.editors, e = ce
    · rw [IDE.removeEditor_of_last ide path ce d hd ((removeFromSet_isEmpty _ _).2 hall)]
      refine ⟨⟨fun _ => hall, fun _ => QMap.find_remove_self _ _⟩, ?_, ?_, ?_⟩
      · intro _
        refine ⟨fun hmem => ((mem_removePath _ _ _).1 hmem).2 rfl, fun q hq => ?_⟩
        show q ∈ removePath ide.fsWatch path ↔ q ∈ ide.fsWatch
        rw [mem_removePath]
        exact ⟨fun h => h.1, fun h => ⟨h, hq⟩⟩
      · intro hn; exact absurd hall hn
      · intro q hq; exact QMap.find_remove_of_ne _ _ _ hq
    · have he : (removeFromSet d.editors ce).isEmpty = false := by
        cases h : (removeFromSet d.editors ce).isEmpty with
        | false => rfl
        | true => exact absurd ((removeFromSet_isEmpty _ _).1 h) hall
      rw [IDE.removeEditor_of_more ide path ce d hd he]
      have hfind : QMap.find (QMap.modify ide.documents path
          (fun d => { d with editors := removeFromSet d.editors ce })) path
          = some { d with editors := removeFromSet d.editors ce } := by
        rw [QMap.find_modify_self, hd]; rfl
      refine ⟨⟨fun h => ?_, fun h => absurd h hall⟩, fun h => absurd h hall, ?_, ?_⟩
      · have h' : QMap.find (QMap.modify ide.documents path
          (fun d => { d with editors := removeFromSet d.editors ce })) path = none := h
        rw [hfind] at h'; exact absurd h' (by simp)
      · intro _
        exact ⟨⟨_, hfind, rfl, rfl, rfl, fun e => mem_removeFromSet d.editors ce e⟩, rfl⟩
      · intro q hq; exact QMap.find_modify_of_ne _ _ _ _ hq
  · intro hn
    simp only [IDE.removeEditor, hn]

theorem removeEditor_spec_witness :
    QMap.find sampleIDE.documents "/home/u/m.zinc" = some sampleDoc ∧
    (¬ ∀ e ∈ sampleDoc.editors, e = 1) ∧
    ((∃ d', QMap.find (sampleIDE.removeEditor "/home/u/m.zinc" 1).documents "/home/u/m.zinc"
          = some d' ∧
        d'.addr = sampleDoc.addr ∧ d'.td = sampleDoc.td ∧ d'.large = sampleDoc.large ∧
        ∀ e, e ∈ d'.editors ↔ e ∈ sampleDoc.editors ∧ e ≠ 1) ∧
      (sampleIDE.removeEditor "/home/u/m.zinc" 1).fsWatch = sampleIDE.fsWatch) ∧
    QMap.find sampleIDE.documents "/home/u/other.zinc" = none ∧
    sampleIDE.removeEditor "/home/u/other.zinc" 1 = sampleIDE :=
  ⟨by decide, by decide,
   ((removeEditor_spec sampleIDE "/home/u/m.zinc" 1).1 sampleDoc (by decide)).2.2.1 (by decide),
   by decide,
   (removeEditor_spec sampleIDE "/home/u/other.zinc" 1).2 (by decide)⟩

/-- C8. `IDE::fileModified(f)` changes nothing when `f` is not registered or
the file no longer exists. For a registered path whose file exists: on Cancel
the text is unchanged and the buffer is marked modified; on Reload of a
readable file the text becomes the file content and the buffer is marked
unmodified; on Reload of a file that cannot be opened the text is unchanged
and the buffer is marked modified. The buffer identity, editors, large flag,
the other entries and the watcher are untouched throughout. -/
theorem fileModified_spec (ide : IDE) (fs : FileSystem) (clicked : ReloadChoice)
    (f : String) :
    (QMap.find ide.documents f = none → ide.fileModified fs clicked f = ide) ∧
    (fs f = FileEntry.missing → ide.fileModified fs clicked f = ide) ∧
    (∀ d, QMap.find ide.documents f = some d → fs f ≠ FileEntry.missing →
      (ide.fileModified fs clicked f).fsWatch = ide.fsWatch ∧
      (∀ q, q ≠ f → QMap.find (ide.fileModified fs clicked f).documents q
          = QMap.find ide.documents q) ∧
      (clicked = ReloadChoice.cancel →
        QMap.find (ide.fileModified fs clicked f).documents f
          = some { d with td := { text := d.td.text, modified := true } }) ∧
      (∀ size content, clicked = ReloadChoice.reload →
        fs f = FileEntry.readable size content →
        QMap.find (ide.fileModified fs clicked f).documents f
          = some { d with td := { text := content, modified := false } }) ∧
      (clicked = ReloadChoice.reload → fs f = FileEntry.unreadable →
        QMap.find (ide.fileModified fs clicked f).documents f
          = some { d with td := { text := d.td.text, modified := true } })) := by
  refine ⟨fun hn => by simp only [IDE.fileModified, hn], fun hm => ?_, ?_⟩
  · cases hd : QMap.find ide.documents f <;> simp only [IDE.fileModified, hd, hm]
  · intro d hd hex
    refine ⟨?_, ?_, ?_, ?_, ?_⟩
    · cases clicked with
      | cancel => rw [IDE.fileModified_of_cancel ide fs f d hd hex]
      | reload =>
        cases hfs : fs f with
        | missing => exact absurd hfs hex
        | unreadable => rw [IDE.fileModified_of_reload_failed ide fs f d hd hfs]
        | readable size content => rw [IDE.fileModified_of_reload ide fs f d size content hd hfs]
    · intro q hq
      cases clicked with
      | cancel =>
        rw [IDE.fileModified_of_cancel ide fs f d hd hex]
        exact QMap.find_modify_of_ne _ _ _ _ hq
      | reload =>
        cases hfs : fs f with
        | missing => exact absurd hfs hex
        | unreadable =>
          rw [IDE.fileModified_of_reload_failed ide fs f d hd hfs]
          exact QMap.find_modify_of_ne _ _ _ _ hq
        | readable size content =>
          rw [IDE.fileModified_of_reload ide fs f d size content hd hfs]
          exact QMap.find_modify_of_ne _ _ _ _ hq
    · intro hc
      subst hc
      rw [IDE.fileModified_of_cancel ide fs f d hd hex]
      show QMap.find (QMap.modify ide.documents f (fun d => d.setModified true)) f = some _
      rw [QMap.find_modify_self, hd]; rfl
    · intro size content hc hfs
      subst hc
      rw [IDE.fileModified_of_reload ide fs f d size content hd hfs]
      show QMap.find (QMap.modify ide.documents f
        (fun d => (d.setPlainText content).setModified false)) f = some _
      rw [QMap.find_modify_self, hd]; rfl
    · intro hc hfs
      subst hc
      rw [IDE.fileModified_of_reload_failed ide fs f d hd hfs]
      show QMap.find (QMap.modify ide.documents f (fun d => d.setModified true)) f = some _
      rw [QMap.find_modify_self, hd]; rfl

theorem fileModified_spec_witness :
    (QMap.find sampleIDE.documents "/home/u/m.zinc" = some sampleDoc ∧
     sampleFS "/home/u/m.zinc" ≠ FileEntry.missing ∧
     sampleFS "/home/u/m.zinc" = FileEntry.readable 8 "int: m;") ∧
    QMap.find (sampleIDE.fileModified sampleFS ReloadChoice.reload "/home/u/m.zinc").documents
        "/home/u/m.zinc"
      = some { sampleDoc with td := { text := "int: m;", modified := false } } ∧
    (QMap.find sampleIDE.documents "/home/u/big.dzn" = none ∧
     sampleIDE.fileModified sampleFS ReloadChoice.reload "/home/u/big.dzn" = sampleIDE) :=
  ⟨⟨by decide, by decide, by decide⟩,
   ((fileModified_spec sampleIDE sampleFS ReloadChoice.reload "/home/u/m.zinc").2.2
      sampleDoc (by decide) (by decide)).2.2.2.1 8 "int: m;" rfl (by decide),
   by decide,
   (fileModified_spec sampleIDE sampleFS ReloadChoice.reload "/home/u/big.dzn").1 (by decide)⟩

/-! ## Theorems: project files -/

theorem getU32_putU32 (n : Nat) (rest : List Nat) (h : n < 2 ^ 32) :
    getU32 (putU32 n ++ rest) = (n, rest) := by
  simp only [putU32, List.cons_append, List.nil_append, getU32, Prod.mk.injEq, and_true]
  omega

theorem getI32_putI32 (i : Int) (rest : List Nat) (h : -2 ^ 31 ≤ i ∧ i < 2 ^ 31) :
    getI32 (putI32 i ++ rest) = (i, rest) := by
  have hlt : (i % 2 ^ 32).toNat < 2 ^ 32 := by omega
  simp only [getI32, putI32, getU32_putU32 _ _ hlt, Prod.mk.injEq, and_true]
  split <;> omega

theorem getBool_putBool (b : Bool) (rest : List Nat) :
    getBool (putBool b ++ rest) = (b, rest) := by
  cases b <;> rfl

theorem length_encodeUnits (s : QStr) :
    (s.flatMap (fun c => [c / 256 % 256, c % 256])).length = 2 * s.length := by
  induction s with
  | nil => rfl
  | cons c rest ih =>
    simp only [List.flatMap_cons, List.length_append, List.length_cons, List.length_nil, ih]
    omega

theorem codeUnits_encodeUnits (s : QStr) (h : ∀ c ∈ s, c < 65536) :
    codeUnits (s.flatMap (fun c => [c / 256 % 256, c % 256])) = s := by
  induction s with
  | nil => rfl
  | cons c rest ih =>
    have hc : c < 65536 := h c (List.mem_cons_self _ _)
    have hr : ∀ d ∈ rest, d < 65536 := fun d hd => h d (List.mem_cons_of_mem _ hd)
    have hstep : codeUnits ((c :: rest).flatMap (fun c => [c / 256 % 256, c % 256]))
        = (c / 256 % 256 * 256 + c % 256)
            :: codeUnits (rest.flatMap (fun c => [c / 256 % 256, c % 256])) := rfl
    have hval : c / 256 % 256 * 256 + c % 256 = c := by omega
    rw [hstep, ih hr, hval]

theorem getString_putString (s : QStr) (rest : List Nat) (h : QStr.Valid s) :
    getString (putString s ++ rest) = (s, rest) := by
  obtain ⟨hu, hl⟩ := h
  have hlen := length_encodeUnits s
  unfold getString putString
  rw [List.append_assoc, getU32_putU32 _ _ hl]
  cases s with
  | nil => rfl
  | cons c t =>
    have h1 : ¬ (2 * (c :: t).length = 0xFFFFFFFF) := by omega
    have h2 : ¬ (2 * (c :: t).length = 0) := by simp
    have h3 : ¬ (2 * (c :: t).length % 2 = 1) := by omega
    have h4 : ¬ (((c :: t).flatMap (fun c => [c / 256 % 256, c % 256]) ++ rest).length
        < 2 * (c :: t).length) := by
      rw [List.length_append, hlen]; omega
    simp only [h1, h2, h3, h4, if_false]
    rw [← hlen, List.take_left, List.drop_left, codeUnits_encodeUnits _ hu]

theorem getStrings_putStrings (l : List QStr) (rest : List Nat)
    (h : ∀ s ∈ l, QStr.Valid s) (hrest : rest ≠ []) :
    getStrings l.length (l.flatMap putString ++ rest) = (l, rest) := by
  induction l with
  | nil => rfl
  | cons s t ih =>
    have hs : QStr.Valid s := h s (List.mem_cons_self _ _)
    have ht : ∀ u ∈ t, QStr.Valid u := fun u hu => h u (List.mem_cons_of_mem _ hu)
    have hne : (t.flatMap putString ++ rest).isEmpty = false := by
      cases hx : t.flatMap putString ++ rest with
      | nil =>
        have := List.append_eq_nil.1 hx
        exact absurd this.2 hrest
      | cons _ _ => rfl
    simp only [List.length_cons, getStrings, List.flatMap_cons, List.append_assoc,
      getString_putString s _ hs, hne, Bool.false_eq_true, if_false, ih ht]

theorem getStringList_putStringList (l : List QStr) (rest : List Nat)
    (h : validStrings l) (hrest : rest ≠ []) :
    getStringList (putStringList l ++ rest) = (l, rest) := by
  unfold getStringList putStringList
  rw [List.append_assoc, getU32_putU32 _ _ h.2]
  exact getStrings_putStrings l rest h.1 hrest

theorem saveProject_body (p : ProjectData) :
    (getU32 (getU32 (saveProject p)).2).2 =
      ((saveProjectFields p).drop 2).flatMap Field.encode := rfl

/-- What `loadProject` makes of the file `saveProject` writes, for every
project state the stream can carry: the open files, the data-file index,
`haveZincArgs` and `zincArgs` come back as saved, and then the three flags
"print all", "statistics" and "have solver flags" are read from the first
three bytes of the solution count. -/
theorem loadProjectBody_of_saveProject (p : ProjectData) (h : p.Valid) :
    (loadProjectBody (getU32 (getU32 (saveProject p)).2).2).openFiles = p.openFiles ∧
    (loadProjectBody (getU32 (getU32 (saveProject p)).2).2).dataFileIndex
      = p.currentDataFileIndex ∧
    (loadProjectBody (getU32 (getU32 (saveProject p)).2).2).haveZincArgs = p.haveZincArgs ∧
    (loadProjectBody (getU32 (getU32 (saveProject p)).2).2).zincArgs = p.zincArgs ∧
    (loadProjectBody (getU32 (getU32 (saveProject p)).2).2).printAll
      = ((p.n_solutions % 2 ^ 32).toNat / 2 ^ 24 % 256 != 0) ∧
    (loadProjectBody (getU32 (getU32 (saveProject p)).2).2).printStats
      = ((p.n_solutions % 2 ^ 32).toNat / 2 ^ 16 % 256 != 0) ∧
    (loadProjectBody (getU32 (getU32 (saveProject p)).2).2).haveSolverFlags
      = ((p.n_solutions % 2 ^ 32).toNat / 2 ^ 8 % 256 != 0) := by
  have hvalidEmpty : QStr.Valid [] := ⟨fun c hc => absurd hc (List.not_mem_nil c), by decide⟩
  rw [saveProject_body]
  simp only [saveProjectFields, List.drop_succ_cons, List.drop_zero, List.flatMap_cons,
    List.flatMap_nil, Field.encode, loadProjectBody]
  rw [getStringList_putStringList _ _ h.openFiles (by simp [putString, putU32])]
  simp only [getString_putString _ _ hvalidEmpty, getI32_putI32 _ _ h.dataFileIndex,
    getBool_putBool, getString_putString _ _ h.zincArgs, true_and]
  simp only [putI32, putU32, List.cons_append, List.nil_append, getBool, and_self]

/-- For every project state the stream can carry that asks for fewer than
65536 solutions, "print all" and "statistics" come back cleared, whatever was
saved. -/
theorem loadProject_clears_printAll (p : ProjectData) (h : p.Valid)
    (hn : 0 ≤ p.n_solutions ∧ p.n_solutions < 65536) :
    (loadProjectBody (getU32 (getU32 (saveProject p)).2).2).printAll = false ∧
    (loadProjectBody (getU32 (getU32 (saveProject p)).2).2).printStats = false := by
  obtain ⟨_, _, _, _, h5, h6, _⟩ := loadProjectBody_of_saveProject p h
  rw [h5, h6]
  have h24 : (p.n_solutions % 2 ^ 32).toNat / 2 ^ 24 % 256 = 0 := by omega
  have h16 : (p.n_solutions % 2 ^ 32).toNat / 2 ^ 16 % 256 = 0 := by omega
  rw [h24, h16]
  exact ⟨rfl, rfl⟩

/-- The sequence of types `saveProject` writes is never the sequence
`loadProject` reads: the former has the `qint32` solution count between
`zincArgs` and `printAll`, the latter has no read for it. -/
theorem saveProject_types_ne_loadProject_reads (p : ProjectData) :
    (saveProjectFields p).map Field.type ≠ loadProjectReads := by
  simp [saveProjectFields, loadProjectReads, Field.type]

/-- The same sequences, once the solution count is taken out of what is
written, agree. -/
theorem saveProject_types_without_n_solutions (p : ProjectData) :
    ((saveProjectFields p).eraseIdx 7).map Field.type = loadProjectReads := by
  simp [saveProjectFields, loadProjectReads, Field.type, List.eraseIdx]

/-- C1 (evaluation at the failing input). Loading the file that `saveProject`
writes for `sampleProject` passes the header test, but the body is read one
field short: the written sequence of types differs from the sequence read,
"print all", "statistics" and "verbose" come back cleared, the current tab
comes back as 0 and the project file list comes back empty, so the loaded
values are not the saved ones. -/
theorem loadProject_of_saveProject_sample :
    (saveProjectFields sampleProject).map Field.type ≠ loadProjectReads ∧
    (loadProject ⟨"", "", [], []⟩ 1 "/home/u/p.mzp" (saveProject sampleProject) true).2
      = some
          { openFiles := [qstr "m.zinc"]
            dataFileIndex := 0
            haveZincArgs := false
            zincArgs := []
            printAll := false
            printStats := false
            haveSolverFlags := false
            solverFlags := []
            solverVerbose := false
            currentIndex := 0
            projectFilesRelPath := [] } ∧
    (loadProject ⟨"", "", [], []⟩ 1 "/home/u/p.mzp" (saveProject sampleProject) true).2
      ≠ some sampleProject.expected := by
  refine ⟨by decide, by decide, by decide⟩

theorem loadProject_of_rejected (w : ProjectWindow) (self : Nat) (filepath : String)
    (bytes : List Nat) (closeAccepted : Bool)
    (h : ¬ ((getU32 bytes).1 = 0xD539EA12 ∧
        ((getU32 (getU32 bytes).2).1 = 101 ∨ (getU32 (getU32 bytes).2).1 = 102 ∨
          (getU32 (getU32 bytes).2).1 = 103))) :
    loadProject w self filepath bytes closeAccepted = (closeEvent w closeAccepted, none) := by
  unfold loadProject
  by_cases hm : (getU32 bytes).1 = projectMagic
  · have hv : (getU32 (getU32 bytes).2).1 ≠ 101 ∧ (getU32 (getU32 bytes).2).1 ≠ 102 ∧
        (getU32 (getU32 bytes).2).1 ≠ 103 := by
      refine ⟨fun h1 => h ⟨hm, Or.inl h1⟩, fun h2 => h ⟨hm, Or.inr (Or.inl h2)⟩,
        fun h3 => h ⟨hm, Or.inr (Or.inr h3)⟩⟩
    simp only [hm, ne_eq, not_true_eq_false, if_false, hv, not_false_eq_true, and_self, if_true]
  · simp only [ne_eq, hm, not_false_eq_true, if_true]

theorem loadProject_of_accepted (w : ProjectWindow) (self : Nat) (filepath : String)
    (bytes : List Nat) (closeAccepted : Bool)
    (h : (getU32 bytes).1 = 0xD539EA12 ∧
        ((getU32 (getU32 bytes).2).1 = 101 ∨ (getU32 (getU32 bytes).2).1 = 102 ∨
          (getU32 (getU32 bytes).2).1 = 103)) :
    loadProject w self filepath bytes closeAccepted =
      ({ projectPath := filepath
         recentProjects := updateRecentProjects w.recentProjects filepath
         projectRoot := filepath
         projects := QMap.insert w.projects filepath self },
       some (loadProjectBody (getU32 (getU32 bytes).2).2)) := by
  unfold loadProject
  have hm : (getU32 bytes).1 = projectMagic := h.1
  have hv : ¬ ((getU32 (getU32 bytes).2).1 ≠ 101 ∧ (getU32 (getU32 bytes).2).1 ≠ 102 ∧
      (getU32 (getU32 bytes).2).1 ≠ 103) := by
    rintro ⟨h1, h2, h3⟩
    rcases h.2 with h' | h' | h'
    · exact h1 h'
    · exact h2 h'
    · exact h3 h'
  simp only [hm, ne_eq, not_true_eq_false, if_false]
  rw [if_neg hv]

/-- C2. `loadProject` reads the body exactly when the first word of the file
is 0xD539EA12 and the second is 101, 102 or 103, and the file `saveProject`
writes has that magic number and version 103. On an accepted header the file
is registered: it becomes the project path and root, heads the recent list and
is mapped to the window. On any other header the outcome is that of `close()`
alone: the project root and the recent list are as before, the project path is
the old one or cleared, the project map is the old one or lacks the old path,
and nothing depends on the path or content of the rejected file. -/
theorem loadProject_header_gate (w : ProjectWindow) (self : Nat) (filepath : String)
    (bytes : List Nat) (closeAccepted : Bool) :
    (((loadProject w self filepath bytes closeAccepted).2.isSome = true) ↔
      ((getU32 bytes).1 = 0xD539EA12 ∧
        ((getU32 (getU32 bytes).2).1 = 101 ∨ (getU32 (getU32 bytes).2).1 = 102 ∨
          (getU32 (getU32 bytes).2).1 = 103))) ∧
    (∀ p, (getU32 (saveProject p)).1 = 0xD539EA12 ∧
      (getU32 (getU32 (saveProject p)).2).1 = 103) ∧
    ((loadProject w self filepath bytes closeAccepted).2.isSome = true →
      (loadProject w self filepath bytes closeAccepted).1.projectPath = filepath ∧
      (loadProject w self filepath bytes closeAccepted).1.projectRoot = filepath ∧
      (loadProject w self filepath bytes closeAccepted).1.recentProjects
        = updateRecentProjects w.recentProjects filepath ∧
      QMap.find (loadProject w self filepath bytes closeAccepted).1.projects filepath
        = some self) ∧
    ((loadProject w self filepath bytes closeAccepted).2.isSome = false →
      (loadProject w self filepath bytes closeAccepted).1 = closeEvent w closeAccepted ∧
      (loadProject w self filepath bytes closeAccepted).1.projectRoot = w.projectRoot ∧
      (loadProject w self filepath bytes closeAccepted).1.recentProjects = w.recentProjects ∧
      ((loadProject w self filepath bytes closeAccepted).1.projectPath = w.projectPath ∨
        (loadProject w self filepath bytes closeAccepted).1.projectPath = "") ∧
      ((loadProject w self filepath bytes closeAccepted).1.projects = w.projects ∨
        (loadProject w self filepath bytes closeAccepted).1.projects
          = QMap.remove w.projects w.projectPath) ∧
      ∀ filepath' bytes',
        (loadProject w self filepath' bytes' closeAccepted).2.isSome = false →
        (loadProject w self filepath' bytes' closeAccepted).1
          = (loadProject w self filepath bytes closeAccepted).1) := by
  have key : ∀ (f : String) (b : List Nat),
      ((loadProject w self f b closeAccepted).2.isSome = true ↔
        ((getU32 b).1 = 0xD539EA12 ∧
          ((getU32 (getU32 b).2).1 = 101 ∨ (getU32 (getU32 b).2).1 = 102 ∨
            (getU32 (getU32 b).2).1 = 103))) := by
    intro f b
    constructor
    · intro hs
      by_contra hn
      rw [loadProject_of_rejected w self f b closeAccepted hn] at hs
      exact Bool.noConfusion hs
    · intro ha
      rw [loadProject_of_accepted w self f b closeAccepted ha]
      rfl
  have rejected : ∀ (f : String) (b : List Nat),
      (loadProject w self f b closeAccepted).2.isSome = false →
      (loadProject w self f b closeAccepted).1 = closeEvent w closeAccepted := by
    intro f b hs
    have hn : ¬ ((getU32 b).1 = 0xD539EA12 ∧
        ((getU32 (getU32 b).2).1 = 101 ∨ (getU32 (getU32 b).2).1 = 102 ∨
          (getU32 (getU32 b).2).1 = 103)) := by
      intro ha
      rw [(key f b).2 ha] at hs
      exact Bool.noConfusion hs
    rw [loadProject_of_rejected w self f b closeAccepted hn]
  refine ⟨key filepath bytes, fun p => ⟨rfl, rfl⟩, ?_, ?_⟩
  · intro hs
    rw [loadProject_of_accepted w self filepath bytes closeAccepted ((key filepath bytes).1 hs)]
    exact ⟨rfl, rfl, rfl, QMap.find_insert_self _ _ _⟩
  · intro hs
    rw [rejected filepath bytes hs]
    refine ⟨rfl, ?_, ?_, ?_, ?_, fun f' b' hs' => rejected f' b' hs'⟩
    · cases closeAccepted <;> rfl
    · cases closeAccepted <;> rfl
    · cases closeAccepted
      · exact Or.inl rfl
      · exact Or.inr rfl
    · cases closeAccepted
      · exact Or.inl rfl
      · by_cases he : w.projectPath = ""
        · left; simp only [closeEvent, if_true, he]
        · right; simp only [closeEvent, if_true, he, if_false]

theorem loadProject_header_gate_witness :
    (loadProject ⟨"", "", ["/home/u/old.mzp"], []⟩ 1 "/home/u/p.mzp"
        (saveProject sampleProject) true).2.isSome = true ∧
    ((loadProject ⟨"", "", ["/home/u/old.mzp"], []⟩ 1 "/home/u/p.mzp"
        (saveProject sampleProject) true).1.projectPath = "/home/u/p.mzp" ∧
      (loadProject ⟨"", "", ["/home/u/old.mzp"], []⟩ 1 "/home/u/p.mzp"
        (saveProject sampleProject) true).1.projectRoot = "/home/u/p.mzp" ∧
      (loadProject ⟨"", "", ["/home/u/old.mzp"], []⟩ 1 "/home/u/p.mzp"
        (saveProject sampleProject) true).1.recentProjects
        = updateRecentProjects ["/home/u/old.mzp"] "/home/u/p.mzp" ∧
      QMap.find (loadProject ⟨"", "", ["/home/u/old.mzp"], []⟩ 1 "/home/u/p.mzp"
        (saveProject sampleProject) true).1.projects "/home/u/p.mzp" = some 1) ∧
    (loadProject ⟨"", "", ["/home/u/old.mzp"], []⟩ 1 "/home/u/notes.txt"
        [213, 57, 234, 18, 0, 0, 0, 104] true).2.isSome = false ∧
    (loadProject ⟨"", "", ["/home/u/old.mzp"], []⟩ 1 "/home/u/notes.txt"
        [213, 57, 234, 18, 0, 0, 0, 104] true).1.recentProjects = ["/home/u/old.mzp"] :=
  ⟨by decide,
   (loadProject_header_gate ⟨"", "", ["/home/u/old.mzp"], []⟩ 1 "/home/u/p.mzp"
      (saveProject sampleProject) true).2.2.1 (by decide),
   by decide,
   ((loadProject_header_gate ⟨"", "", ["/home/u/old.mzp"], []⟩ 1 "/home/u/notes.txt"
      [213, 57, 234, 18, 0, 0, 0, 104] true).2.2.2 (by decide)).2.2.1⟩

/-! ## Theorems: the main window and its process -/

theorem MainWindow.editor_of_tab (w : MainWindow) (i : Nat) (ce : CodeEditor)
    (hi : w.curEditor = some i) (ht : w.tabs[i]? = some (Tab.editor ce)) :
    w.editor = some ce := by
  simp only [MainWindow.editor, hi, ht]

theorem MainWindow.editor_of_curEditor (w : MainWindow) (ce : CodeEditor)
    (h : w.editor = some ce) :
    ∃ i, w.curEditor = some i ∧ w.tabs[i]? = some (Tab.editor ce) := by
  cases hc : w.curEditor with
  | none => simp only [MainWindow.editor, hc] at h; exact Option.noConfusion h
  | some i =>
    refine ⟨i, rfl, ?_⟩
    cases ht : w.tabs[i]? with
    | none => simp only [MainWindow.editor, hc, ht] at h; exact Option.noConfusion h
    | some t =>
      cases t with
      | configuration => simp only [MainWindow.editor, hc, ht] at h; exact Option.noConfusion h
      | editor ce' =>
        simp only [MainWindow.editor, hc, ht] at h
        rw [Option.some.inj h]

theorem MainWindow.tabChange_of_editor (w : MainWindow) (i : Nat) (ce : CodeEditor)
    (ht : w.tabs[i]? = some (Tab.editor ce)) :
    w.tabChange (some i) =
      { w with
        curEditor := some i
        actionRun := isZinc ce.filepath
        actionCompile := isZinc ce.filepath } := by
  simp only [MainWindow.tabChange, ht]

theorem MainWindow.setModified_of_editor (w : MainWindow) (i : Nat) (ce : CodeEditor)
    (b : Bool) (hi : w.curEditor = some i) (ht : w.tabs[i]? = some (Tab.editor ce)) :
    w.setModified b = { w with tabs := w.tabs.set i (Tab.editor { ce with modified := b }) } := by
  simp only [MainWindow.setModified, hi, ht]

theorem MainWindow.on_actionSave_triggered_of_editor (w : MainWindow) (ce : CodeEditor)
    (writable : Bool) (h : w.editor = some ce) :
    (w.on_actionSave_triggered writable).editor
        = some { ce with modified := ce.modified && !writable } ∧
    (w.on_actionSave_triggered writable).log = w.log ∧
    (w.on_actionSave_triggered writable).process = w.process ∧
    (w.on_actionSave_triggered writable).nextPid = w.nextPid ∧
    (w.on_actionSave_triggered writable).saveBeforeRunning = w.saveBeforeRunning := by
  obtain ⟨i, hi, ht⟩ := MainWindow.editor_of_curEditor w ce h
  have hlt : i < w.tabs.length := by
    by_contra hge
    rw [List.getElem?_eq_none (Nat.le_of_not_lt hge)] at ht
    exact Option.noConfusion ht
  cases writable with
  | false =>
    simp only [MainWindow.on_actionSave_triggered, h, Bool.false_eq_true, if_false,
      Bool.not_false, Bool.and_true, and_self]
  | true =>
    have hset : (w.setModified false).tabs[i]?
        = some (Tab.editor { ce with modified := false }) := by
      rw [MainWindow.setModified_of_editor w i ce false hi ht]
      exact List.getElem?_set_self hlt
    have hsave : w.on_actionSave_triggered true
        = (w.setModified false).tabChange (some i) := by
      simp only [MainWindow.on_actionSave_triggered, h, if_true, hi]
    rw [hsave, MainWindow.tabChange_of_editor _ i _ hset]
    refine ⟨?_, ?_, ?_, ?_, ?_⟩
    · have hed := MainWindow.editor_of_tab
        { (w.setModified false) with
          curEditor := some i
          actionRun := isZinc ce.filepath
          actionCompile := isZinc ce.filepath }
        i { ce with modified := false } rfl hset
      rw [hed]
      simp
    all_goals rw [MainWindow.setModified_of_editor w i ce false hi ht]

/-- C3 (evaluation at the failing trace). In a window opened on the saved models
`/home/u/m.zinc` and `/home/u/k.zinc`: the user selects the first editor page
and triggers Run, which starts compile process 0 and disables Run; the user
then selects the second editor page, and `tabChange` enables Run again
although process 0 is still in `process`; the next Run enters
`startCompileZinc` with `process` not null and puts process 1 in its place,
with no interrupt, kill or delete of process 0 in between. -/
theorem run_after_tabChange_replaces_live_process :
    (sampleWindow.run
        [Event.tabChange (some 1), Event.run SaveChoice.save true false,
         Event.tabChange (some 2)]).process
      = some { pid := 0, kind := ProcKind.compileZinc } ∧
    (sampleWindow.run
        [Event.tabChange (some 1), Event.run SaveChoice.save true false,
         Event.tabChange (some 2)]).actionRun = true ∧
    (sampleWindow.run
        [Event.tabChange (some 1), Event.run SaveChoice.save true false,
         Event.tabChange (some 2)]).step (Event.run SaveChoice.save true false)
      = ({ sampleWindow.run
            [Event.tabChange (some 1), Event.run SaveChoice.save true false,
             Event.tabChange (some 2)] with
           compileOnly := false }).startCompileZinc ∧
    (sampleWindow.run
        [Event.tabChange (some 1), Event.run SaveChoice.save true false,
         Event.tabChange (some 2), Event.run SaveChoice.save true false]).process
      = some { pid := 1, kind := ProcKind.compileZinc } ∧
    (sampleWindow.run
        [Event.tabChange (some 1), Event.run SaveChoice.save true false,
         Event.tabChange (some 2), Event.run SaveChoice.save true false]).log
      = [Effect.start 0 ProcKind.compileZinc, Effect.start 1 ProcKind.compileZinc] := by
  refine ⟨by decide, by decide, by decide, by decide, by decide⟩

/-- C4. `on_actionStop_triggered` with a live process `p` does, in this order
and nothing else: interrupt `p`, wait up to 100 ms, then, only if `p` has not
finished within that wait, kill `p` and wait for it, and finally delete the
process object; afterwards `process` is null and `processWasStopped` is true.
With no live process the window is unchanged. -/
theorem on_actionStop_triggered_spec (w : MainWindow) (finishedInTime : Bool) :
    (∀ p, w.process = some p →
      (w.on_actionStop_triggered finishedInTime).log
        = w.log ++ [Effect.interrupt p.pid, Effect.waitForFinished p.pid (some 100)]
            ++ (if finishedInTime then []
                else [Effect.kill p.pid, Effect.waitForFinished p.pid none])
            ++ [Effect.delete p.pid] ∧
      (w.on_actionStop_triggered finishedInTime).process = none ∧
      (w.on_actionStop_triggered finishedInTime).processWasStopped = true) ∧
    (w.process = none → w.on_actionStop_triggered finishedInTime = w) := by
  constructor
  · intro p hp
    cases finishedInTime <;>
      simp [MainWindow.on_actionStop_triggered, hp, MainWindow.procFinished]
  · intro hn
    simp only [MainWindow.on_actionStop_triggered, hn]

theorem on_actionStop_triggered_spec_witness :
    (sampleWindow.run [Event.tabChange (some 1), Event.run SaveChoice.save true false]).process
      = some { pid := 0, kind := ProcKind.compileZinc } ∧
    (((sampleWindow.run [Event.tabChange (some 1),
        Event.run SaveChoice.save true false]).on_actionStop_triggered false).log
      = (sampleWindow.run [Event.tabChange (some 1), Event.run SaveChoice.save true false]).log
          ++ [Effect.interrupt 0, Effect.waitForFinished 0 (some 100)]
          ++ (if false then [] else [Effect.kill 0, Effect.waitForFinished 0 none])
          ++ [Effect.delete 0] ∧
     ((sampleWindow.run [Event.tabChange (some 1),
        Event.run SaveChoice.save true false]).on_actionStop_triggered false).process = none ∧
     ((sampleWindow.run [Event.tabChange (some 1),
        Event.run SaveChoice.save true false]).on_actionStop_triggered false).processWasStopped
       = true) ∧
    sampleWindow.process = none ∧
    sampleWindow.on_actionStop_triggered true = sampleWindow :=
  ⟨by decide,
   (on_actionStop_triggered_spec
      (sampleWindow.run [Event.tabChange (some 1), Event.run SaveChoice.save true false])
      false).1 { pid := 0, kind := ProcKind.compileZinc } (by decide),
   by decide,
   (on_actionStop_triggered_spec sampleWindow true).2 (by decide)⟩

theorem MainWindow.on_actionRun_triggered_of_unmodified (w : MainWindow) (ce : CodeEditor)
    (clicked : SaveChoice) (writable upToDate : Bool)
    (h : w.editor = some ce) (hp : ce.filepath ≠ "") (hm : ce.modified = false) :
    w.on_actionRun_triggered clicked writable upToDate =
      if upToDate then w.startRunZinc
      else ({ w with compileOnly := false }).startCompileZinc := by
  cases upToDate <;>
    simp [MainWindow.on_actionRun_triggered, h, hp, hm]

theorem MainWindow.on_actionRun_triggered_of_declined (w : MainWindow) (ce : CodeEditor)
    (writable upToDate : Bool)
    (h : w.editor = some ce) (hm : ce.modified = true) (hs : w.saveBeforeRunning = false) :
    w.on_actionRun_triggered SaveChoice.cancel writable upToDate = w := by
  by_cases hp : ce.filepath = "" <;>
    simp [MainWindow.on_actionRun_triggered, h, hp, hm, hs]

theorem MainWindow.on_actionRun_triggered_of_saving (w : MainWindow) (ce : CodeEditor)
    (clicked : SaveChoice) (writable upToDate : Bool)
    (h : w.editor = some ce) (hp : ce.filepath ≠ "") (hm : ce.modified = true)
    (hc : w.saveBeforeRunning = true ∨ clicked ≠ SaveChoice.cancel) :
    w.on_actionRun_triggered clicked writable upToDate =
      if writable then
        (if upToDate then ((w.beforeSave clicked).on_actionSave_triggered true).startRunZinc
         else ({ (w.beforeSave clicked).on_actionSave_triggered true with
                 compileOnly := false }).startCompileZinc)
      else (w.beforeSave clicked).on_actionSave_triggered false := by
  have hb : (w.beforeSave clicked).editor = some ce := by
    unfold MainWindow.beforeSave
    split
    · exact h
    · exact h
  have hsave := fun b => ((w.beforeSave clicked).on_actionSave_triggered_of_editor ce b hb).1
  have key : w.on_actionRun_triggered clicked writable upToDate =
      match ((w.beforeSave clicked).on_actionSave_triggered writable).editor with
      | none => (w.beforeSave clicked).on_actionSave_triggered writable
      | some ce2 =>
        if ce2.modified then (w.beforeSave clicked).on_actionSave_triggered writable
        else if !upToDate then
          ({ (w.beforeSave clicked).on_actionSave_triggered writable with
             compileOnly := false }).startCompileZinc
        else ((w.beforeSave clicked).on_actionSave_triggered writable).startRunZinc := by
    cases hsb : w.saveBeforeRunning with
    | true =>
      simp [MainWindow.on_actionRun_triggered, h, hp, hm, hsb, MainWindow.beforeSave]
    | false =>
      have hcl : clicked ≠ SaveChoice.cancel := by
        rcases hc with hc | hc
        · rw [hsb] at hc; exact Bool.noConfusion hc
        · exact hc
      cases clicked with
      | cancel => exact absurd rfl hcl
      | save => simp [MainWindow.on_actionRun_triggered, h, hp, hm, hsb, MainWindow.beforeSave]
      | alwaysSave =>
        simp [MainWindow.on_actionRun_triggered, h, hp, hm, hsb, MainWindow.beforeSave]
  rw [key, hsave writable]
  cases writable <;> cases upToDate <;> simp [hm]

/-- C9. `on_actionRun_triggered` starts a process only from a window whose
current document is unmodified: whenever it adds to the process log, it is by
`startCompileZinc` or `startRunZinc` entered in a state whose current editor
has the modified flag clear, and that editor is still current and unmodified
when the handler returns. If the document is modified and the user declines
the save dialog, the window is unchanged; if the document is modified and the
save attempt fails, no process is started and the document stays modified;
with no current editor or an empty file path the window is unchanged. -/
theorem on_actionRun_triggered_save_gate (w : MainWindow) (clicked : SaveChoice)
    (writable upToDate : Bool) :
    ((w.on_actionRun_triggered clicked writable upToDate).log ≠ w.log →
      ∃ (w2 : MainWindow) (ce2 : CodeEditor), w2.editor = some ce2 ∧ ce2.modified = false ∧ w2.log = w.log ∧
        (w.on_actionRun_triggered clicked writable upToDate
            = ({ w2 with compileOnly := false }).startCompileZinc ∨
         w.on_actionRun_triggered clicked writable upToDate = w2.startRunZinc) ∧
        (w.on_actionRun_triggered clicked writable upToDate).editor = some ce2) ∧
    (∀ ce, w.editor = some ce → ce.modified = true → w.saveBeforeRunning = false →
      clicked = SaveChoice.cancel →
      w.on_actionRun_triggered clicked writable upToDate = w) ∧
    (∀ ce, w.editor = some ce → ce.modified = true → writable = false →
      (w.on_actionRun_triggered clicked writable upToDate).log = w.log ∧
      (w.on_actionRun_triggered clicked writable upToDate).process = w.process ∧
      (w.on_actionRun_triggered clicked writable upToDate).nextPid = w.nextPid ∧
      (w.on_actionRun_triggered clicked writable upToDate).editor = some ce) ∧
    (w.editor = none → w.on_actionRun_triggered clicked writable upToDate = w) ∧
    (∀ ce, w.editor = some ce → ce.filepath = "" →
      w.on_actionRun_triggered clicked writable upToDate = w) := by
  have hnone : w.editor = none → w.on_actionRun_triggered clicked writable upToDate = w := by
    intro h; simp only [MainWindow.on_actionRun_triggered, h]
  have hempty : ∀ ce, w.editor = some ce → ce.filepath = "" →
      w.on_actionRun_triggered clicked writable upToDate = w := by
    intro ce h hp; simp only [MainWindow.on_actionRun_triggered, h, hp, if_true]
  have hb : ∀ ce, w.editor = some ce → (w.beforeSave clicked).editor = some ce ∧
      (w.beforeSave clicked).log = w.log ∧ (w.beforeSave clicked).process = w.process ∧
      (w.beforeSave clicked).nextPid = w.nextPid := by
    intro ce h
    unfold MainWindow.beforeSave
    split
    · exact ⟨h, rfl, rfl, rfl⟩
    · exact ⟨h, rfl, rfl, rfl⟩
  refine ⟨?_, ?_, ?_, hnone, hempty⟩
  · intro hlog
    cases h : w.editor with
    | none => rw [hnone h] at hlog; exact absurd rfl hlog
    | some ce =>
      by_cases hp : ce.filepath = ""
      · rw [hempty ce h hp] at hlog; exact absurd rfl hlog
      · cases hm : ce.modified with
        | false =>
          rw [MainWindow.on_actionRun_triggered_of_unmodified w ce clicked writable upToDate h hp hm]
          cases upToDate
          · exact ⟨w, ce, h, hm, rfl, Or.inl rfl, h⟩
          · exact ⟨w, ce, h, hm, rfl, Or.inr rfl, h⟩
        | true =>
          by_cases hc : w.saveBeforeRunning = true ∨ clicked ≠ SaveChoice.cancel
          · have hrun := MainWindow.on_actionRun_triggered_of_saving w ce clicked writable
              upToDate h hp hm hc
            obtain ⟨hbe, hbl, _, _⟩ := hb ce h
            have hs := (w.beforeSave clicked).on_actionSave_triggered_of_editor ce writable hbe
            cases writable with
            | false =>
              rw [hrun] at hlog
              simp only [Bool.false_eq_true, if_false] at hlog
              exact absurd (hs.2.1.trans hbl) hlog
            | true =>
              rw [hrun]
              have hmod : ({ ce with modified := ce.modified && !true } : CodeEditor).modified
                  = false := by
                simp only [Bool.not_true, Bool.and_false]
              cases upToDate
              · exact ⟨(w.beforeSave clicked).on_actionSave_triggered true, _, hs.1, hmod,
                  hs.2.1.trans hbl, Or.inl rfl, hs.1⟩
              · exact ⟨(w.beforeSave clicked).on_actionSave_triggered true, _, hs.1, hmod,
                  hs.2.1.trans hbl, Or.inr rfl, hs.1⟩
          · have hsb : w.saveBeforeRunning = false := by
              cases hsb : w.saveBeforeRunning with
              | false => rfl
              | true => exact absurd (Or.inl hsb) hc
            have hcl : clicked = SaveChoice.cancel := by
              by_contra hne; exact hc (Or.inr hne)
            subst hcl
            rw [MainWindow.on_actionRun_triggered_of_declined w ce writable upToDate h hm hsb]
              at hlog
            exact absurd rfl hlog
  · intro ce h hm hsb hcl
    subst hcl
    exact MainWindow.on_actionRun_triggered_of_declined w ce writable upToDate h hm hsb
  · intro ce h hm hw
    subst hw
    by_cases hp : ce.filepath = ""
    · rw [hempty ce h hp]; exact ⟨rfl, rfl, rfl, h⟩
    · by_cases hc : w.saveBeforeRunning = true ∨ clicked ≠ SaveChoice.cancel
      · rw [MainWindow.on_actionRun_triggered_of_saving w ce clicked false upToDate h hp hm hc]
        obtain ⟨hbe, hbl, hbp, hbn⟩ := hb ce h
        have hs := (w.beforeSave clicked).on_actionSave_triggered_of_editor ce false hbe
        simp only [Bool.false_eq_true, if_false]
        refine ⟨hs.2.1.trans hbl, hs.2.2.1.trans hbp, hs.2.2.2.1.trans hbn, ?_⟩
        rw [hs.1]; simp
      · have hsb : w.saveBeforeRunning = false := by
          cases hsb : w.saveBeforeRunning with
          | false => rfl
          | true => exact absurd (Or.inl hsb) hc
        have hcl : clicked = SaveChoice.cancel := by
          by_contra hne; exact hc (Or.inr hne)
        subst hcl
        rw [MainWindow.on_actionRun_triggered_of_declined w ce false upToDate h hm hsb]
        exact ⟨rfl, rfl, rfl, h⟩

theorem on_actionRun_triggered_save_gate_witness :
    (modifiedWindow.editor = some { filepath := "/home/u/m.zinc", modified := true } ∧
     modifiedWindow.saveBeforeRunning = false) ∧
    modifiedWindow.on_actionRun_triggered SaveChoice.cancel true false = modifiedWindow ∧
    ((modifiedWindow.on_actionRun_triggered SaveChoice.save false false).log
        = modifiedWindow.log ∧
     (modifiedWindow.on_actionRun_triggered SaveChoice.save false false).process
        = modifiedWindow.process ∧
     (modifiedWindow.on_actionRun_triggered SaveChoice.save false false).nextPid
        = modifiedWindow.nextPid ∧
     (modifiedWindow.on_actionRun_triggered SaveChoice.save false false).editor
        = some { filepath := "/home/u/m.zinc", modified := true }) ∧
    (modifiedWindow.on_actionRun_triggered SaveChoice.save true false).log
        ≠ modifiedWindow.log ∧
    (∃ (w2 : MainWindow) (ce2 : CodeEditor), w2.editor = some ce2 ∧ ce2.modified = false ∧
      w2.log = modifiedWindow.log ∧
      (modifiedWindow.on_actionRun_triggered SaveChoice.save true false
          = ({ w2 with compileOnly := false }).startCompileZinc ∨
       modifiedWindow.on_actionRun_triggered SaveChoice.save true false = w2.startRunZinc) ∧
      (modifiedWindow.on_actionRun_triggered SaveChoice.save true false).editor = some ce2) :=
  ⟨⟨by decide, by decide⟩,
   (on_actionRun_triggered_save_gate modifiedWindow SaveChoice.cancel true false).2.1
     { filepath := "/home/u/m.zinc", modified := true } (by decide) rfl (by decide) rfl,
   (on_actionRun_triggered_save_gate modifiedWindow SaveChoice.save false false).2.2.1
     { filepath := "/home/u/m.zinc", modified := true } (by decide) rfl rfl,
   by decide,
   (on_actionRun_triggered_save_gate modifiedWindow SaveChoice.save true false).1 (by decide)⟩

/-- C10. `compileZincFinished(exitcode)` starts the target (adds a start of a
run process to the log, through `startRunZinc` after `procFinished`) exactly
when the process was not stopped, the exit code is 0 and the cycle is not
compile-only; in every other case it starts nothing; and when the process was
stopped it leaves the window as it is, without `procFinished`. -/
theorem compileZincFinished_spec (w : MainWindow) (exitcode : Int) :
    ((∃ pid, (w.compileZincFinished exitcode).log
        = w.log ++ [Effect.start pid ProcKind.runZinc]) ↔
      (w.processWasStopped = false ∧ exitcode = 0 ∧ w.compileOnly = false)) ∧
    ((w.processWasStopped = false ∧ exitcode = 0 ∧ w.compileOnly = false) →
      w.compileZincFinished exitcode = (w.procFinished exitcode).startRunZinc) ∧
    (¬ (w.processWasStopped = false ∧ exitcode = 0 ∧ w.compileOnly = false) →
      (w.compileZincFinished exitcode).log = w.log ∧
      (w.compileZincFinished exitcode).nextPid = w.nextPid) ∧
    (w.processWasStopped = false →
      ¬ (exitcode = 0 ∧ w.compileOnly = false) →
      w.compileZincFinished exitcode = w.procFinished exitcode) ∧
    (w.processWasStopped = true → w.compileZincFinished exitcode = w) := by
  have hstart : (w.processWasStopped = false ∧ exitcode = 0 ∧ w.compileOnly = false) →
      w.compileZincFinished exitcode = (w.procFinished exitcode).startRunZinc := by
    rintro ⟨h1, h2, h3⟩
    simp [MainWindow.compileZincFinished, h1, h2, h3, MainWindow.procFinished]
  have hstop : w.processWasStopped = true → w.compileZincFinished exitcode = w := by
    intro h; simp [MainWindow.compileZincFinished, h]
  have hfin : w.processWasStopped = false → ¬ (exitcode = 0 ∧ w.compileOnly = false) →
      w.compileZincFinished exitcode = w.procFinished exitcode := by
    intro h1 h2
    have h2' : ¬ (exitcode = 0 ∧ (w.procFinished exitcode).compileOnly = false) := h2
    simp only [MainWindow.compileZincFinished, h1, Bool.false_eq_true, if_false]
    rw [if_neg h2']
  have hno : ¬ (w.processWasStopped = false ∧ exitcode = 0 ∧ w.compileOnly = false) →
      (w.compileZincFinished exitcode).log = w.log ∧
      (w.compileZincFinished exitcode).nextPid = w.nextPid := by
    intro hn
    cases hs : w.processWasStopped with
    | true => rw [hstop hs]; exact ⟨rfl, rfl⟩
    | false =>
      rw [hfin hs (fun h => hn ⟨hs, h⟩)]
      exact ⟨rfl, rfl⟩
  refine ⟨⟨?_, ?_⟩, hstart, hno, hfin, hstop⟩
  · rintro ⟨pid, hpid⟩
    by_contra hn
    rw [(hno hn).1] at hpid
    have := congrArg List.length hpid
    simp at this
  · intro h
    rw [hstart h]
    exact ⟨w.nextPid, rfl⟩

theorem compileZincFinished_spec_witness :
    (compilingWindow.processWasStopped = false ∧ (0 : Int) = 0 ∧
      compilingWindow.compileOnly = false) ∧
    compilingWindow.compileZincFinished 0 = (compilingWindow.procFinished 0).startRunZinc ∧
    (compilingWindow.on_actionStop_triggered true).processWasStopped = true ∧
    (compilingWindow.on_actionStop_triggered true).compileZincFinished 0
      = compilingWindow.on_actionStop_triggered true :=
  ⟨by decide,
   (compileZincFinished_spec compilingWindow 0).2.1 (by decide),
   by decide,
   (compileZincFinished_spec (compilingWindow.on_actionStop_triggered true) 0).2.2.2.2
     (by decide)⟩

/-! ## Theorems: large files, renaming, the end of a cycle, statistics -/

theorem IDE.loadLargeFile_of_readable (ide : IDE) (fs : FileSystem) (path : String) (d : Doc)
    (size : Nat) (content : String)
    (hd : QMap.find ide.documents path = some d) (hl : d.large = true)
    (hfs : fs path = FileEntry.readable size content) :
    ide.loadLargeFile fs path =
      ({ ide with
         documents := QMap.modify ide.documents path (fun (d : Doc) =>
           ({ d.setPlainText content with large := false } : Doc).setModified false)
         fsWatch := addPath ide.fsWatch path },
       d.editors) := by
  simp only [IDE.loadLargeFile, hd, hl, hfs, if_true]

theorem IDE.loadLargeFile_of_not_large (ide : IDE) (fs : FileSystem) (path : String) (d : Doc)
    (hd : QMap.find ide.documents path = some d) (hl : d.large = false) :
    ide.loadLargeFile fs path = (ide, []) := by
  simp only [IDE.loadLargeFile, hd, hl, Bool.false_eq_true, if_false]

/-- C17. `IDE::loadLargeFile(path)` on a registered path. If the document is
large and the file is readable: the text becomes the file content, the large
flag is cleared, the buffer is unmodified, exactly the attached editors are
notified, the path joins the watcher and every other entry is unchanged. If
the document is large and the file cannot be opened: nothing changes, so the
document stays large with its text and the watcher is as before. If the
document is not large nothing changes and nobody is notified; in particular a
second call after a successful one is a no-op. -/
theorem loadLargeFile_spec (ide : IDE) (fs : FileSystem) (path : String) (d : Doc)
    (hd : QMap.find ide.documents path = some d) :
    (d.large = true → ∀ size content, fs path = FileEntry.readable size content →
      QMap.find (ide.loadLargeFile fs path).1.documents path
        = some { d with td := { text := content, modified := false }, large := false } ∧
      (ide.loadLargeFile fs path).2 = d.editors ∧
      (∀ q, q ∈ (ide.loadLargeFile fs path).1.fsWatch ↔ q ∈ ide.fsWatch ∨ q = path) ∧
      (∀ q, q ≠ path →
        QMap.find (ide.loadLargeFile fs path).1.documents q = QMap.find ide.documents q) ∧
      ∀ fs', (ide.loadLargeFile fs path).1.loadLargeFile fs' path
        = ((ide.loadLargeFile fs path).1, [])) ∧
    (d.large = true → (∀ size content, fs path ≠ FileEntry.readable size content) →
      ide.loadLargeFile fs path = (ide, [])) ∧
    (d.large = false → ide.loadLargeFile fs path = (ide, [])) := by
  refine ⟨?_, ?_, fun hl => IDE.loadLargeFile_of_not_large ide fs path d hd hl⟩
  · intro hl size content hfs
    rw [IDE.loadLargeFile_of_readable ide fs path d size content hd hl hfs]
    have hfind : QMap.find (QMap.modify ide.documents path (fun (d : Doc) =>
        ({ d.setPlainText content with large := false } : Doc).setModified false)) path
        = some { d with td := { text := content, modified := false }, large := false } := by
      rw [QMap.find_modify_self, hd]; rfl
    refine ⟨hfind, rfl, fun q => mem_addPath _ _ _,
      fun q hq => QMap.find_modify_of_ne _ _ _ _ hq, fun fs' => ?_⟩
    exact IDE.loadLargeFile_of_not_large _ fs' path _ hfind rfl
  · intro hl hfs
    cases h : fs path with
    | missing => simp only [IDE.loadLargeFile, hd, hl, h, if_true]
    | unreadable => simp only [IDE.loadLargeFile, hd, hl, h, if_true]
    | readable size content => exact absurd h (hfs size content)

theorem loadLargeFile_spec_witness :
    (QMap.find largeIDE.documents "/home/u/big.dzn" = some largeDoc ∧
      largeDoc.large = true ∧
      sampleFS "/home/u/big.dzn" = FileEntry.readable 6000000 "n = 3;") ∧
    (QMap.find (largeIDE.loadLargeFile sampleFS "/home/u/big.dzn").1.documents "/home/u/big.dzn"
        = some { largeDoc with td := { text := "n = 3;", modified := false }, large := false } ∧
      (largeIDE.loadLargeFile sampleFS "/home/u/big.dzn").2 = largeDoc.editors) ∧
    largeIDE.loadLargeFile lockedFS "/home/u/big.dzn" = (largeIDE, []) :=
  ⟨⟨by decide, by decide, by decide⟩,
   ⟨((loadLargeFile_spec largeIDE sampleFS "/home/u/big.dzn" largeDoc (by decide)).1 rfl
       6000000 "n = 3;" (by decide)).1,
    ((loadLargeFile_spec largeIDE sampleFS "/home/u/big.dzn" largeDoc (by decide)).1 rfl
       6000000 "n = 3;" (by decide)).2.1⟩,
   (loadLargeFile_spec largeIDE lockedFS "/home/u/big.dzn" largeDoc (by decide)).2.1 rfl
     (fun size content h => by simp [lockedFS] at h)⟩

/-- C18. `IDE::renameFile(oldPath, newPath)` with `oldPath` registered: the
new path maps to the very document (buffer, text, editors, large flag) the old
path mapped to and is watched; when the two paths differ the old path is
neither registered nor watched; every other path keeps its entry and its
watched state. With `oldPath` unregistered nothing changes. -/
theorem renameFile_spec (ide : IDE) (oldPath newPath : String) :
    (∀ d, QMap.find ide.documents oldPath = some d →
      QMap.find (ide.renameFile oldPath newPath).documents newPath = some d ∧
      newPath ∈ (ide.renameFile oldPath newPath).fsWatch ∧
      (oldPath ≠ newPath →
        QMap.find (ide.renameFile oldPath newPath).documents oldPath = none ∧
        oldPath ∉ (ide.renameFile oldPath newPath).fsWatch) ∧
      (∀ q, q ≠ oldPath → q ≠ newPath →
        QMap.find (ide.renameFile oldPath newPath).documents q = QMap.find ide.documents q ∧
        (q ∈ (ide.renameFile oldPath newPath).fsWatch ↔ q ∈ ide.fsWatch))) ∧
    (QMap.find ide.documents oldPath = none → ide.renameFile oldPath newPath = ide) := by
  constructor
  · intro d hd
    have hr : ide.renameFile oldPath newPath =
        { ide with
          documents := QMap.insert (QMap.remove ide.documents oldPath) newPath d
          fsWatch := addPath (removePath ide.fsWatch oldPath) newPath } := by
      simp only [IDE.renameFile, hd]
    rw [hr]
    refine ⟨QMap.find_insert_self _ _ _, (mem_addPath _ _ _).2 (Or.inr rfl), ?_, ?_⟩
    · intro hne
      constructor
      · show QMap.find (QMap.insert (QMap.remove ide.documents oldPath) newPath d) oldPath = none
        rw [QMap.find_insert_of_ne _ _ _ _ hne]
        exact QMap.find_remove_self _ _
      · intro hmem
        rcases (mem_addPath _ _ _).1 hmem with h | h
        · exact ((mem_removePath _ _ _).1 h).2 rfl
        · exact hne h
    · intro q hqo hqn
      constructor
      · show QMap.find (QMap.insert (QMap.remove ide.documents oldPath) newPath d) q = _
        rw [QMap.find_insert_of_ne _ _ _ _ hqn]
        exact QMap.find_remove_of_ne _ _ _ hqo
      · show q ∈ addPath (removePath ide.fsWatch oldPath) newPath ↔ q ∈ ide.fsWatch
        rw [mem_addPath, mem_removePath]
        constructor
        · rintro (h | h)
          · exact h.1
          · exact absurd h hqn
        · intro h; exact Or.inl ⟨h, hqo⟩
  · intro hn
    simp only [IDE.renameFile, hn]

theorem renameFile_spec_witness :
    QMap.find sampleIDE.documents "/home/u/m.zinc" = some sampleDoc ∧
    (QMap.find (sampleIDE.renameFile "/home/u/m.zinc" "/home/u/n.zinc").documents
        "/home/u/n.zinc" = some sampleDoc ∧
      "/home/u/n.zinc" ∈ (sampleIDE.renameFile "/home/u/m.zinc" "/home/u/n.zinc").fsWatch) ∧
    (QMap.find (sampleIDE.renameFile "/home/u/m.zinc" "/home/u/n.zinc").documents
        "/home/u/m.zinc" = none ∧
      "/home/u/m.zinc" ∉ (sampleIDE.renameFile "/home/u/m.zinc" "/home/u/n.zinc").fsWatch) ∧
    sampleIDE.renameFile "/home/u/other.zinc" "/home/u/n.zinc" = sampleIDE :=
  ⟨by decide,
   ⟨((renameFile_spec sampleIDE "/home/u/m.zinc" "/home/u/n.zinc").1 sampleDoc (by decide)).1,
    ((renameFile_spec sampleIDE "/home/u/m.zinc" "/home/u/n.zinc").1 sampleDoc
      (by decide)).2.1⟩,
   ((renameFile_spec sampleIDE "/home/u/m.zinc" "/home/u/n.zinc").1 sampleDoc
      (by decide)).2.2.1 (by decide),
   (renameFile_spec sampleIDE "/home/u/other.zinc" "/home/u/n.zinc").2 (by decide)⟩

/-- C19. After `procFinished`, for any exit code and from any window state,
the window is idle: `process`, `outputProcess`, `tmpDir` and `outputBuffer`
are null, the status timer is stopped, Run, Compile and the configuration page
are enabled and Stop is disabled; `procFinished` starts, interrupts or kills
nothing. `procError` leaves the window in that same state for every kind of
process error (only its message differs). -/
theorem procFinished_idle (w : MainWindow) (exitcode : Int) (e : ProcessError) :
    ((w.procFinished exitcode).process = none ∧
      (w.procFinished exitcode).outputProcess = none ∧
      (w.procFinished exitcode).tmpDir = false ∧
      (w.procFinished exitcode).outputBuffer = false ∧
      (w.procFinished exitcode).timerActive = false ∧
      (w.procFinished exitcode).actionRun = true ∧
      (w.procFinished exitcode).actionCompile = true ∧
      (w.procFinished exitcode).configurationEnabled = true ∧
      (w.procFinished exitcode).actionStop = false ∧
      (w.procFinished exitcode).log = w.log) ∧
    (w.procError e).1 = w.procFinished 0 ∧
    ((w.procError e).1.process = none ∧
      (w.procError e).1.outputProcess = none ∧
      (w.procError e).1.tmpDir = false ∧
      (w.procError e).1.outputBuffer = false ∧
      (w.procError e).1.timerActive = false ∧
      (w.procError e).1.actionRun = true ∧
      (w.procError e).1.actionCompile = true ∧
      (w.procError e).1.configurationEnabled = true ∧
      (w.procError e).1.actionStop = false) :=
  ⟨⟨rfl, rfl, rfl, rfl, rfl, rfl, rfl, rfl, rfl, rfl⟩, rfl,
   ⟨rfl, rfl, rfl, rfl, rfl, rfl, rfl, rfl, rfl⟩⟩

theorem QVariant.value_toVariantMap (s : IDEStatistics) :
    QVariant.value s.toVariantMap "errorsShown" = QVariant.int s.errorsShown ∧
    QVariant.value s.toVariantMap "errorsClicked" = QVariant.int s.errorsClicked ∧
    QVariant.value s.toVariantMap "modelsRun" = QVariant.int s.modelsRun ∧
    QVariant.value s.toVariantMap "solvers" = QVariant.stringList s.solvers := by
  refine ⟨?_, ?_, ?_, ?_⟩ <;>
    simp [QVariant.value, IDEStatistics.toVariantMap, QMap.insert, QMap.remove, QMap.find]

/-- C15. For every statistics value `s` and every receiving object `old`,
`init` applied to `s.toVariantMap()` gives `errorsShown`, `errorsClicked`,
`modelsRun` and `solvers` equal to those of `s`; `init` with an invalid
variant leaves the receiving object as it was. -/
theorem statistics_round_trip (s old : IDEStatistics) :
    old.init (QVariant.map s.toVariantMap) = s ∧
    (old.init (QVariant.map s.toVariantMap)).errorsShown = s.errorsShown ∧
    (old.init (QVariant.map s.toVariantMap)).errorsClicked = s.errorsClicked ∧
    (old.init (QVariant.map s.toVariantMap)).modelsRun = s.modelsRun ∧
    (old.init (QVariant.map s.toVariantMap)).solvers = s.solvers ∧
    old.init QVariant.invalid = old := by
  obtain ⟨h1, h2, h3, h4⟩ := QVariant.value_toVariantMap s
  have hinit : old.init (QVariant.map s.toVariantMap) = s := by
    simp only [IDEStatistics.init, QVariant.isValid, QVariant.toMap, if_true, h1, h2, h3, h4,
      QVariant.toInt, QVariant.toStringList]
  refine ⟨hinit, ?_, ?_, ?_, ?_, ?_⟩
  · rw [hinit]
  · rw [hinit]
  · rw [hinit]
  · rw [hinit]
  · simp only [IDEStatistics.init, QVariant.isValid, Bool.false_eq_true, if_false]

/-! ## Theorems: argument lists -/

theorem emitPiece_skip (piece : List Char) :
    emitPiece SplitBehavior.SkipEmptyParts piece
      = (emitPiece SplitBehavior.KeepEmptyParts piece).filter
          (fun x => decide (x ≠ "")) := by
  have hmk : (String.mk piece.reverse = "") ↔ piece = [] := by
    constructor
    · intro h
      have h' : piece.reverse = [] := congrArg String.data h
      exact List.reverse_eq_nil_iff.1 h'
    · intro h; rw [h]; rfl
  by_cases hp : piece = []
  · subst hp
    simp [emitPiece]
  · have hne : String.mk piece.reverse ≠ "" := fun h => hp (hmk.1 h)
    simp [emitPiece, hp, hne]

theorem splitScan_skip (rest piece : List Char) :
    splitScan SplitBehavior.SkipEmptyParts piece rest
      = (splitScan SplitBehavior.KeepEmptyParts piece rest).filter
          (fun x => decide (x ≠ "")) := by
  induction rest generalizing piece with
  | nil => exact emitPiece_skip piece
  | cons c rest ih =>
    by_cases hc : c = ' '
    · simp only [splitScan, hc, if_true, List.filter_append, emitPiece_skip piece, ih []]
    · simp only [splitScan, hc, if_false, ih (c :: piece)]

/-- With `SkipEmptyParts` the scan returns the pieces of the plain split that
are not empty. -/
theorem splitOnSpace_skip (s : String) :
    splitOnSpace s SplitBehavior.SkipEmptyParts
      = (splitOnSpace s SplitBehavior.KeepEmptyParts).filter (fun x => decide (x ≠ "")) :=
  splitScan_skip s.data []

theorem emitPiece_skip_pieces (piece : List Char) (hp : ' ' ∉ piece) :
    (∀ x ∈ emitPiece SplitBehavior.SkipEmptyParts piece, x ≠ "" ∧ ' ' ∉ x.data) ∧
    ((emitPiece SplitBehavior.SkipEmptyParts piece).map String.data).flatten
      = piece.reverse := by
  by_cases he : piece = []
  · subst he
    simp [emitPiece]
  · have hne : String.mk piece.reverse ≠ "" := by
      intro h
      exact he (List.reverse_eq_nil_iff.1 (congrArg String.data h))
    have hemit : emitPiece SplitBehavior.SkipEmptyParts piece = [String.mk piece.reverse] := by
      simp [emitPiece, he]
    rw [hemit]
    constructor
    · intro x hx
      rw [List.mem_singleton] at hx
      subst hx
      exact ⟨hne, fun h => hp (List.mem_reverse.1 h)⟩
    · simp

theorem splitScan_skip_pieces (rest piece : List Char) (hp : ' ' ∉ piece) :
    (∀ x ∈ splitScan SplitBehavior.SkipEmptyParts piece rest, x ≠ "" ∧ ' ' ∉ x.data) ∧
    ((splitScan SplitBehavior.SkipEmptyParts piece rest).map String.data).flatten
      = piece.reverse ++ rest.filter (fun c => decide (c ≠ ' ')) := by
  induction rest generalizing piece with
  | nil =>
    obtain ⟨h1, h2⟩ := emitPiece_skip_pieces piece hp
    simp only [splitScan, List.filter_nil, List.append_nil]
    exact ⟨h1, h2⟩
  | cons c rest ih =>
    by_cases hc : c = ' '
    · subst hc
      obtain ⟨ih1, ih2⟩ := ih [] (List.not_mem_nil _)
      obtain ⟨h1, h2⟩ := emitPiece_skip_pieces piece hp
      simp only [splitScan, if_true]
      constructor
      · intro x hx
        rcases List.mem_append.1 hx with hx | hx
        · exact h1 x hx
        · exact ih1 x hx
      · rw [List.map_append, List.flatten_append, h2, ih2]
        simp
    · have hp' : ' ' ∉ c :: piece := by
        intro h
        rcases List.mem_cons.1 h with h | h
        · exact hc h.symm
        · exact hp h
      obtain ⟨ih1, ih2⟩ := ih (c :: piece) hp'
      simp only [splitScan, hc, if_false]
      refine ⟨ih1, ?_⟩
      rw [ih2]
      simp [hc]

/-- The step of an argument list that grows under a condition. -/
theorem append_if {α : Type} (c : Prop) [Decidable c] (ret x : List α) :
    (if c then ret ++ x else ret) = ret ++ (if c then x else []) := by
  split <;> simp

/-- C11. `parseRunConf` returns exactly, in this order: the first data file
unless its selection is "None", the second data file unless its selection is
"None", "-s" and the decimal number of solutions unless that number is 1,
"-S" if statistics are requested, "-v" if verbose is checked and, if solver
flags are enabled, the flags text split on single spaces with the empty pieces
dropped (`runArguments`). Those pieces are not empty, hold no space, and
together are the flags text without its spaces. -/
theorem parseRunConf_eq_runArguments (project : RunConfiguration) :
    parseRunConf project = runArguments project ∧
    (∀ x ∈ splitOnSpace project.solverFlags SplitBehavior.SkipEmptyParts,
      x ≠ "" ∧ ' ' ∉ x.data) ∧
    ((splitOnSpace project.solverFlags SplitBehavior.SkipEmptyParts).map String.data).flatten
      = project.solverFlags.data.filter (fun c => decide (c ≠ ' ')) := by
  refine ⟨?_, ?_⟩
  · simp only [parseRunConf, append_if]
    simp only [runArguments, splitOnSpace_skip, List.nil_append, List.append_assoc]
  · have h := splitScan_skip_pieces project.solverFlags.data [] (List.not_mem_nil _)
    simpa [splitOnSpace] using h

theorem parseRunConf_eq_runArguments_witness :
    parseRunConf sampleRunConfiguration = runArguments sampleRunConfiguration ∧
    runArguments sampleRunConfiguration
      = ["/home/u/d.dzn", "-s", "3", "-S", "--fast", "-x", "2"] ∧
    ("--fast" ∈ splitOnSpace sampleRunConfiguration.solverFlags SplitBehavior.SkipEmptyParts ∧
      ("--fast" ≠ "" ∧ ' ' ∉ "--fast".data)) :=
  ⟨(parseRunConf_eq_runArguments sampleRunConfiguration).1,
   by decide,
   by decide,
   (parseRunConf_eq_runArguments sampleRunConfiguration).2.1 "--fast" (by decide)⟩

theorem MiniZincIDE.parseConf_compile (ui : MiniZincIDE.Configuration)
    (s : MiniZincIDE.Solver) (hs : ui.solvers[ui.conf_solver]? = some s) :
    MiniZincIDE.parseConf ui true
      = some (MiniZincIDE.commonOptions ui ++ MiniZincIDE.libraryFlag s) := by
  simp only [MiniZincIDE.parseConf, hs, append_if]
  simp only [MiniZincIDE.commonOptions, MiniZincIDE.libraryFlag, List.nil_append,
    List.append_assoc, Bool.not_true, Bool.false_and, Bool.false_eq_true, if_false,
    List.append_nil]

theorem MiniZincIDE.parseConf_run (ui : MiniZincIDE.Configuration)
    (s : MiniZincIDE.Solver) (hs : ui.solvers[ui.conf_solver]? = some s) :
    MiniZincIDE.parseConf ui false
      = some (MiniZincIDE.commonOptions ui ++ MiniZincIDE.runOnlyOptions ui s
          ++ MiniZincIDE.libraryFlag s) := by
  simp only [MiniZincIDE.parseConf, hs, append_if]
  simp only [MiniZincIDE.commonOptions, MiniZincIDE.libraryFlag, MiniZincIDE.runOnlyOptions,
    List.nil_append, List.append_assoc, Bool.not_false, Bool.true_and, if_true,
    decide_eq_true_eq, List.cons_append, List.singleton_append]

/-- C20. For every MiniZincIDE configuration whose solver selection is one of
the list: the compile-only list is the common options followed by the library
flag, the run list is the common options, then the run-only options ("-a",
"-s", "-p" with the threads, "-r" with the seed, "-n" with the solutions, "-f"
with the executable, "-b" with the backend), then the library flag; so the
compile-only list is a sublist of the run list, what the run list has beyond
it are exactly the run-only options, and a library flag, when the solver has
one, is the last element of both. -/
theorem parseConf_compile_sublist_of_run (ui : MiniZincIDE.Configuration)
    (s : MiniZincIDE.Solver) (hs : ui.solvers[ui.conf_solver]? = some s) :
    MiniZincIDE.parseConf ui true
      = some (MiniZincIDE.commonOptions ui ++ MiniZincIDE.libraryFlag s) ∧
    MiniZincIDE.parseConf ui false
      = some (MiniZincIDE.commonOptions ui ++ MiniZincIDE.runOnlyOptions ui s
          ++ MiniZincIDE.libraryFlag s) ∧
    List.Sublist (MiniZincIDE.commonOptions ui ++ MiniZincIDE.libraryFlag s)
      (MiniZincIDE.commonOptions ui ++ MiniZincIDE.runOnlyOptions ui s
        ++ MiniZincIDE.libraryFlag s) ∧
    (s.mznlib ≠ "" →
      (MiniZincIDE.commonOptions ui ++ MiniZincIDE.libraryFlag s).getLast? = some s.mznlib ∧
      (MiniZincIDE.commonOptions ui ++ MiniZincIDE.runOnlyOptions ui s
        ++ MiniZincIDE.libraryFlag s).getLast? = some s.mznlib) := by
  refine ⟨MiniZincIDE.parseConf_compile ui s hs, MiniZincIDE.parseConf_run ui s hs, ?_, ?_⟩
  · rw [List.append_assoc]
    exact List.Sublist.append (List.Sublist.refl _) (List.sublist_append_right _ _)
  · intro hlib
    have hflag : MiniZincIDE.libraryFlag s = [s.mznlib] := by
      simp only [MiniZincIDE.libraryFlag, hlib, ne_eq, not_false_eq_true, if_true]
    rw [hflag]
    exact ⟨List.getLast?_concat _, List.getLast?_concat _⟩

theorem parseConf_compile_sublist_of_run_witness :
    MiniZincIDE.sampleConfiguration.solvers[MiniZincIDE.sampleConfiguration.conf_solver]?
      = some { name := "G12 lazyfd", executable := "flatzinc", mznlib := "-Gg12_fd",
               backend := "lazy" } ∧
    MiniZincIDE.parseConf MiniZincIDE.sampleConfiguration true
      = some ["-v", "-d/home/u/d.dzn", "-Gg12_fd"] ∧
    MiniZincIDE.parseConf MiniZincIDE.sampleConfiguration false
      = some ["-v", "-d/home/u/d.dzn", "-a", "-p4", "-f", "flatzinc", "-b", "lazy",
              "-Gg12_fd"] ∧
    List.Sublist
      (MiniZincIDE.commonOptions MiniZincIDE.sampleConfiguration
        ++ MiniZincIDE.libraryFlag { name := "G12 lazyfd", executable := "flatzinc",
                                     mznlib := "-Gg12_fd", backend := "lazy" })
      (MiniZincIDE.commonOptions MiniZincIDE.sampleConfiguration
        ++ MiniZincIDE.runOnlyOptions MiniZincIDE.sampleConfiguration
            { name := "G12 lazyfd", executable := "flatzinc", mznlib := "-Gg12_fd",
              backend := "lazy" }
        ++ MiniZincIDE.libraryFlag { name := "G12 lazyfd", executable := "flatzinc",
                                     mznlib := "-Gg12_fd", backend := "lazy" }) :=
  ⟨by decide, by decide, by decide,
   (parseConf_compile_sublist_of_run MiniZincIDE.sampleConfiguration
      { name := "G12 lazyfd", executable := "flatzinc", mznlib := "-Gg12_fd",
        backend := "lazy" } (by decide)).2.2.1⟩

/-! ## Theorems: MiniZincIDE output and cancellation -/

/-- C12. MiniZincIDE `readOutput` renders every line read by exactly one of
three rules and in the order read: the console grows by one entry per line,
the entry that `renderLine` gives for it, which is an HTML line break for
"----------\n", the HTML notice "Search complete." for "==========\n", and the
line itself as plain text for every other line. -/
theorem readOutput_renders_each_line (console : List ConsoleOp) (lines : List String) :
    MiniZincIDE.readOutput console lines = console ++ lines.map MiniZincIDE.renderLine ∧
    MiniZincIDE.renderLine "----------\n" = ConsoleOp.insertHtml "<br>" ∧
    MiniZincIDE.renderLine "==========\n"
      = ConsoleOp.insertHtml "<div style=\x27color:red;\x27>Search complete.</div><br>" ∧
    (∀ l, l ≠ "----------\n" → l ≠ "==========\n" →
      MiniZincIDE.renderLine l = ConsoleOp.insertPlainText l) := by
  refine ⟨?_, by decide, by decide, ?_⟩
  · have step : ∀ (console : List ConsoleOp) (l : String) (rest : List String),
        MiniZincIDE.readOutput console (l :: rest)
          = MiniZincIDE.readOutput (console ++ [MiniZincIDE.renderLine l]) rest := by
      intro console l rest
      simp only [MiniZincIDE.readOutput, MiniZincIDE.renderLine]
      split
      · rfl
      · split <;> rfl
    induction lines generalizing console with
    | nil => simp [MiniZincIDE.readOutput]
    | cons l rest ih =>
      rw [step, ih, List.map_cons, List.append_assoc, List.singleton_append]
  · intro l h1 h2
    simp only [MiniZincIDE.renderLine, h1, h2, if_false]

theorem readOutput_renders_each_line_witness :
    MiniZincIDE.readOutput [] ["x = 1;\n", "----------\n", "==========\n"]
      = [] ++ ["x = 1;\n", "----------\n", "==========\n"].map MiniZincIDE.renderLine ∧
    ("x = 1;\n" ≠ "----------\n" ∧ "x = 1;\n" ≠ "==========\n") ∧
    MiniZincIDE.renderLine "x = 1;\n" = ConsoleOp.insertPlainText "x = 1;\n" :=
  ⟨(readOutput_renders_each_line [] ["x = 1;\n", "----------\n", "==========\n"]).1,
   ⟨by decide, by decide⟩,
   (readOutput_renders_each_line [] []).2.2.2 "x = 1;\n" (by decide) (by decide)⟩

theorem MiniZincIDE.MainWindow.waitForFinished_of_exit (w : MiniZincIDE.MainWindow)
    (output : List String) (exitcode : Int) :
    (w.waitForFinished output (some exitcode)).process = none ∧
    (w.waitForFinished output (some exitcode)).log = w.log ∧
    (w.waitForFinished output (some exitcode)).console
      = MiniZincIDE.readOutput w.console output ∧
    (w.waitForFinished output (some exitcode)).actionRun = true ∧
    (w.waitForFinished output (some exitcode)).actionCompile = true ∧
    (w.waitForFinished output (some exitcode)).actionStop = false ∧
    (w.waitForFinished output (some exitcode)).timerActive = false := by
  by_cases h1 : w.openCompiledFznConnected = true <;> by_cases h2 : exitcode = 0 <;>
    simp [MiniZincIDE.MainWindow.waitForFinished, MiniZincIDE.MainWindow.procFinished,
      MiniZincIDE.MainWindow.openCompiledFzn, h1, h2]

theorem modifyBlock_last (pre : List (List String)) (b : List String)
    (f : List String → List String) :
    modifyBlock (pre ++ [b]) pre.length f = pre ++ [f b] := by
  induction pre with
  | nil => rfl
  | cons a rest ih =>
    show a :: modifyBlock (rest ++ [b]) rest.length f = a :: (rest ++ [f b])
    rw [ih]

theorem modifyBlock_length (blocks : List (List String)) (i : Nat)
    (f : List String → List String) :
    (modifyBlock blocks i f).length = blocks.length := by
  induction blocks generalizing i with
  | nil => rfl
  | cons a rest ih =>
    cases i with
    | zero => rfl
    | succ j => simp only [modifyBlock, List.length_cons, ih]

theorem OutputState.readOutputLine_of_content (st : OutputState) (elapsed : Nat) (l : String)
    (hmode : st.inJSONHandler = true)
    (htime : startsWith (trimmed l) "%%%mzn-json-time" = false)
    (hend : startsWith (trimmed l) "%%%mzn-json-end" = false) :
    st.readOutputLine elapsed l =
      { st with
        JSONOutput := modifyBlock st.JSONOutput st.curJSONHandler (fun b => b ++ [trimmed l]) } := by
  simp only [OutputState.readOutputLine, hmode, htime, hend, if_true, Bool.false_eq_true,
    if_false]

theorem OutputState.readOutputLine_of_time (st : OutputState) (elapsed : Nat) (l : String)
    (hmode : st.inJSONHandler = true)
    (htime : startsWith (trimmed l) "%%%mzn-json-time" = true) :
    st.readOutputLine elapsed l =
      { st with
        JSONOutput := modifyBlock st.JSONOutput st.curJSONHandler
          (fun b => (b.take 2 ++ ["["] ++ b.drop 2) ++ ["," ++ toString elapsed ++ "]\n"]) } := by
  simp only [OutputState.readOutputLine, hmode, htime, if_true]

theorem OutputState.readOutputLine_of_end (st : OutputState) (elapsed : Nat) (l : String)
    (hmode : st.inJSONHandler = true)
    (htime : startsWith (trimmed l) "%%%mzn-json-time" = false)
    (hend : startsWith (trimmed l) "%%%mzn-json-end" = true) :
    st.readOutputLine elapsed l =
      { st with curJSONHandler := st.curJSONHandler + 1, inJSONHandler := false } := by
  simp only [OutputState.readOutputLine, hmode, htime, hend, if_true, Bool.false_eq_true,
    if_false]

theorem OutputState.readOutputLine_of_header (st : OutputState) (elapsed : Nat) (l : String)
    (area url : String) (hmode : st.inJSONHandler = false)
    (hheader : matchJSONHeader (trimmed l) = some (area, url)) :
    st.readOutputLine elapsed l =
      { st with
        inJSONHandler := true
        JSONOutput := st.JSONOutput ++ [[url, if area = "" then "top" else area]] } := by
  simp only [OutputState.readOutputLine, hmode, hheader, Bool.false_eq_true, if_false]

/-- A line cannot start with the time marker and with the end marker. -/
theorem not_time_of_end (t : String) (hend : startsWith t "%%%mzn-json-end" = true) :
    startsWith t "%%%mzn-json-time" = false := by
  unfold startsWith at hend ⊢
  obtain ⟨cs⟩ := t
  have h1 : ("%%%mzn-json-end" : String).data
      = ['%', '%', '%', 'm', 'z', 'n', '-', 'j', 's', 'o', 'n', '-', 'e', 'n', 'd'] := rfl
  have h2 : ("%%%mzn-json-time" : String).data
      = ['%', '%', '%', 'm', 'z', 'n', '-', 'j', 's', 'o', 'n', '-', 't', 'i', 'm', 'e'] := rfl
  rw [h1] at hend
  rw [h2]
  simp only [List.isPrefixOf_iff_prefix] at hend
  obtain ⟨rest, hrest⟩ := hend
  rw [← hrest]
  rfl

/-- Inside a JSON block, lines that are not the end marker keep the console,
the output buffer, the viewer, the block counter and JSON mode as they are;
and when none of them is a time line and the last block is the current one,
they are appended, trimmed and in order, to that block. -/
theorem OutputState.readOutput_in_block (body : List (Nat × String)) (st : OutputState)
    (hmode : st.inJSONHandler = true)
    (hbody : ∀ x ∈ body, startsWith (trimmed x.2) "%%%mzn-json-end" = false) :
    (st.readOutput body).inJSONHandler = true ∧
    (st.readOutput body).curJSONHandler = st.curJSONHandler ∧
    (st.readOutput body).console = st.console ∧
    (st.readOutput body).outputBuffer = st.outputBuffer ∧
    (st.readOutput body).viewer = st.viewer ∧
    (st.readOutput body).hadNonJSONOutput = st.hadNonJSONOutput ∧
    (st.readOutput body).curHtmlWindow = st.curHtmlWindow ∧
    (st.readOutput body).JSONOutput.length = st.JSONOutput.length ∧
    ((∀ x ∈ body, startsWith (trimmed x.2) "%%%mzn-json-time" = false) →
      ∀ pre b, st.JSONOutput = pre ++ [b] → pre.length = st.curJSONHandler →
        (st.readOutput body).JSONOutput = pre ++ [b ++ body.map (fun x => trimmed x.2)]) := by
  induction body generalizing st with
  | nil =>
    refine ⟨hmode, rfl, rfl, rfl, rfl, rfl, rfl, rfl, ?_⟩
    intro _ pre b hb _
    simp only [OutputState.readOutput, hb, List.map_nil, List.append_nil]
  | cons x rest ih =>
    obtain ⟨elapsed, l⟩ := x
    have hend : startsWith (trimmed l) "%%%mzn-json-end" = false :=
      hbody (elapsed, l) (List.mem_cons_self _ _)
    have hrest : ∀ y ∈ rest, startsWith (trimmed y.2) "%%%mzn-json-end" = false :=
      fun y hy => hbody y (List.mem_cons_of_mem _ hy)
    cases htime : startsWith (trimmed l) "%%%mzn-json-time" with
    | true =>
      have hstep := OutputState.readOutputLine_of_time st elapsed l hmode htime
      obtain ⟨i1, i2, i3, i4, i5, i6, i7, i8, _⟩ := ih (st.readOutputLine elapsed l)
        (by rw [hstep]; exact hmode) hrest
      simp only [OutputState.readOutput]
      rw [hstep] at i1 i2 i3 i4 i5 i6 i7 i8
      rw [hstep]
      refine ⟨i1, i2, i3, i4, i5, i6, i7, ?_, ?_⟩
      · rw [i8]; exact modifyBlock_length _ _ _
      · intro hno
        have := hno (elapsed, l) (List.mem_cons_self _ _)
        rw [htime] at this
        exact Bool.noConfusion this
    | false =>
      have hstep := OutputState.readOutputLine_of_content st elapsed l hmode htime hend
      obtain ⟨i1, i2, i3, i4, i5, i6, i7, i8, i9⟩ := ih (st.readOutputLine elapsed l)
        (by rw [hstep]; exact hmode) hrest
      simp only [OutputState.readOutput]
      rw [hstep] at i1 i2 i3 i4 i5 i6 i7 i8 i9
      rw [hstep]
      refine ⟨i1, i2, i3, i4, i5, i6, i7, ?_, ?_⟩
      · rw [i8]; exact modifyBlock_length _ _ _
      · intro hno pre b hb hlen
        have hno' : ∀ y ∈ rest, startsWith (trimmed y.2) "%%%mzn-json-time" = false :=
          fun y hy => hno y (List.mem_cons_of_mem _ hy)
        have hmod : modifyBlock st.JSONOutput st.curJSONHandler (fun b => b ++ [trimmed l])
            = pre ++ [b ++ [trimmed l]] := by
          rw [hb, ← hlen]; exact modifyBlock_last pre b _
        rw [i9 hno' pre (b ++ [trimmed l]) hmod hlen]
        simp only [List.map_cons, List.append_assoc, List.singleton_append]

theorem OutputState.readOutput_append (xs ys : List (Nat × String)) (st : OutputState) :
    st.readOutput (xs ++ ys) = (st.readOutput xs).readOutput ys := by
  induction xs generalizing st with
  | nil => rfl
  | cons x rest ih =>
    obtain ⟨elapsed, l⟩ := x
    show (st.readOutputLine elapsed l).readOutput (rest ++ ys) = _
    exact ih _

/-- C13. Outside JSON mode a line whose trimmed text matches the header opens
a block (the captured text and the area, "top" when none is given). From that
line up to and including the next line that starts with "%%%mzn-json-end",
nothing is written to the console, to the output buffer or to the viewer, at
any point on the way; a line in between that is neither a time line nor the
end marker appends its trimmed text to block `curJSONHandler` and changes
nothing else; the end marker adds exactly one to the block counter and leaves
JSON mode. When the opened block is the current one and no time line occurs,
the block ends up as the captured text, the area and the trimmed lines in
order. -/
theorem readOutput_json_block (st : OutputState) (e0 eEnd : Nat) (header endLine : String)
    (area url : String) (body : List (Nat × String))
    (hmode : st.inJSONHandler = false)
    (hheader : matchJSONHeader (trimmed header) = some (area, url))
    (hbody : ∀ x ∈ body, startsWith (trimmed x.2) "%%%mzn-json-end" = false)
    (hend : startsWith (trimmed endLine) "%%%mzn-json-end" = true) :
    (∀ k, (st.readOutput (((e0, header) :: body ++ [(eEnd, endLine)]).take k)).console
          = st.console ∧
        (st.readOutput (((e0, header) :: body ++ [(eEnd, endLine)]).take k)).outputBuffer
          = st.outputBuffer ∧
        (st.readOutput (((e0, header) :: body ++ [(eEnd, endLine)]).take k)).viewer
          = st.viewer) ∧
    (st.readOutput ((e0, header) :: body ++ [(eEnd, endLine)])).inJSONHandler = false ∧
    (st.readOutput ((e0, header) :: body ++ [(eEnd, endLine)])).curJSONHandler
      = st.curJSONHandler + 1 ∧
    (∀ (s : OutputState) (e : Nat) (l : String), s.inJSONHandler = true →
      startsWith (trimmed l) "%%%mzn-json-time" = false →
      startsWith (trimmed l) "%%%mzn-json-end" = false →
      s.readOutputLine e l =
        { s with
          JSONOutput := modifyBlock s.JSONOutput s.curJSONHandler (fun b => b ++ [trimmed l]) }) ∧
    ((∀ x ∈ body, startsWith (trimmed x.2) "%%%mzn-json-time" = false) →
      st.JSONOutput.length = st.curJSONHandler →
      (st.readOutput ((e0, header) :: body ++ [(eEnd, endLine)])).JSONOutput
        = st.JSONOutput ++
            [[url, if area = "" then "top" else area] ++ body.map (fun x => trimmed x.2)]) := by
  have hhead := OutputState.readOutputLine_of_header st e0 header area url hmode hheader
  have hin : (st.readOutputLine e0 header).inJSONHandler = true := by rw [hhead]
  have inBlock : ∀ (part : List (Nat × String)),
      (∀ x ∈ part, startsWith (trimmed x.2) "%%%mzn-json-end" = false) →
      ((st.readOutputLine e0 header).readOutput part).inJSONHandler = true ∧
      ((st.readOutputLine e0 header).readOutput part).curJSONHandler = st.curJSONHandler ∧
      ((st.readOutputLine e0 header).readOutput part).console = st.console ∧
      ((st.readOutputLine e0 header).readOutput part).outputBuffer = st.outputBuffer ∧
      ((st.readOutputLine e0 header).readOutput part).viewer = st.viewer := by
    intro part hpart
    obtain ⟨i1, i2, i3, i4, i5, _⟩ :=
      OutputState.readOutput_in_block part (st.readOutputLine e0 header) hin hpart
    have h2 : (st.readOutputLine e0 header).curJSONHandler = st.curJSONHandler := by rw [hhead]
    have h3 : (st.readOutputLine e0 header).console = st.console := by rw [hhead]
    have h4 : (st.readOutputLine e0 header).outputBuffer = st.outputBuffer := by rw [hhead]
    have h5 : (st.readOutputLine e0 header).viewer = st.viewer := by rw [hhead]
    exact ⟨i1, i2.trans h2, i3.trans h3, i4.trans h4, i5.trans h5⟩
  have hfinal : st.readOutput ((e0, header) :: body ++ [(eEnd, endLine)])
      = { (st.readOutputLine e0 header).readOutput body with
          curJSONHandler := ((st.readOutputLine e0 header).readOutput body).curJSONHandler + 1
          inJSONHandler := false } := by
    have h1 : st.readOutput ((e0, header) :: body ++ [(eEnd, endLine)])
        = (((st.readOutputLine e0 header).readOutput body).readOutputLine eEnd endLine) := by
      show (st.readOutputLine e0 header).readOutput (body ++ [(eEnd, endLine)]) = _
      rw [OutputState.readOutput_append]
      rfl
    rw [h1]
    exact OutputState.readOutputLine_of_end _ eEnd endLine (inBlock body hbody).1
      (not_time_of_end _ hend) hend
  obtain ⟨b1, b2, b3, b4, b5⟩ := inBlock body hbody
  refine ⟨?_, ?_, ?_, ?_, ?_⟩
  · intro k
    cases k with
    | zero => exact ⟨rfl, rfl, rfl⟩
    | succ j =>
      by_cases hj : j ≤ body.length
      · have htake : ((e0, header) :: body ++ [(eEnd, endLine)]).take (j + 1)
            = (e0, header) :: body.take j := by
          simp only [List.cons_append, List.take_succ_cons, List.cons.injEq, true_and]
          exact List.take_append_of_le_length hj
        rw [htake]
        have hpart : ∀ x ∈ body.take j, startsWith (trimmed x.2) "%%%mzn-json-end" = false :=
          fun x hx => hbody x (List.mem_of_mem_take hx)
        obtain ⟨_, _, p3, p4, p5⟩ := inBlock (body.take j) hpart
        exact ⟨p3, p4, p5⟩
      · have htake : ((e0, header) :: body ++ [(eEnd, endLine)]).take (j + 1)
            = (e0, header) :: body ++ [(eEnd, endLine)] := by
          apply List.take_of_length_le
          simp only [List.cons_append, List.length_cons, List.length_append, List.length_nil]
          omega
        rw [htake, hfinal]
        exact ⟨b3, b4, b5⟩
  · rw [hfinal]
  · rw [hfinal]
    show ((st.readOutputLine e0 header).readOutput body).curJSONHandler + 1 = _
    rw [b2]
  · intro s e l h1 h2 h3
    exact OutputState.readOutputLine_of_content s e l h1 h2 h3
  · intro hno hlen
    rw [hfinal]
    obtain ⟨_, _, _, _, _, _, _, _, i9⟩ :=
      OutputState.readOutput_in_block body (st.readOutputLine e0 header) hin hbody
    have hopen : (st.readOutputLine e0 header).JSONOutput
        = st.JSONOutput ++ [[url, if area = "" then "top" else area]] := by rw [hhead]
    have hcur : st.JSONOutput.length = (st.readOutputLine e0 header).curJSONHandler := by
      rw [hhead]; exact hlen
    exact i9 hno st.JSONOutput _ hopen hcur

theorem readOutput_json_block_witness :
    (OutputState.initial.inJSONHandler = false ∧
      matchJSONHeader (trimmed "%%%bottom%%%mzn-json:graph.html\n") = some ("bottom", "graph.html") ∧
      startsWith (trimmed "%%%mzn-json-end\n") "%%%mzn-json-end" = true) ∧
    (OutputState.initial.readOutput
        [(20, "%%%bottom%%%mzn-json:graph.html\n"), (21, "  [1,\n"), (22, "2]\n"),
         (23, "%%%mzn-json-end\n")]).curJSONHandler = OutputState.initial.curJSONHandler + 1 ∧
    (OutputState.initial.readOutput
        ([(20, "%%%bottom%%%mzn-json:graph.html\n"), (21, "  [1,\n"), (22, "2]\n"),
          (23, "%%%mzn-json-end\n")].take 3)).console = OutputState.initial.console ∧
    (OutputState.initial.readOutput
        [(20, "%%%bottom%%%mzn-json:graph.html\n"), (21, "  [1,\n"), (22, "2]\n"),
         (23, "%%%mzn-json-end\n")]).JSONOutput
      = OutputState.initial.JSONOutput ++
          [["graph.html", if "bottom" = "" then "top" else "bottom"]
            ++ [(21, "  [1,\n"), (22, "2]\n")].map (fun x => trimmed x.2)] :=
  ⟨⟨by decide, by decide, by decide⟩,
   (readOutput_json_block OutputState.initial 20 23 "%%%bottom%%%mzn-json:graph.html\n"
      "%%%mzn-json-end\n" "bottom" "graph.html" [(21, "  [1,\n"), (22, "2]\n")]
      (by decide) (by decide) (by decide) (by decide)).2.2.1,
   ((readOutput_json_block OutputState.initial 20 23 "%%%bottom%%%mzn-json:graph.html\n"
      "%%%mzn-json-end\n" "bottom" "graph.html" [(21, "  [1,\n"), (22, "2]\n")]
      (by decide) (by decide) (by decide) (by decide)).1 3).1,
   (readOutput_json_block OutputState.initial 20 23 "%%%bottom%%%mzn-json:graph.html\n"
      "%%%mzn-json-end\n" "bottom" "graph.html" [(21, "  [1,\n"), (22, "2]\n")]
      (by decide) (by decide) (by decide) (by decide)).2.2.2.2 (by decide) (by decide)⟩

theorem OutputState.openJSONViewer_spec (st : OutputState) :
    st.openJSONViewer =
      { st with
        curHtmlWindow := true
        JSONOutput := st.JSONOutput.map (fun b => b.drop 2)
        viewer := st.viewer ++
          (if st.curHtmlWindow then []
           else [ViewerOp.openWindow (st.JSONOutput.map visWindowSpec)]) ++
          addSolutions 0 (st.JSONOutput.map (fun b => b.drop 2)) } := by
  cases h : st.curHtmlWindow with
  | true =>
    simp only [OutputState.openJSONViewer, h, if_true, List.append_nil]
  | false =>
    simp only [OutputState.openJSONViewer, h, Bool.false_eq_true, if_false]

/-- C14. Outside JSON mode, a line that trims to "----------": when at least
one JSON block has completed since the last boundary (`curJSONHandler > 0`),
the blocks go to the viewer (a window is opened from their first two elements
if there is none, and each block, without those two elements, is added as a
solution), the block list is emptied, the counter is reset to 0 and the line
is put on the console exactly when non-JSON output has been seen before; the
output buffer and the non-JSON mark are not touched. When no block has
completed (`curJSONHandler = 0`), the line is ordinary output: it goes to the
output buffer if there is one and to the console, and non-JSON output is
marked as seen; blocks, counter and viewer are not touched. -/
theorem readOutput_solution_boundary (st : OutputState) (elapsed : Nat) (l : String)
    (hmode : st.inJSONHandler = false) (hl : trimmed l = "----------") :
    (0 < st.curJSONHandler →
      st.readOutputLine elapsed l =
        { st with
          curHtmlWindow := true
          JSONOutput := []
          curJSONHandler := 0
          viewer := st.viewer ++
            (if st.curHtmlWindow then []
             else [ViewerOp.openWindow (st.JSONOutput.map visWindowSpec)]) ++
            addSolutions 0 (st.JSONOutput.map (fun b => b.drop 2))
          console := if st.hadNonJSONOutput then st.console ++ [ConsoleOp.insertPlainText l]
            else st.console }) ∧
    (st.curJSONHandler = 0 →
      st.readOutputLine elapsed l =
        { st with
          outputBuffer := st.outputBuffer.map (fun buffer => buffer ++ [l])
          console := st.console ++ [ConsoleOp.insertPlainText l]
          hadNonJSONOutput := true }) := by
  have hheader : matchJSONHeader "----------" = none := by decide
  have hne : ¬ (("----------" : String) = "==========") := by decide
  have hstep : st.readOutputLine elapsed l =
      if 0 < st.curJSONHandler then
        (if st.hadNonJSONOutput
          then ({ st.openJSONViewer with JSONOutput := [], curJSONHandler := 0 }).addOutput l
          else { st.openJSONViewer with JSONOutput := [], curJSONHandler := 0 })
      else
        { ({ st with
             outputBuffer := st.outputBuffer.map (fun buffer => buffer ++ [l]) }).addOutput l with
          hadNonJSONOutput := true } := by
    simp only [OutputState.readOutputLine, hmode, Bool.false_eq_true, if_false, hl, hheader,
      and_true, hne, and_false, OutputState.openJSONViewer_spec]
  rw [hstep]
  constructor
  · intro hcur
    rw [if_pos hcur, OutputState.openJSONViewer_spec]
    cases st.hadNonJSONOutput
    · rfl
    · rfl
  · intro hcur
    rw [if_neg (by rw [hcur]; exact Nat.lt_irrefl 0)]
    rfl

theorem readOutput_solution_boundary_witness :
    (OutputState.sample.inJSONHandler = false ∧ trimmed "----------\n" = "----------" ∧
      0 < OutputState.sample.curJSONHandler) ∧
    OutputState.sample.readOutputLine 30 "----------\n" =
      { OutputState.sample with
        curHtmlWindow := true
        JSONOutput := []
        curJSONHandler := 0
        viewer := OutputState.sample.viewer ++
          (if OutputState.sample.curHtmlWindow then []
           else [ViewerOp.openWindow (OutputState.sample.JSONOutput.map visWindowSpec)]) ++
          addSolutions 0 (OutputState.sample.JSONOutput.map (fun b => b.drop 2))
        console := if OutputState.sample.hadNonJSONOutput
          then OutputState.sample.console ++ [ConsoleOp.insertPlainText "----------\n"]
          else OutputState.sample.console } ∧
    (OutputState.sample.readOutputLine 30 "----------\n").viewer
      = [ViewerOp.openWindow [("graph.html", DockArea.top)], ViewerOp.addSolution 0 "[1, 2]"] ∧
    (OutputState.initial.curJSONHandler = 0 ∧
      OutputState.initial.readOutputLine 5 "----------\n" =
        { OutputState.initial with
          outputBuffer := OutputState.initial.outputBuffer.map
            (fun buffer => buffer ++ ["----------\n"])
          console := OutputState.initial.console ++ [ConsoleOp.insertPlainText "----------\n"]
          hadNonJSONOutput := true }) :=
  ⟨⟨by decide, by decide, by decide⟩,
   (readOutput_solution_boundary OutputState.sample 30 "----------\n" (by decide)
      (by decide)).1 (by decide),
   by decide,
   by decide,
   (readOutput_solution_boundary OutputState.initial 5 "----------\n" (by decide)
      (by decide)).2 (by decide)⟩

/-! ## Theorems: the elapsed time and the recent lists -/

theorem toInt32_of_fits (x : Int) (h0 : 0 ≤ x) (h1 : x < 2 ^ 31) : toInt32 x = x := by
  unfold toInt32
  omega

theorem elapsedParts_of_nonneg (t : Int) (ht : 0 ≤ t) (hfit : t / 3600000 < 2 ^ 31) :
    elapsedParts t = (t / 3600000, t % 3600000 / 60000, t % 60000 / 1000, t % 1000) := by
  unfold elapsedParts
  have h1 : Int.tdiv t 3600000 = t / 3600000 := Int.tdiv_eq_ediv ht (by norm_num)
  have h2 : Int.tmod t 3600000 = t % 3600000 := Int.tmod_eq_emod ht (by norm_num)
  have h3 : Int.tmod t 60000 = t % 60000 := Int.tmod_eq_emod ht (by norm_num)
  have h4 : Int.tmod t 1000 = t % 1000 := Int.tmod_eq_emod ht (by norm_num)
  have h5 : Int.tdiv (t % 3600000) 60000 = t % 3600000 / 60000 :=
    Int.tdiv_eq_ediv (by omega) (by norm_num)
  have h6 : Int.tdiv (t % 60000) 1000 = t % 60000 / 1000 :=
    Int.tdiv_eq_ediv (by omega) (by norm_num)
  rw [h1, h2, h3, h4, h5, h6]
  rw [toInt32_of_fits _ (by omega) hfit, toInt32_of_fits _ (by omega) (by omega),
    toInt32_of_fits _ (by omega) (by omega), toInt32_of_fits _ (by omega) (by omega)]

theorem String.empty_append_eq (s : String) : "" ++ s = s := by
  apply String.ext
  simp [String.data_append]

theorem string_append_if (c : Prop) [Decidable c] (e x : String) :
    (if c then e ++ x else e) = e ++ (if c then x else "") := by
  split
  · rfl
  · apply String.ext
    simp [String.data_append]

/-- C30: for an elapsed time `t ≥ 0` whose hours fit an `int`,
`setElapsedTime` computes `h`, `m < 60`, `s < 60`, `ms < 1000` with
`h*3600000 + m*60000 + s*1000 + ms = t`, and returns the text made of
"<h>h " iff `h > 0`, "<m>m " iff `h > 0` or `m > 0`, "<s>s" iff `t ≥ 1000`
and " <ms>msec" iff `t < 60000`, in that order; the text is not empty. -/
theorem setElapsedTime_spec (t : Int) (ht : 0 ≤ t) (hfit : t / 3600000 < 2 ^ 31) :
    ∃ h m s ms : Int,
      elapsedParts t = (h, m, s, ms) ∧
      0 ≤ h ∧ 0 ≤ m ∧ m < 60 ∧ 0 ≤ s ∧ s < 60 ∧ 0 ≤ ms ∧ ms < 1000 ∧
      h * 3600000 + m * 60000 + s * 1000 + ms = t ∧
      setElapsedTime t =
        (if h > 0 then toString h ++ "h " else "") ++
        (if h > 0 ∨ m > 0 then toString m ++ "m " else "") ++
        (if t ≥ 1000 then toString s ++ "s" else "") ++
        (if t < 60000 then " " ++ toString ms ++ "msec" else "") ∧
      setElapsedTime t ≠ "" := by
  have hparts := elapsedParts_of_nonneg t ht hfit
  refine ⟨t / 3600000, t % 3600000 / 60000, t % 60000 / 1000, t % 1000, hparts,
    by omega, by omega, by omega, by omega, by omega, by omega, by omega, by omega, ?_, ?_⟩
  · have hs : (t / 3600000 > 0 ∨ t % 3600000 / 60000 > 0 ∨ t % 60000 / 1000 > 0) ↔ t ≥ 1000 := by
      omega
    have hm : (t / 3600000 = 0 ∧ t % 3600000 / 60000 = 0) ↔ t < 60000 := by omega
    simp only [setElapsedTime, hparts, hs, hm, string_append_if]
    simp only [String.empty_append_eq, String.append_assoc]
  · have hm : (t / 3600000 = 0 ∧ t % 3600000 / 60000 = 0) ↔ t < 60000 := by omega
    intro hempty
    have hlen := congrArg String.length hempty
    simp only [setElapsedTime, hparts, hm] at hlen
    by_cases h60 : t < 60000
    · rw [if_pos h60] at hlen
      simp only [String.length_append] at hlen
      have : (" " : String).length = 1 := by decide
      have h0 : ("" : String).length = 0 := by decide
      omega
    · have hmin : t / 3600000 > 0 ∨ t % 3600000 / 60000 > 0 := by omega
      rw [if_neg h60, if_pos hmin] at hlen
      split at hlen <;> split at hlen <;>
        simp only [String.length_append] at hlen <;>
        (have : ("m " : String).length = 2 := by decide
         have h0 : ("" : String).length = 0 := by decide
         omega)

theorem setElapsedTime_spec_witness :
    ((0 : Int) ≤ 3723004 ∧ (3723004 : Int) / 3600000 < 2 ^ 31) ∧
    setElapsedTime 3723004 = "1h 2m 3s" ∧
    setElapsedTime 999 = " 999msec" ∧
    (∃ h m s ms : Int,
      elapsedParts 3723004 = (h, m, s, ms) ∧
      0 ≤ h ∧ 0 ≤ m ∧ m < 60 ∧ 0 ≤ s ∧ s < 60 ∧ 0 ≤ ms ∧ ms < 1000 ∧
      h * 3600000 + m * 60000 + s * 1000 + ms = 3723004 ∧
      setElapsedTime 3723004 =
        (if h > 0 then toString h ++ "h " else "") ++
        (if h > 0 ∨ m > 0 then toString m ++ "m " else "") ++
        (if (3723004 : Int) ≥ 1000 then toString s ++ "s" else "") ++
        (if (3723004 : Int) < 60000 then " " ++ toString ms ++ "msec" else "") ∧
      setElapsedTime 3723004 ≠ "") :=
  ⟨⟨by decide, by decide⟩, by decide, by decide,
   setElapsedTime_spec 3723004 (by decide) (by decide)⟩

theorem popBackLoop_eq_take (rounds : Nat) (l : List String) (h : l.length ≤ rounds + 7) :
    popBackLoop rounds l = l.take 7 := by
  induction rounds generalizing l with
  | zero =>
    simp only [popBackLoop]
    exact (List.take_of_length_le (by omega)).symm
  | succ n ih =>
    simp only [popBackLoop]
    split
    · rename_i hlen
      rw [ih l.dropLast (by rw [List.length_dropLast]; omega), List.dropLast_eq_take,
        List.take_take]
      congr 1
      omega
    · exact (List.take_of_length_le (by omega)).symm

theorem updateRecentFiles_eq (L : List String) (p : String) (hp : p ≠ "") :
    updateRecentFiles L p = (p :: L.filter (fun q => decide (q ≠ p))).take 7 := by
  simp only [updateRecentFiles, if_pos hp]
  exact popBackLoop_eq_take _ _ (by omega)

/-- C27: for every list `L` and non-empty path `p`, `updateRecentFiles(p)`
leaves the list equal to the first 7 elements of `p` followed by `L` without
its occurrences of `p`: `p` is first, occurs exactly once, the other entries
are the first entries of `L` other than `p` in their order, and the length is
at most 7; `updateRecentProjects` computes the same list; with an empty `p`
the list is unchanged. -/
theorem updateRecentFiles_spec (L : List String) (p : String) :
    (p ≠ "" →
      updateRecentFiles L p = (p :: L.filter (fun q => decide (q ≠ p))).take 7 ∧
      (updateRecentFiles L p).head? = some p ∧
      (updateRecentFiles L p).count p = 1 ∧
      (updateRecentFiles L p).tail = (L.filter (fun q => decide (q ≠ p))).take 6 ∧
      List.Sublist (updateRecentFiles L p).tail L ∧
      (updateRecentFiles L p).length ≤ 7) ∧
    updateRecentProjects L p = updateRecentFiles L p ∧
    updateRecentFiles L "" = L ∧
    updateRecentProjects L "" = L := by
  refine ⟨fun hp => ?_, ?_, ?_, ?_⟩
  · have heq := updateRecentFiles_eq L p hp
    have hcons : (p :: L.filter (fun q => decide (q ≠ p))).take 7
        = p :: (L.filter (fun q => decide (q ≠ p))).take 6 := rfl
    rw [heq, hcons]
    refine ⟨rfl, rfl, ?_, rfl, ?_, ?_⟩
    · rw [List.count_cons_self]
      have : List.count p ((L.filter (fun q => decide (q ≠ p))).take 6) = 0 := by
        rw [List.count_eq_zero]
        intro hmem
        have := List.mem_of_mem_take hmem
        simp at this
      omega
    · exact (List.take_sublist _ _).trans (List.filter_sublist _)
    · simp only [List.length_cons, List.length_take]
      omega
  · by_cases hp : p = ""
    · subst hp
      simp [updateRecentProjects, updateRecentFiles]
    · rw [updateRecentFiles_eq L p hp]
      simp only [updateRecentProjects, if_neg hp]
  · simp [updateRecentFiles]
  · simp [updateRecentProjects]

theorem updateRecentFiles_spec_witness :
    "/home/u/c.zinc" ≠ "" ∧
    updateRecentFiles
        ["/a", "/b", "/home/u/c.zinc", "/d", "/e", "/f", "/home/u/c.zinc", "/g", "/h"]
        "/home/u/c.zinc"
      = ["/home/u/c.zinc", "/a", "/b", "/d", "/e", "/f", "/g"] ∧
    (updateRecentFiles
        ["/a", "/b", "/home/u/c.zinc", "/d", "/e", "/f", "/home/u/c.zinc", "/g", "/h"]
        "/home/u/c.zinc").count "/home/u/c.zinc" = 1 :=
  ⟨by decide, by decide,
   ((updateRecentFiles_spec
      ["/a", "/b", "/home/u/c.zinc", "/d", "/e", "/f", "/home/u/c.zinc", "/g", "/h"]
      "/home/u/c.zinc").1 (by decide)).2.2.1⟩

/-! ## Theorems: editing the lines of a document -/

/-- What `on_actionShift_left_triggered` does hold to for one line: the line is
kept, or it starts with a white-space character and loses its first two
characters, whatever the second one is. -/
theorem shiftLeftLine_cases (t : String) :
    shiftLeftLine t = t ∨
    ((shiftLeftLine t).data = t.data.drop 2 ∧ ∃ c rest, t.data = c :: rest ∧ isSpace c = true) := by
  unfold shiftLeftLine
  split
  · split
    · rename_i hlen hwhite
      right
      refine ⟨rfl, ?_⟩
      match hd : t.data with
      | [] => rw [hd] at hlen; simp at hlen
      | c :: rest =>
        refine ⟨c, rest, rfl, ?_⟩
        rw [hd] at hwhite
        cases rest with
        | nil =>
          simp only [List.take, indexInWhite] at hwhite
          by_cases hc : isSpace c = true
          · exact hc
          · simp [hc] at hwhite
        | cons c2 rest2 =>
          simp only [List.take, indexInWhite] at hwhite
          by_cases hc : isSpace c = true
          · exact hc
          · rw [if_neg hc] at hwhite
            split at hwhite
            · simp at hwhite
            · split at hwhite
              · simp at hwhite
              · omega
    · left; rfl
  · left; rfl

/-- C29 (fails on the code): shift-left on a line that starts with one space
removes the space and the character after it.  On the line " x = 1;" the
letter x is deleted, and the text from the first character that is not white
space changes from "x = 1;" to "= 1;". -/
theorem shift_left_deletes_text :
    on_actionShift_left_triggered ["int: n;", " x = 1;"] 1 1 = ["int: n;", " = 1;"] ∧
    " x = 1;".data = [' ', 'x'] ++ " = 1;".data ∧
    isSpace 'x' = false ∧
    fromFirstNonSpace " x = 1;" = "x = 1;".data ∧
    fromFirstNonSpace " = 1;" = "= 1;".data := by
  decide

theorem digitsThenColon_append (digits rest : List Char) (hne : digits ≠ [])
    (hd : ∀ c ∈ digits, c.isDigit = true) :
    digitsThenColon (digits ++ ':' :: rest) = some (digits, rest) := by
  have htake : (digits ++ ':' :: rest).takeWhile Char.isDigit = digits := by
    induction digits with
    | nil => exact absurd rfl hne
    | cons c ds ih =>
      have hc : c.isDigit = true := hd c (List.mem_cons_self _ _)
      cases ds with
      | nil =>
        have hcolon : Char.isDigit ':' = false := by decide
        simp [List.takeWhile, hc, hcolon]
      | cons c2 ds2 =>
        have := ih (List.cons_ne_nil _ _) (fun x hx => hd x (List.mem_cons_of_mem _ hx))
        simp only [List.cons_append, List.takeWhile, hc] at this ⊢
        rw [this]
  have hdrop : (digits ++ ':' :: rest).dropWhile Char.isDigit = ':' :: rest := by
    clear htake
    induction digits with
    | nil => exact absurd rfl hne
    | cons c ds ih =>
      have hc : c.isDigit = true := hd c (List.mem_cons_self _ _)
      cases ds with
      | nil =>
        have hcolon : Char.isDigit ':' = false := by decide
        simp [List.dropWhile, hc, hcolon]
      | cons c2 ds2 =>
        have := ih (List.cons_ne_nil _ _) (fun x hx => hd x (List.mem_cons_of_mem _ hx))
        simp only [List.cons_append, List.dropWhile, hc] at this ⊢
        rw [this]
  unfold digitsThenColon
  rw [hdrop, htake]
  simp [hne]

theorem count_colon_of_digitsThenColon (s digits rest : List Char)
    (h : digitsThenColon s = some (digits, rest)) :
    rest.count ':' + 1 ≤ s.count ':' := by
  unfold digitsThenColon at h
  have hsplit : s = s.takeWhile Char.isDigit ++ s.dropWhile Char.isDigit :=
    (List.takeWhile_append_dropWhile _ _).symm
  match hd : s.dropWhile Char.isDigit with
  | [] => rw [hd] at h; simp at h
  | c :: r =>
    rw [hd] at h
    by_cases hc : c = ':'
    · subst hc
      simp only at h
      split at h
      · exact absurd h (by simp)
      · simp only [Option.some.injEq, Prod.mk.injEq] at h
        rw [hsplit, hd, List.count_append, List.count_cons_self, ← h.2]
        omega
    · exfalso
      revert h
      split
      · rename_i heq
        simp only [List.cons.injEq] at heq
        exact absurd heq.1 hc
      · simp

theorem count_colon_of_errexpTail (s line column message : List Char)
    (h : errexpTail s = some (line, column, message)) : 3 ≤ s.count ':' := by
  unfold errexpTail at h
  match s with
  | [] => simp at h
  | c :: afterColon =>
    by_cases hc : c = ':'
    · subst hc
      simp only at h
      match h1 : digitsThenColon afterColon with
      | none => rw [h1] at h; simp at h
      | some (l, afterLine) =>
        rw [h1] at h
        simp only at h
        match h2 : digitsThenColon afterLine with
        | none => rw [h2] at h; simp at h
        | some (col, msg) =>
          have c1 := count_colon_of_digitsThenColon _ _ _ h1
          have c2 := count_colon_of_digitsThenColon _ _ _ h2
          rw [List.count_cons_self]
          omega
    · exfalso
      revert h
      split
      · rename_i heq
        simp only [List.cons.injEq] at heq
        exact absurd heq.1 hc
      · simp

theorem count_colon_of_errexp (s : List Char) (r : List Char × List Char × List Char × List Char)
    (h : errexp s = some r) : 3 ≤ s.count ':' := by
  induction s generalizing r with
  | nil => simp [errexp] at h
  | cons c rest ih =>
    simp only [errexp] at h
    match h1 : errexp rest with
    | some r1 =>
      have := ih r1 h1
      have hle : rest.count ':' ≤ (c :: rest).count ':' := by
        rw [List.count_cons]; omega
      omega
    | none =>
      rw [h1] at h
      simp only at h
      match h2 : errexpTail (c :: rest) with
      | none => rw [h2] at h; simp at h
      | some (l, col, msg) => exact count_colon_of_errexpTail _ _ _ _ h2

theorem count_colon_digits (digits : List Char) (hd : ∀ c ∈ digits, c.isDigit = true) :
    digits.count ':' = 0 := by
  rw [List.count_eq_zero]
  intro hmem
  exact absurd (hd _ hmem) (by decide)

theorem errexp_of_diagnostic (file line column message : List Char)
    (hfile : ':' ∉ file) (hmessage : ':' ∉ message)
    (hline : line ≠ [] ∧ ∀ c ∈ line, c.isDigit = true)
    (hcolumn : column ≠ [] ∧ ∀ c ∈ column, c.isDigit = true) :
    errexp (file ++ ':' :: (line ++ ':' :: (column ++ ':' :: message)))
      = some (file, line, column, message) := by
  induction file with
  | nil =>
    have hnone : errexp (line ++ ':' :: (column ++ ':' :: message)) = none := by
      cases h : errexp (line ++ ':' :: (column ++ ':' :: message)) with
      | none => rfl
      | some r =>
        have := count_colon_of_errexp _ r h
        simp only [List.count_append, List.count_cons_self, count_colon_digits line hline.2,
          count_colon_digits column hcolumn.2, List.count_eq_zero.mpr hmessage] at this
        omega
    have htail : errexpTail (':' :: (line ++ ':' :: (column ++ ':' :: message)))
        = some (line, column, message) := by
      simp only [errexpTail, digitsThenColon_append line _ hline.1 hline.2,
        digitsThenColon_append column _ hcolumn.1 hcolumn.2]
    simp only [List.nil_append, errexp, hnone, htail]
  | cons c rest ih =>
    have hrest : ':' ∉ rest := fun h => hfile (List.mem_cons_of_mem _ h)
    have hih := ih hrest
    show errexp (c :: (rest ++ ':' :: (line ++ ':' :: (column ++ ':' :: message)))) = _
    simp only [errexp, hih]

/-- C21: for a chunk `F:L:C:M`, where `L` and `C` are non-empty runs of
decimal digits and neither `F` nor `M` holds a colon, `compileZincOutput`
puts on the console a link to the URL with scheme `err`, file `F` trimmed
and query `line=L`, labelled `F:L:`, followed by `M`, and adds exactly 1 to
`errorsShown`; a chunk the pattern does not match goes to the console as
plain text, as it is, and `errorsShown` keeps its value.  In both cases the
chunk is appended to `compileErrors`. -/
theorem compileZincOutput_spec (toString : QUrl → String) (w : CompileOutput)
    (F L C M : String) (hF : ':' ∉ F.data) (hM : ':' ∉ M.data)
    (hL : L.data ≠ [] ∧ ∀ c ∈ L.data, c.isDigit = true)
    (hC : C.data ≠ [] ∧ ∀ c ∈ C.data, c.isDigit = true) :
    compileZincOutput toString w (F ++ ":" ++ L ++ ":" ++ C ++ ":" ++ M)
      = { compileErrors := w.compileErrors ++ (F ++ ":" ++ L ++ ":" ++ C ++ ":" ++ M)
          stats := { w.stats with errorsShown := w.stats.errorsShown + 1 }
          console := w.console ++
            [ConsoleOp.insertHtml
              ("<a style=\x27color:red\x27 href=\x27"
                ++ toString { scheme := "err", path := trimmed F, query := "line=" ++ L }
                ++ "\x27>" ++ F ++ ":" ++ L ++ ":</a>" ++ M ++ "<br>")] } ∧
    ∀ l : String, errexp l.data = none →
      compileZincOutput toString w l
        = { compileErrors := w.compileErrors ++ l
            stats := w.stats
            console := w.console ++ [ConsoleOp.insertPlainText l] } := by
  constructor
  · have hdata : (F ++ ":" ++ L ++ ":" ++ C ++ ":" ++ M).data
        = F.data ++ ':' :: (L.data ++ ':' :: (C.data ++ ':' :: M.data)) := by
      simp [String.data_append]
    have hmatch := errexp_of_diagnostic F.data L.data C.data M.data hF hM hL hC
    simp only [compileZincOutput, hdata, hmatch, QUrl.fromLocalFile, QUrl.setQuery,
      QUrl.setScheme]
  · intro l hl
    simp only [compileZincOutput, hl]

theorem compileZincOutput_spec_witness :
    ((':' ∉ " /home/u/m.zinc".data ∧ ':' ∉ " syntax error\n".data) ∧
      ("12".data ≠ [] ∧ ∀ c ∈ "12".data, c.isDigit = true) ∧
      ("7".data ≠ [] ∧ ∀ c ∈ "7".data, c.isDigit = true)) ∧
    compileZincOutput sampleUrlText sampleCompileOutput " /home/u/m.zinc:12:7: syntax error\n"
      = { compileErrors := " /home/u/m.zinc:12:7: syntax error\n"
          stats := { errorsShown := 4, errorsClicked := 0, modelsRun := 1, solvers := [] }
          console :=
            [ConsoleOp.insertHtml
              ("<a style=\x27color:red\x27 href=\x27err:///home/u/m.zinc?line=12\x27>"
                ++ " /home/u/m.zinc:12:</a> syntax error\n<br>")] } ∧
    compileZincOutput sampleUrlText sampleCompileOutput "Compiling m.zinc\n"
      = { compileErrors := "Compiling m.zinc\n"
          stats := sampleCompileOutput.stats
          console := [ConsoleOp.insertPlainText "Compiling m.zinc\n"] } ∧
    compileZincOutput sampleUrlText sampleCompileOutput
        (" /home/u/m.zinc" ++ ":" ++ "12" ++ ":" ++ "7" ++ ":" ++ " syntax error\n")
      = { compileErrors := sampleCompileOutput.compileErrors
            ++ (" /home/u/m.zinc" ++ ":" ++ "12" ++ ":" ++ "7" ++ ":" ++ " syntax error\n")
          stats := { sampleCompileOutput.stats with
            errorsShown := sampleCompileOutput.stats.errorsShown + 1 }
          console := sampleCompileOutput.console ++
            [ConsoleOp.insertHtml
              ("<a style=\x27color:red\x27 href=\x27"
                ++ sampleUrlText
                  { scheme := "err", path := trimmed " /home/u/m.zinc", query := "line=" ++ "12" }
                ++ "\x27>" ++ " /home/u/m.zinc" ++ ":" ++ "12" ++ ":</a>" ++ " syntax error\n"
                ++ "<br>")] } :=
  ⟨⟨⟨by decide, by decide⟩, ⟨by decide, by decide⟩, ⟨by decide, by decide⟩⟩,
   by decide, by decide,
   (compileZincOutput_spec sampleUrlText sampleCompileOutput " /home/u/m.zinc" "12" "7"
      " syntax error\n" (by decide) (by decide) ⟨by decide, by decide⟩
      ⟨by decide, by decide⟩).1⟩

/-! ## Theorems: the indices of the JSON blocks -/

theorem modifyBlock_mem_length (blocks : List (List String)) (i : Nat)
    (f : List String → List String) (hf : ∀ b, b.length ≤ (f b).length)
    (h : ∀ b ∈ blocks, 2 ≤ b.length) :
    ∀ b ∈ modifyBlock blocks i f, 2 ≤ b.length := by
  induction blocks generalizing i with
  | nil => intro b hb; simp [modifyBlock] at hb
  | cons a rest ih =>
    have ha := h a (List.mem_cons_self _ _)
    have hrest : ∀ b ∈ rest, 2 ≤ b.length := fun b hb => h b (List.mem_cons_of_mem _ hb)
    cases i with
    | zero =>
      intro b hb
      simp only [modifyBlock, List.mem_cons] at hb
      rcases hb with hb | hb
      · rw [hb]; exact le_trans ha (hf a)
      · exact hrest b hb
    | succ j =>
      intro b hb
      simp only [modifyBlock, List.mem_cons] at hb
      rcases hb with hb | hb
      · rw [hb]; exact ha
      · exact ih j hrest b hb

theorem OutputState.Indexed_readOutputLine (st : OutputState) (elapsed : Nat) (l : String)
    (h : st.Indexed) : (st.readOutputLine elapsed l).Indexed := by
  obtain ⟨hlen, hblocks⟩ := h
  unfold OutputState.readOutputLine
  by_cases hmode : st.inJSONHandler = true
  · rw [if_pos hmode]
    rw [hmode] at hlen
    simp only [if_true] at hlen
    dsimp only
    split
    · refine ⟨?_, ?_⟩
      · simp only [modifyBlock_length, hmode, if_true]; exact hlen
      · exact modifyBlock_mem_length _ _ _ (fun b => by simp; omega) hblocks
    · split
      · refine ⟨?_, hblocks⟩
        simp only [Bool.false_eq_true, if_false]; omega
      · refine ⟨?_, ?_⟩
        · simp only [modifyBlock_length, hmode, if_true]; exact hlen
        · exact modifyBlock_mem_length _ _ _ (fun b => by simp) hblocks
  · simp only [Bool.not_eq_true] at hmode
    rw [hmode] at hlen
    simp only [Bool.false_eq_true, if_false, Nat.add_zero] at hlen
    rw [if_neg (by simp [hmode])]
    split
    · refine ⟨?_, ?_⟩
      · simp only [List.length_append, List.length_singleton, if_true]; omega
      · intro b hb
        simp only [List.mem_append, List.mem_singleton] at hb
        rcases hb with hb | hb
        · exact hblocks b hb
        · rw [hb]; simp
    · split
      · have hview : st.openJSONViewer.inJSONHandler = false := by
          unfold OutputState.openJSONViewer
          split <;> exact hmode
        dsimp only
        split
        · exact ⟨by simp [OutputState.addOutput, hview], fun b hb => by
            simp [OutputState.addOutput] at hb⟩
        · exact ⟨by simp [hview], fun b hb => by simp at hb⟩
      · split
        · have hfin : st.finishJSONViewer elapsed = { st with
              viewer := (st.finishJSONViewer elapsed).viewer } := by
            unfold OutputState.finishJSONViewer
            split <;> rfl
          dsimp only
          split
          · rw [hfin]
            exact ⟨by simp [OutputState.addOutput, hmode, hlen], hblocks⟩
          · rw [hfin]
            exact ⟨by simp [hmode, hlen], hblocks⟩
        · refine ⟨?_, hblocks⟩
          simp [OutputState.addOutput, hmode, hlen]

/-- C25: starting from block counter 0, not in JSON mode and an empty block
list, after any sequence of output lines the number of collected JSON blocks
is the block counter, plus one in JSON mode; so in JSON mode
`JSONOutput[curJSONHandler]` is within the list, and every block (as
`openJSONViewer` finds them) has at least two elements. -/
theorem readOutput_json_index_in_bounds (st : OutputState) (lines : List (Nat × String))
    (hcounter : st.curJSONHandler = 0) (hmode : st.inJSONHandler = false)
    (hblocks : st.JSONOutput = []) :
    (st.readOutput lines).JSONOutput.length
      = (st.readOutput lines).curJSONHandler
        + (if (st.readOutput lines).inJSONHandler then 1 else 0) ∧
    ((st.readOutput lines).inJSONHandler = true →
      (st.readOutput lines).curJSONHandler < (st.readOutput lines).JSONOutput.length) ∧
    (∀ b ∈ (st.readOutput lines).JSONOutput, 2 ≤ b.length) := by
  have hstart : st.Indexed := by
    refine ⟨?_, ?_⟩
    · rw [hblocks, hcounter, hmode]; rfl
    · rw [hblocks]; intro b hb; simp at hb
  have hall : ∀ (lines : List (Nat × String)) (st : OutputState), st.Indexed →
      (st.readOutput lines).Indexed := by
    intro lines
    induction lines with
    | nil => intro st h; exact h
    | cons e rest ih =>
      intro st h
      obtain ⟨elapsed, l⟩ := e
      exact ih _ (OutputState.Indexed_readOutputLine st elapsed l h)
  obtain ⟨h1, h2⟩ := hall lines st hstart
  refine ⟨h1, ?_, h2⟩
  intro hin
  rw [h1, hin]
  simp

theorem readOutput_json_index_in_bounds_witness :
    (OutputState.initial.curJSONHandler = 0 ∧ OutputState.initial.inJSONHandler = false ∧
      OutputState.initial.JSONOutput = []) ∧
    (OutputState.initial.readOutput
        [(10, "%%%mzn-json:graph.html\n"), (11, "[1,\n")]).JSONOutput
      = [["graph.html", "top", "[1,"]] ∧
    ((OutputState.initial.readOutput
        [(10, "%%%mzn-json:graph.html\n"), (11, "[1,\n")]).inJSONHandler = true →
      (OutputState.initial.readOutput
        [(10, "%%%mzn-json:graph.html\n"), (11, "[1,\n")]).curJSONHandler
      < (OutputState.initial.readOutput
        [(10, "%%%mzn-json:graph.html\n"), (11, "[1,\n")]).JSONOutput.length) :=
  ⟨⟨rfl, rfl, rfl⟩, by decide,
   (readOutput_json_index_in_bounds OutputState.initial
      [(10, "%%%mzn-json:graph.html\n"), (11, "[1,\n")] rfl rfl rfl).2.1⟩

/-! ## Theorems: the watcher invariant -/

theorem IDE.WatchesLoaded_empty : IDE.empty.WatchesLoaded := by
  intro p
  simp [IDE.empty, QMap.find]

theorem IDE.WatchesLoaded_loadFile (ide : IDE) (fs : FileSystem) (path : String)
    (h : ide.WatchesLoaded) : (ide.loadFile fs path).1.WatchesLoaded := by
  unfold IDE.loadFile
  cases hfind : QMap.find ide.documents path with
  | some d => exact h
  | none =>
    cases hfs : fs path with
    | missing => exact h
    | unreadable => exact h
    | readable size content =>
      intro p
      by_cases hp : p = path
      · subst hp
        simp only [QMap.find_insert_self, Option.some.injEq, exists_eq_left']
        by_cases hl : ((endsWith p ".dzn" || endsWith p ".fzn") &&
            decide (size > largeFileLimit)) = true
        · simp only [hl, if_true]
          constructor
          · intro hw
            obtain ⟨d, hd, _⟩ := (h p).mp hw
            rw [hfind] at hd
            exact absurd hd (by simp)
          · intro hh; exact absurd hh (by simp)
        · simp only [Bool.not_eq_true] at hl
          simp only [hl, Bool.false_eq_true, if_false, mem_addPath, or_true]
      · simp only [QMap.find_insert_of_ne _ _ _ _ hp]
        split
        · exact h p
        · rw [mem_addPath]
          simp only [hp, or_false]
          exact h p

theorem IDE.WatchesLoaded_loadLargeFile (ide : IDE) (fs : FileSystem) (path : String)
    (h : ide.WatchesLoaded) : (ide.loadLargeFile fs path).1.WatchesLoaded := by
  unfold IDE.loadLargeFile
  cases hfind : QMap.find ide.documents path with
  | none => exact h
  | some d =>
    dsimp only
    split
    · cases hfs : fs path with
      | missing => exact h
      | unreadable => exact h
      | readable size content =>
        intro p
        by_cases hp : p = path
        · subst hp
          simp only [mem_addPath, or_true, QMap.find_modify_self, hfind, Option.map,
            Option.some.injEq, exists_eq_left', true_iff]
          rfl
        · simp only [mem_addPath, hp, or_false, QMap.find_modify_of_ne _ _ _ _ hp]
          exact h p
    · exact h

theorem IDE.WatchesLoaded_addDocument (ide : IDE) (path : String) (doc : TextDocument)
    (ce : Nat) (h : ide.WatchesLoaded) : (ide.addDocument path doc ce).1.WatchesLoaded := by
  intro p
  unfold IDE.addDocument
  by_cases hp : p = path
  · subst hp
    simp only [mem_addPath, or_true, QMap.find_insert_self, Option.some.injEq,
      exists_eq_left']
  · simp only [mem_addPath, hp, or_false, QMap.find_insert_of_ne _ _ _ _ hp]
    exact h p

theorem IDE.WatchesLoaded_removeEditor (ide : IDE) (path : String) (ce : Nat)
    (h : ide.WatchesLoaded) : (ide.removeEditor path ce).WatchesLoaded := by
  unfold IDE.removeEditor
  cases hfind : QMap.find ide.documents path with
  | none => exact h
  | some d =>
    dsimp only
    split
    · intro p
      by_cases hp : p = path
      · subst hp
        simp only [mem_removePath, ne_eq, not_true_eq_false, and_false,
          QMap.find_remove_self, false_iff]
        rintro ⟨d, hd, _⟩
        exact absurd hd (by simp)
      · simp only [mem_removePath, ne_eq, hp, not_false_eq_true, and_true,
          QMap.find_remove_of_ne _ _ _ hp]
        exact h p
    · intro p
      by_cases hp : p = path
      · subst hp
        simp only [QMap.find_modify_self, hfind, Option.map, Option.some.injEq,
          exists_eq_left']
        rw [h p, hfind]
        simp
      · simp only [QMap.find_modify_of_ne _ _ _ _ hp]
        exact h p

/-- `IDE::renameFile` keeps the watcher invariant when the document it moves
is not flagged large. -/
theorem IDE.WatchesLoaded_renameFile_of_loaded (ide : IDE) (oldPath newPath : String)
    (hloaded : ∀ d, QMap.find ide.documents oldPath = some d → d.large = false)
    (h : ide.WatchesLoaded) : (ide.renameFile oldPath newPath).WatchesLoaded := by
  unfold IDE.renameFile
  cases hfind : QMap.find ide.documents oldPath with
  | none => exact h
  | some d =>
    intro p
    by_cases hp : p = newPath
    · subst hp
      simp only [mem_addPath, or_true, QMap.find_insert_self, Option.some.injEq,
        exists_eq_left', true_iff]
      exact hloaded d hfind
    · simp only [mem_addPath, hp, or_false, QMap.find_insert_of_ne _ _ _ _ hp,
        mem_removePath]
      by_cases hold : p = oldPath
      · subst hold
        simp only [ne_eq, not_true_eq_false, and_false, QMap.find_remove_self, false_iff]
        rintro ⟨d, hd, _⟩
        exact absurd hd (by simp)
      · simp only [ne_eq, hold, not_false_eq_true, and_true,
          QMap.find_remove_of_ne _ _ _ hold]
        exact h p

/-- C22 (fails on the code): the registry `largeIDE` satisfies the watcher
invariant (its only document is large and nothing is watched), and
`/home/u/big.dzn` is registered in it, `/home/u/huge.dzn` is not; after
`IDE::renameFile` moves the document, `/home/u/huge.dzn` is watched although
its document is flagged large, so the invariant does not hold. -/
theorem renameFile_watches_large_document :
    largeIDE.WatchesLoaded ∧
    largeIDE.hasFile "/home/u/big.dzn" = true ∧
    largeIDE.hasFile "/home/u/huge.dzn" = false ∧
    "/home/u/huge.dzn" ∈ (largeIDE.renameFile "/home/u/big.dzn" "/home/u/huge.dzn").fsWatch ∧
    QMap.find (largeIDE.renameFile "/home/u/big.dzn" "/home/u/huge.dzn").documents
      "/home/u/huge.dzn" = some largeDoc ∧
    largeDoc.large = true ∧
    ¬ (largeIDE.renameFile "/home/u/big.dzn" "/home/u/huge.dzn").WatchesLoaded := by
  have hwatched : "/home/u/huge.dzn"
      ∈ (largeIDE.renameFile "/home/u/big.dzn" "/home/u/huge.dzn").fsWatch := by decide
  have hdoc : QMap.find (largeIDE.renameFile "/home/u/big.dzn" "/home/u/huge.dzn").documents
      "/home/u/huge.dzn" = some largeDoc := by decide
  refine ⟨?_, by decide, by decide, hwatched, hdoc, rfl, ?_⟩
  · intro p
    constructor
    · intro hp
      simp [largeIDE] at hp
    · rintro ⟨d, hd, hl⟩
      simp only [largeIDE, QMap.find] at hd
      split at hd
      · simp only [Option.some.injEq] at hd
        rw [← hd] at hl
        exact absurd hl (by decide)
      · exact absurd hd (by simp)
  · intro hinv
    obtain ⟨d, hd, hl⟩ := (hinv "/home/u/huge.dzn").mp hwatched
    rw [hdoc] at hd
    simp only [Option.some.injEq] at hd
    rw [← hd] at hl
    exact absurd hl (by decide)

/-! ## Theorems: the project -/

theorem Project.isModified_setModified_true (p : Project) (files : Bool)
    (hroot : p.projectRoot ≠ "") : (p.setModified true files)._isModified = true := by
  unfold Project.setModified
  rw [if_pos hroot]
  by_cases h : p._isModified = true
  · rw [if_neg (by simp [h])]; exact h
  · rw [if_pos (by simpa using h)]
    cases files <;> simp

theorem Project.checkModified_of_filesModified (p : Project) (h : p._filesModified = true) :
    p.checkModified = p := by
  unfold Project.checkModified
  rw [if_pos (Or.inr h)]

/-- Once `_filesModified` is set in a modified project, configuration-change
notifications leave the project as it is but for the page they report. -/
theorem Project.configurationChanges_of_filesModified (p : Project) (uis : List Ui)
    (hfiles : p._filesModified = true) (hmod : p._isModified = true) :
    (p.configurationChanges uis)._isModified = true ∧
    (p.configurationChanges uis)._filesModified = true ∧
    (p.configurationChanges uis)._files = p._files := by
  induction uis generalizing p with
  | nil => exact ⟨hmod, hfiles, rfl⟩
  | cons ui rest ih =>
    have hstep : p.configurationChanged ui = { p with ui := ui } :=
      Project.checkModified_of_filesModified _ hfiles
    simp only [Project.configurationChanges, hstep]
    exact ih { p with ui := ui } hfiles hmod

/-- `setModified(true, true)` on a project with a root that is not modified
sets both flags. -/
theorem Project.setModified_of_unmodified (p : Project) (hroot : p.projectRoot ≠ "")
    (hmod : p._isModified = false) :
    (p.setModified true true)._isModified = true ∧
    (p.setModified true true)._filesModified = true := by
  unfold Project.setModified
  rw [if_pos hroot, if_pos (by simp [hmod])]
  simp

/-- C23 (fails on the code): the saved project has a root and is not modified.
The user ticks "print all", which marks the project modified, and then adds
`/home/u/k.zinc`: the file set changes, but `setModified(true, true)` finds
the project modified already and leaves `_filesModified` false.  When the user
unticks "print all", every configuration value is back at its saved value and
`checkModified` clears the flag: `isModified()` is false although the added
file has not been saved. -/
theorem checkModified_clears_after_addFile :
    savedProject.projectRoot = "/home/u/p.mzp" ∧
    savedProject.isModified = false ∧
    savedProject.files = ["/home/u/m.zinc"] ∧
    (savedProject.configurationChanged { sampleUi with conf_printall := true }).isModified
      = true ∧
    (savedProject.configurationChanged { sampleUi with conf_printall := true }).addFile
      sampleRelativeFilePath CourseraFile.unreadable "/home/u/k.zinc" = some projectAfterAdd ∧
    projectAfterAdd.files = ["/home/u/k.zinc", "/home/u/m.zinc"] ∧
    projectAfterAdd.isModified = true ∧
    projectAfterAdd._filesModified = false ∧
    (projectAfterAdd.configurationChanged sampleUi).isModified = false ∧
    (projectAfterAdd.configurationChanged sampleUi).files
      = ["/home/u/k.zinc", "/home/u/m.zinc"] := by
  decide

/-- What does hold for `Project::addFile`: on a project with a root that is
not modified, an `addFile` that changes the file set sets both flags, and
`isModified()` then stays true through every sequence of configuration-change
notifications. -/
theorem addFile_unmodified_stays_modified (p p' : Project) (relativeFilePath : String → String)
    (metadata : CourseraFile) (name : String) (uis : List Ui)
    (hroot : p.projectRoot ≠ "") (hmod : p._isModified = false)
    (hadd : p.addFile relativeFilePath metadata name = some p')
    (hchanged : p'._files ≠ p._files) :
    (p'.configurationChanges uis).isModified = true := by
  have hflags : p'._filesModified = true ∧ p'._isModified = true := by
    unfold Project.addFile at hadd
    split at hadd
    · simp only [Option.some.injEq] at hadd
      exact absurd (by rw [hadd]) hchanged
    · dsimp only at hadd
      split at hadd
      · exact absurd hadd (by simp)
      · split at hadd
        · simp only [Option.some.injEq] at hadd
          exact absurd (by rw [hadd]) hchanged
        · split at hadd
          · simp only [Option.some.injEq] at hadd
            exact absurd (by rw [hadd]) hchanged
          · rename_i p1 hp1
            have hp1root : p1.projectRoot ≠ "" ∧ p1._isModified = false := by
              repeat' split at hp1
              all_goals
                first
                | (cases hp1; done)
                | (cases hp1; exact ⟨hroot, hmod⟩)
            have hset := Project.setModified_of_unmodified p1 hp1root.1 hp1root.2
            split at hadd
            · exact absurd hadd (by simp)
            · simp only [Option.some.injEq] at hadd
              rw [← hadd]
              exact ⟨hset.2, hset.1⟩
  exact (Project.configurationChanges_of_filesModified p' uis hflags.1 hflags.2).1


theorem QMap.remove_of_find_none {α : Type} (m : QMap α) (k : String)
    (h : QMap.find m k = none) : QMap.remove m k = m := by
  induction m with
  | nil => rfl
  | cons e rest ih =>
    obtain ⟨k', v⟩ := e
    by_cases hk : k' = k
    · simp [QMap.find, hk] at h
    · simp only [QMap.find, hk, if_false] at h
      simp only [QMap.remove, hk, if_false, ih h]

theorem findInsertionPoint_of_new (items : List Item) (category : Category)
    (prev path : List String) (hpath : path ≠ [])
    (hnew : (⟨category, prev ++ path⟩ : Item) ∉ items) :
    ∃ prev1 left, findInsertionPoint items category prev path = some (prev1, left) ∧
      left ≠ [] ∧ prev1 ++ left = prev ++ path := by
  induction path generalizing prev with
  | nil => exact absurd rfl hpath
  | cons first rest ih =>
    unfold findInsertionPoint
    by_cases hmem : (⟨category, prev ++ [first]⟩ : Item) ∈ items
    · rw [if_pos hmem]
      cases rest with
      | nil => exact absurd hmem hnew
      | cons second rest2 =>
        have hnew2 : (⟨category, (prev ++ [first]) ++ (second :: rest2)⟩ : Item) ∉ items := by
          simpa using hnew
        obtain ⟨prev1, left, h1, h2, h3⟩ := ih (prev ++ [first]) (List.cons_ne_nil _ _) hnew2
        exact ⟨prev1, left, h1, h2, by rw [h3]; simp⟩
    · rw [if_neg hmem]
      exact ⟨prev, first :: rest, rfl, List.cons_ne_nil _ _, rfl⟩

/-- `Project::addFile` on a name that is in the project already: the project
is returned as it is. -/
theorem addFile_of_contains (p : Project) (relativeFilePath : String → String)
    (metadata : CourseraFile) (name : String) (h : QMap.contains p._files name = true) :
    p.addFile relativeFilePath metadata name = some p := by
  unfold Project.addFile
  rw [if_pos h]

/-- `Project::addFile` on a name with the suffix "fzn" whose path has a text
that is not empty: the project is returned as it is. -/
theorem addFile_of_fzn (p : Project) (relativeFilePath : String → String)
    (metadata : CourseraFile) (name : String) (path : List String)
    (hpath : dropEmptyFirst (splitPath
      (if p.projectRoot ≠ "" then relativeFilePath name else name)) = some path)
    (hfzn : suffix name = "fzn".data) :
    p.addFile relativeFilePath metadata name = some p := by
  unfold Project.addFile
  split
  · rfl
  · simp only [hpath, hfzn, if_true]

/-- What does hold for `Project::addFile` on the file set: for a name that is
not in the project, with a suffix other than "fzn" and a base name other than
"_coursera", whose texts (after the leading empty ones) name no item of the
tree yet, the files afterwards are the name and the files before. -/
theorem addFile_of_new_item (p : Project) (relativeFilePath : String → String)
    (metadata : CourseraFile) (name : String) (path : List String)
    (hnot : QMap.contains p._files name = false)
    (hfzn : suffix name ≠ "fzn".data)
    (hbase : completeBaseName name ≠ "_coursera".data)
    (hpath : dropEmptyFirst (splitPath
      (if p.projectRoot ≠ "" then relativeFilePath name else name)) = some path)
    (hnew : ∀ category, (⟨category, path⟩ : Item) ∉ p.items) :
    ∃ p', p.addFile relativeFilePath metadata name = some p' ∧
      p'.files = name :: p.files := by
  have hne : path ≠ [] := by
    intro hnil
    rw [hnil] at hpath
    generalize splitPath (if p.projectRoot ≠ "" then relativeFilePath name else name) = l
      at hpath
    induction l with
    | nil => simp [dropEmptyFirst] at hpath
    | cons first rest ih =>
      simp only [dropEmptyFirst] at hpath
      split at hpath
      · exact ih hpath
      · simp at hpath
  have hitems : (p.setModified true true).items = p.items := by
    unfold Project.setModified
    repeat' split
    all_goals rfl
  have hfiles : (p.setModified true true)._files = p._files := by
    unfold Project.setModified
    repeat' split
    all_goals rfl
  have hfind : QMap.find p._files name = none := by
    unfold QMap.contains at hnot
    cases h : QMap.find p._files name with
    | none => rfl
    | some v => rw [h] at hnot; simp at hnot
  unfold Project.addFile
  rw [if_neg (by simp [hnot])]
  simp only [hpath, if_neg hfzn, hbase, and_false, decide_False, Bool.false_eq_true, if_false]
  rw [hitems]
  obtain ⟨prev1, left, h1, h2, h3⟩ := findInsertionPoint_of_new p.items
    (if suffix name = "zinc".data then Category.zinc
      else if suffix name = "dzn".data then Category.dzn else Category.other)
    [] path hne (by simpa using hnew _)
  rw [h1]
  refine ⟨_, rfl, ?_⟩
  simp only [Project.files, if_neg h2, hfiles, QMap.insert, List.map_cons,
    QMap.remove_of_find_none _ _ hfind]

/-- C26 (fails on the code): in the untitled project that holds
`/home/u/notes/todo.txt`, the absolute name `/home/u/notes` is not in the
project, its suffix is empty (not "fzn") and its base name is "notes" (not
"_coursera").  `addFile` finds the items "home", "u" and "notes" for all of
its texts, goes on to the child of "notes" with nothing left in `path`, and
evaluates `path.first()` on the empty list: it has no defined result, and does
not reach the statement that would insert the name into the files. -/
theorem addFile_on_name_of_folder_item :
    untitledProject.addFile sampleRelativeFilePath CourseraFile.unreadable
      "/home/u/notes/todo.txt" = some notesProject ∧
    notesProject.files = ["/home/u/notes/todo.txt"] ∧
    notesProject.items
      = [⟨Category.other, ["home"]⟩, ⟨Category.other, ["home", "u"]⟩,
         ⟨Category.other, ["home", "u", "notes"]⟩,
         ⟨Category.other, ["home", "u", "notes", "todo.txt"]⟩] ∧
    QMap.contains notesProject._files "/home/u/notes" = false ∧
    suffix "/home/u/notes" = [] ∧
    completeBaseName "/home/u/notes" = "notes".data ∧
    dropEmptyFirst (splitPath "/home/u/notes") = some ["home", "u", "notes"] ∧
    findInsertionPoint notesProject.items Category.other [] ["home", "u", "notes"] = none ∧
    notesProject.addFile sampleRelativeFilePath CourseraFile.unreadable "/home/u/notes"
      = none := by
  decide
/-! ## Theorems: saving a file -/

/-- C24: when the target path of `saveFile`, the argument or, for an empty
argument, the name the dialog returns, is not empty, differs from the path of
the editor and is registered in the document registry, `saveFile` returns
after the warning "Cannot overwrite open file.": the disk, the path and the
name of the editor, its buffer with its modified flag, the registry with the
watcher, the project with its file set, and the recent files are unchanged. -/
theorem saveFile_refuses_open_file (s : Workspace) (f : String) (chosen : Option String)
    (writable : Bool) (relativeFilePath : String → String) (metadata : CourseraFile)
    (target : String) (htarget : target = if f = "" then chosen.getD "" else f)
    (hnonempty : target ≠ "") (hother : target ≠ s.ce.filepath)
    (hopen : s.ide.hasFile target = true) :
    ∃ s', s.saveFile f chosen writable relativeFilePath metadata = some s' ∧
      s'.disk = s.disk ∧
      s'.ce = s.ce ∧
      s'.document = s.document ∧
      s'.ide = s.ide ∧
      s'.project = s.project ∧
      s'.project.files = s.project.files ∧
      s'.recentFiles = s.recentFiles ∧
      s'.buffers = s.buffers ∧
      s'.calls.getLast? = some (UiCall.warning "Cannot overwrite open file.") := by
  by_cases hf : f = ""
  · subst hf
    simp only [if_true] at htarget
    cases chosen with
    | none =>
      simp only [Option.getD] at htarget
      exact absurd htarget hnonempty
    | some path =>
      simp only [Option.getD] at htarget
      subst htarget
      unfold Workspace.saveFile
      simp only [if_true, Option.getD]
      by_cases hcur : some s.ce.addr ≠ s.curEditor
      · simp only [if_pos hcur, if_pos hnonempty, if_pos (And.intro hother hopen)]
        exact ⟨_, rfl, rfl, rfl, rfl, rfl, rfl, rfl, rfl, rfl, by simp⟩
      · simp only [if_neg hcur, if_pos hnonempty, if_pos (And.intro hother hopen)]
        exact ⟨_, rfl, rfl, rfl, rfl, rfl, rfl, rfl, rfl, rfl, by simp⟩
  · simp only [if_neg hf] at htarget
    subst htarget
    unfold Workspace.saveFile
    simp only [if_neg hf, if_pos hnonempty, if_pos (And.intro hother hopen)]
    exact ⟨_, rfl, rfl, rfl, rfl, rfl, rfl, rfl, rfl, rfl, by simp⟩

theorem saveFile_refuses_open_file_witness :
    ("/home/u/m.zinc" ≠ "" ∧ "/home/u/m.zinc" ≠ sampleWorkspace.ce.filepath ∧
      sampleWorkspace.ide.hasFile "/home/u/m.zinc" = true) ∧
    ∃ s', sampleWorkspace.saveFile "" (some "/home/u/m.zinc") true sampleRelativeFilePath
        CourseraFile.unreadable = some s' ∧
      s'.disk = sampleWorkspace.disk ∧
      s'.ce = sampleWorkspace.ce ∧
      s'.document = sampleWorkspace.document ∧
      s'.ide = sampleWorkspace.ide ∧
      s'.project = sampleWorkspace.project ∧
      s'.project.files = sampleWorkspace.project.files ∧
      s'.recentFiles = sampleWorkspace.recentFiles ∧
      s'.buffers = sampleWorkspace.buffers ∧
      s'.calls.getLast? = some (UiCall.warning "Cannot overwrite open file.") :=
  ⟨⟨by decide, by decide, by decide⟩,
   saveFile_refuses_open_file sampleWorkspace "" (some "/home/u/m.zinc") true
     sampleRelativeFilePath CourseraFile.unreadable "/home/u/m.zinc" rfl
     (by decide) (by decide) (by decide)⟩

/-- A run of the other branch: "Save as" of the editor 3 to the new name
`/home/u/n.zinc`.  The text is written, the registry holds it under the new
name alone, the project lists the new name, and the editor has the new path,
an unmodified buffer and the new name first in the recent files. -/
theorem saveFile_sample_save_as :
    (sampleWorkspace.saveFile "" (some "/home/u/n.zinc") true sampleRelativeFilePath
        CourseraFile.unreadable).map (fun s =>
      (s.disk "/home/u/n.zinc", s.ce, s.document, s.ide.hasFile "/home/u/k.zinc",
        s.ide.fsWatch, s.project.files, s.recentFiles))
      = some (FileEntry.readable 7 "int: k;",
          { addr := 3, filepath := "/home/u/n.zinc", filename := "n.zinc", document := 10 },
          some { text := "int: k;", modified := false }, false,
          ["/home/u/m.zinc", "/home/u/n.zinc"],
          ["/home/u/n.zinc", "/home/u/m.zinc"],
          ["/home/u/n.zinc", "/home/u/k.zinc", "/home/u/m.zinc"]) := by
  rfl

end ZincIDE




